import Mathlib

/-!
# StochFuzz fork server: crash classification, patch engine and control loop

A shallow embedding of `src/fork_server.c` and of the status macros of
`src/config.h`.

* A wait status is a natural number, the bit pattern of the C `int`; return
  values of system calls, pids and the command count `cmd_n`, whose sign is
  tested, are integers.
* Process memory is a map from 64-bit addresses to bytes.  The bootstrap page
  (`RW_PAGE_INFO`) and the patch command map are read from that memory every
  time the source reads them.
* Declarations that live in `fork_server.h` (the `CRSCmd` record, the command
  tags, `CRS_MAP_MAX_CMD_N`, the coverage map constants) are parameters.
* System calls take their results from an explicit oracle.
* The environment block and its strings are read from memory through the
  pointer `envp`; arithmetic on `int` wraps around modulo `2 ^ 32`.
-/

namespace StochFuzz

/-! ## Wait statuses (`sys/wait.h`, included by `config.h`) -/

/-- Signal number of SIGUSR1 on Linux x86-64, the reserved marker. -/
def SIGUSR1 : Nat := 10

/-- Signal number of SIGSEGV on Linux x86-64. -/
def SIGSEGV : Nat := 11

/-- The libc macro `WTERMSIG(status)`: `status & 0x7f`. -/
def WTERMSIG (status : Nat) : Nat := status &&& 0x7f

/-- The libc macro `WEXITSTATUS(status)`: `(status & 0xff00) >> 8`. -/
def WEXITSTATUS (status : Nat) : Nat := (status &&& 0xff00) >>> 8

/-- The libc macro `WSTOPSIG(status)`, the same bits as `WEXITSTATUS`. -/
def WSTOPSIG (status : Nat) : Nat := WEXITSTATUS status

/-- The libc macro `WIFEXITED(status)`: `WTERMSIG(status) == 0`. -/
def WIFEXITED (status : Nat) : Bool := WTERMSIG status == 0

/-- Conversion of a small non-negative value to `signed char`. -/
def toSignedChar (x : Nat) : Int :=
  if x % 256 < 128 then ((x % 256 : Nat) : Int) else ((x % 256 : Nat) : Int) - 256

/-- The libc macro `WIFSIGNALED(status)`:
`((signed char) ((status & 0x7f) + 1) >> 1) > 0`. -/
def WIFSIGNALED (status : Nat) : Bool :=
  decide ((toSignedChar ((status &&& 0x7f) + 1)) >>> 1 > 0)

/-- The macro of `config.h`: `IS_SUSPECT_STATUS(s) = WIFSIGNALED(s) && (WTERMSIG(s) == SIGUSR1)`. -/
def IS_SUSPECT_STATUS (s : Nat) : Bool := WIFSIGNALED s && (WTERMSIG s == SIGUSR1)

/-- The macro of `config.h`: `IS_ABNORMAL_STATUS(s) = !WIFEXITED(s) && WIFSIGNALED(s)`. -/
def IS_ABNORMAL_STATUS (s : Nat) : Bool := !WIFEXITED s && WIFSIGNALED s

/-! ## Memory and the bootstrap page -/

/-- Process memory: the byte held at each address. -/
abbrev Mem := Nat → Nat

/-- One-byte load at a 64-bit address. -/
def load8 (m : Mem) (a : Nat) : Nat := m (a % 2 ^ 64) % 256

/-- One-byte store at a 64-bit address (`*(char *)a = v`). -/
def store8 (m : Mem) (a v : Nat) : Mem :=
  fun x => if x = a % 2 ^ 64 then v % 256 else m x

/-- Little-endian load of `w` bytes. -/
def loadLE (m : Mem) (a : Nat) : Nat → Nat
  | 0 => 0
  | w + 1 => load8 m a + 256 * loadLE m (a + 1) w

/-- Little-endian store of the low `w` bytes of `v`. -/
def storeLE (m : Mem) (a v : Nat) : Nat → Mem
  | 0 => m
  | w + 1 => storeLE (store8 m a v) (a + 1) (v / 256) w

/-- The constant `RW_PAGE_ADDR` of `config.h`. -/
def RW_PAGE_ADDR : Nat := 0x300000

/-- The constant `SHADOW_CODE_ADDR` of `config.h`. -/
def SHADOW_CODE_ADDR : Nat := 0x1f1f8000

/-- The constant of `config.h`: `LOOKUP_TABLE_ADDR = (1UL << 31) - LOOKUP_TABLE_CELL_SIZE * LOOKUP_TABLE_MAX_CELL_NUM`. -/
def LOOKUP_TABLE_ADDR : Nat := 2 ^ 31 - 4 * 0x8000000

/-- Offset of `program_base` in `__LoadingInfo`. -/
def OFF_program_base : Nat := 0

/-- Offset of `afl_prev_id` in `__LoadingInfo`. -/
def OFF_afl_prev_id : Nat := 8

/-- Offset of `client_pid` in `__LoadingInfo`. -/
def OFF_client_pid : Nat := 16

/-- Offset of `shadow_size` in `__LoadingInfo` (after four 8-byte fields and
`shadow_path[0x100]`). -/
def OFF_shadow_size : Nat := 288

/-- Offset of `lookup_tab_size` in `__LoadingInfo`. -/
def OFF_lookup_tab_size : Nat := 560

/-- Offset of `daemon_attached` in `__LoadingInfo`. -/
def OFF_daemon_attached : Nat := 1096

/-- The field read `RW_PAGE_INFO(program_base)`. -/
def program_base (m : Mem) : Nat := loadLE m (RW_PAGE_ADDR + OFF_program_base) 8

/-- The field read `RW_PAGE_INFO(shadow_size)`. -/
def shadow_size (m : Mem) : Nat := loadLE m (RW_PAGE_ADDR + OFF_shadow_size) 8

/-- The field read `RW_PAGE_INFO(lookup_tab_size)`. -/
def lookup_tab_size (m : Mem) : Nat := loadLE m (RW_PAGE_ADDR + OFF_lookup_tab_size) 8

/-! ## The patch command map -/

/-- The declarations of `fork_server.h` that `fork_server_patch` uses, taken as
parameters: the bound `CRS_MAP_MAX_CMD_N`, the four command tags, and how the
fields of the `i`-th `CRSCmd` record at `CRS_MAP_ADDR` are read from memory.
`inMap` tells which addresses belong to the command map and `bufCap` is the
capacity of the `buf` array of a record. -/
structure CRSLayout where
  CRS_MAP_MAX_CMD_N : Int
  CRS_CMD_NONE : Nat
  CRS_CMD_REMMAP : Nat
  CRS_CMD_REWRITE : Nat
  CRS_CMD_MPROTECT : Nat
  inMap : Nat → Bool
  bufCap : Nat
  cmd_type : Mem → Nat → Nat
  cmd_addr : Mem → Nat → Nat
  cmd_size : Mem → Nat → Nat
  cmd_data : Mem → Nat → Nat
  cmd_buf : Mem → Nat → Nat → Nat

/-- The tag is one of the four the patch engine recognises. -/
def CRSLayout.validTag (L : CRSLayout) (t : Nat) : Bool :=
  t == L.CRS_CMD_NONE || t == L.CRS_CMD_REMMAP || t == L.CRS_CMD_REWRITE
    || t == L.CRS_CMD_MPROTECT

/-- Sanity of a layout: the four tags are distinct, the buffer capacity fits
the `int` loop counter, and the fields of the records below
`CRS_MAP_MAX_CMD_N` (the buffer up to its capacity) are read from bytes of the
command map only. -/
def CRSLayout.Sound (L : CRSLayout) : Prop :=
  L.CRS_CMD_NONE ≠ L.CRS_CMD_REMMAP ∧ L.CRS_CMD_NONE ≠ L.CRS_CMD_REWRITE ∧
  L.CRS_CMD_NONE ≠ L.CRS_CMD_MPROTECT ∧ L.CRS_CMD_REMMAP ≠ L.CRS_CMD_REWRITE ∧
  L.CRS_CMD_REMMAP ≠ L.CRS_CMD_MPROTECT ∧ L.CRS_CMD_REWRITE ≠ L.CRS_CMD_MPROTECT ∧
  L.bufCap < 2 ^ 31 ∧
  ∀ m m2 : Mem, (∀ a, L.inMap a = true → m2 a = m a) →
    ∀ i : Nat, (i : Int) < L.CRS_MAP_MAX_CMD_N →
      L.cmd_type m2 i = L.cmd_type m i ∧ L.cmd_addr m2 i = L.cmd_addr m i ∧
      L.cmd_size m2 i = L.cmd_size m i ∧ L.cmd_data m2 i = L.cmd_data m i ∧
      ∀ j, j < L.bufCap → L.cmd_buf m2 i j = L.cmd_buf m i j

/-- The fatal messages of `fork_server.c`, one per `utils_error` call site
(and `mmap_err` for an error raised inside `utils_mmap_external_file`). -/
inductive Err
  | patch_cmd_err
  | mumap_err
  | mmap_err
  | mprotect_err
  | cmd_err
  | read_err
  | fork_err
  | wait4_err
  | msync_err
  deriving DecidableEq, Repr

/-- What the fork server does that is visible outside the function: messages
on the fuzzer descriptors and on the daemon socket, system calls, and the
inspection of a command record. -/
inductive Event
  /-- The call `sys_read(AFL_FORKSRV_FD, ..., 4)` with its return value. -/
  | afl_read (ret : Int)
  /-- The call `sys_write(AFL_FORKSRV_FD + 1, &client_pid, 4)`. -/
  | afl_write_pid (pid : Int)
  /-- The call `sys_write(AFL_FORKSRV_FD + 1, &client_status, 4)`. -/
  | afl_write_status (status : Nat)
  /-- The call `sys_write(CRS_COMM_FD, &client_status, 4)`. -/
  | crs_write_status (status : Nat)
  /-- The call `sys_read(CRS_COMM_FD, &cmd_n, 4)` with the value delivered, if any. -/
  | crs_read (reply : Option Int)
  /-- The call `sys_write(CRS_COMM_FD, &cmd_n, 4)`. -/
  | crs_write_count (n : Int)
  /-- The call of `sys_clone` with its return value. -/
  | clone (ret : Int)
  /-- The call `sys_wait4(client_pid, &client_status, 0, NULL)`. -/
  | wait4 (pid : Int) (ret : Int) (status : Nat)
  /-- A call `fork_server_patch(n, &shadow_need_sync)`. -/
  | patch (n : Int)
  /-- The read of `cmd->type` for record `i`, with the tag found. -/
  | inspect (i : Nat) (tag : Nat)
  | munmap (addr len : Nat)
  | mmap_external_file (addr : Nat)
  | mprotect (addr len prot : Nat)
  | msync (addr len : Nat)
  /-- The coverage map clear loop. -/
  | clear_map
  | exit (code : Nat)
  | kill (pid : Int) (sig : Nat)
  /-- The child closes its copies of the three descriptors. -/
  | child_close
  | error (e : Err)
  deriving DecidableEq, Repr

/-- Results of the system calls issued while record `i` is applied. -/
structure PatchSys where
  /-- Return value of `sys_munmap`. -/
  munmap : Nat → Int
  /-- Size returned by `utils_mmap_external_file`, `none` when the mapping fails. -/
  mmap_external_file : Nat → Option Nat
  /-- Memory once the shadow file is mapped again. -/
  mmap_mem : Nat → Mem → Mem
  /-- Return value of `sys_mprotect`. -/
  mprotect : Nat → Int

/-- State threaded through `fork_server_patch`. -/
structure PatchState where
  mem : Mem
  shadow_need_sync : Bool
  log : List Event
  err : Option Err

/-- The byte loop of a `CRS_CMD_REWRITE` record,
`for (int j = 0; j < cmd->size; j++) *(char *)(program_base + cmd->addr + j) = cmd->buf[j]`,
entered at `j`.  Every operand is read again from memory at each turn.  The
first argument bounds the number of turns: `j` is an `int`. -/
def rewriteLoop (L : CRSLayout) (i : Nat) : Nat → Nat → Mem → Mem
  | 0, _, m => m
  | fuel + 1, j, m =>
    if j < L.cmd_size m i then
      rewriteLoop L i fuel (j + 1)
        (store8 m (program_base m + L.cmd_addr m i + j) (L.cmd_buf m i j))
    else m

/-- Modelled from the spec: `utils_error` of `asm_utils.c` is not among the
sources; by the spec (4.2, 7) an error it reports is fatal and ends the
process.  Inside the patch engine: the message is recorded and no further
record is applied. -/
def utils_error (st : PatchState) (e : Err) : PatchState :=
  { st with log := st.log ++ [Event.error e], err := some e }

/-- Modelled from the spec: `utils_mmap_external_file` of `asm_utils.c` is not
among the sources; it maps the shadow file again at the given address and
returns its size, and a mapping that fails is fatal (spec 4.2).  The size and
the memory that results come from the oracle. -/
def utils_mmap_external_file (sys : PatchSys) (i : Nat) (m : Mem) : Option (Nat × Mem) :=
  (sys.mmap_external_file i).map (fun sz => (sz, sys.mmap_mem i m))

/-- The body of the `for` loop of `fork_server_patch` for record `i`: the tag
is read and compared with the four constants in the order of the source. -/
def patchCmd (L : CRSLayout) (sys : PatchSys) (i : Nat) (st : PatchState) : PatchState :=
  let t := L.cmd_type st.mem i
  let st := { st with log := st.log ++ [Event.inspect i t] }
  if t = L.CRS_CMD_NONE then st
  else if t = L.CRS_CMD_REMMAP then
    let a := (program_base st.mem + SHADOW_CODE_ADDR) % 2 ^ 64
    let st := { st with log := st.log ++ [Event.munmap a (shadow_size st.mem)] }
    if sys.munmap i ≠ 0 then utils_error st Err.mumap_err
    else
      let st := { st with log := st.log ++ [Event.mmap_external_file a] }
      match utils_mmap_external_file sys i st.mem with
      | none => utils_error st Err.mmap_err
      | some (sz, m2) =>
        { st with
          mem := storeLE m2 (RW_PAGE_ADDR + OFF_shadow_size) sz 8
          shadow_need_sync := false }
  else if t = L.CRS_CMD_REWRITE then
    { st with mem := rewriteLoop L i (2 ^ 31) 0 st.mem }
  else if t = L.CRS_CMD_MPROTECT then
    let st := { st with log := st.log ++
      [Event.mprotect ((L.cmd_addr st.mem i + program_base st.mem) % 2 ^ 64)
        (L.cmd_size st.mem i) (L.cmd_data st.mem i)] }
    if sys.mprotect i ≠ 0 then utils_error st Err.mprotect_err
    else st
  else utils_error st Err.cmd_err

/-- The `for (int i = 0; i < n; i++, cmd++)` loop of `fork_server_patch`, with
`cnt` records left and `i` the current index; a fatal error ends it. -/
def patchLoop (L : CRSLayout) (sys : PatchSys) : Nat → Nat → PatchState → PatchState
  | 0, _, st => st
  | cnt + 1, i, st =>
    let st1 := patchCmd L sys i st
    if st1.err.isSome then st1 else patchLoop L sys cnt (i + 1) st1

/-- The function `fork_server_patch(n, &shadow_need_sync)` run on memory `m`. -/
def fork_server_patch (L : CRSLayout) (sys : PatchSys) (n : Int) (shadow_need_sync : Bool)
    (m : Mem) : PatchState :=
  if n > L.CRS_MAP_MAX_CMD_N then
    utils_error { mem := m, shadow_need_sync := shadow_need_sync, log := [], err := none }
      Err.patch_cmd_err
  else
    patchLoop L sys n.toNat 0
      { mem := m, shadow_need_sync := shadow_need_sync, log := [], err := none }

/-! ## The control loop of `fork_server_start` (step 7) -/

/-- Constants of the headers that are not among the sources, as parameters:
the command map layout, the coverage map and the width of one store of the
clear loop (16 bytes in the SSE version, 64 in the AVX512 version). -/
structure Config where
  L : CRSLayout
  AFL_MAP_ADDR : Nat
  AFL_MAP_SIZE : Nat
  clearWidth : Nat

/-- Zero `w` consecutive bytes from address `a` (one vector store). -/
def storeZeros (m : Mem) (a : Nat) : Nat → Mem
  | 0 => m
  | w + 1 => storeZeros (store8 m a 0) (a + 1) w

/-- The loop `loop: movdqa [rax + rdi], xmm0; add rdi, w; jnz loop`.  The
result is `none` when the first argument, a bound on the number of turns, is
used up. -/
def clearLoop (w rax : Nat) : Nat → Nat → Mem → Option Mem
  | 0, _, _ => none
  | fuel + 1, rdi, m =>
    let m1 := storeZeros m ((rax + rdi) % 2 ^ 64) w
    let rdi1 := (rdi + w) % 2 ^ 64
    if rdi1 = 0 then some m1 else clearLoop w rax fuel rdi1 m1

/-- The inline assembly that clears the coverage map: `rdi = AFL_MAP_ADDR`,
`rcx = AFL_MAP_SIZE`, `lea rax, [rdi + rcx]`, `sub rdi, rax`, then the loop.
A loop that has not ended after `2 ^ 64` turns has come back to a value of
`rdi` it already had and never ends: that is the result `none`. -/
def clearMap (C : Config) (m : Mem) : Option Mem :=
  let rdi := C.AFL_MAP_ADDR % 2 ^ 64
  let rcx := C.AFL_MAP_SIZE % 2 ^ 64
  let rax := (rdi + rcx) % 2 ^ 64
  clearLoop C.clearWidth rax (2 ^ 64) ((rdi + 2 ^ 64 - rax) % 2 ^ 64) m

/-- Everything the loop receives from outside.  A step of the model (one turn
of the outer loop up to the patch round, or one turn of the patch round) makes
each kind of call at most once, `sys_msync` at most twice, so the results are
indexed by the number `t` of the step that makes the call: any sequence of
results of successive calls is one such indexing. -/
structure World where
  /-- Return value of the read of a trigger on `AFL_FORKSRV_FD`. -/
  afl_read : Nat → Int
  /-- Return value of `sys_clone`. -/
  clone : Nat → Int
  /-- Thread id stored by the kernel in the child (`CLONE_CHILD_SETTID`). -/
  child_tid : Nat → Nat
  /-- Return value of `sys_wait4` and the status it stores. -/
  wait4 : Nat → Int × Nat
  /-- Shared memory after the child has run. -/
  wait_mem : Nat → Mem → Mem
  /-- Value delivered by a read on `CRS_COMM_FD`; `none` leaves `cmd_n` as it is. -/
  crs_read : Nat → Option Int
  /-- Shared memory once the daemon has replied. -/
  crs_mem : Nat → Mem → Mem
  /-- System call results inside the call of `fork_server_patch`. -/
  patch_sys : Nat → PatchSys
  /-- Return value of the first and of the second `sys_msync` of a step. -/
  msync : Nat → Nat → Int

/-- Where the fork server stands. -/
inductive Ctl
  /-- At the top of `while (true)` (step 7.1). -/
  | head
  /-- At the top of the inner `while (true)` of step 7.5.2, about to call
  `fork_server_patch(cmd_n, &shadow_need_sync)`. -/
  | round (cmd_n : Int) (shadow_need_sync : Bool)
  /-- In the child, which has left the loop by `break`. -/
  | child
  /-- Ended by `utils_error`. -/
  | fatal (e : Err)
  /-- Ended by `sys_exit`. -/
  | exited (code : Nat)
  /-- Inside a clear loop that never ends. -/
  | hang
  deriving DecidableEq, Repr

/-- State of the fork server inside step 7: where it stands, the two booleans
`afl_attached` and `crs_loop`, memory, the events so far and the number of
steps taken. -/
structure FS where
  ctl : Ctl
  afl_attached : Bool
  crs_loop : Bool
  mem : Mem
  trace : List Event
  tick : Nat

/-- State on entry of step 7: `crs_loop = false`, nothing done yet. -/
def loopInit (afl_attached : Bool) (m : Mem) : FS :=
  { ctl := Ctl.head, afl_attached := afl_attached, crs_loop := false, mem := m, trace := [],
    tick := 0 }

/-- The state after a step that produced the events `evs`. -/
def FS.next (s : FS) (evs : List Event) (ctl : Ctl) (crs_loop : Bool) (mem : Mem) : FS :=
  { ctl := ctl, afl_attached := s.afl_attached, crs_loop := crs_loop, mem := mem,
    trace := s.trace ++ evs, tick := s.tick + 1 }

/-- Modelled from the spec: `utils_error` of `asm_utils.c` is not among the
sources; by the spec (7) an error it reports is fatal and ends the process.
Inside the loop: the events `evs` of the step are followed by the message and
the fork server has ended, `crs_loop` being what it was. -/
def FS.utils_error (s : FS) (evs : List Event) (e : Err) (mem : Mem) : FS :=
  s.next (evs ++ [Event.error e]) (Ctl.fatal e) s.crs_loop mem

/-- Modelled from the spec: `sys_exit` of `asm_utils.c` is not among the
sources; it ends the process with the given exit code (spec 4.5, 6). -/
def FS.sys_exit (s : FS) (evs : List Event) (code : Nat) (crs_loop : Bool) (mem : Mem) : FS :=
  s.next (evs ++ [Event.exit code]) (Ctl.exited code) crs_loop mem

/-- Step 7.6, reached with the events `evs` of the turn so far:
`crs_loop = false`, then the status goes to the fuzzer, or, without fuzzer, to
the daemon before the fork server exits with the exit code of the child or
signals its process group; past `sys_kill` the code goes on to the next turn
of the loop. -/
def report (s : FS) (evs : List Event) (mem : Mem) (client_status : Nat) : FS :=
  if s.afl_attached then
    s.next (evs ++ [Event.afl_write_status client_status]) Ctl.head false mem
  else if WIFEXITED client_status then
    s.sys_exit (evs ++ [Event.crs_write_status client_status]) (WEXITSTATUS client_status)
      false mem
  else if WIFSIGNALED client_status then
    s.next (evs ++ [Event.crs_write_status client_status, Event.kill 0 (WTERMSIG client_status)])
      Ctl.head false mem
  else
    s.next (evs ++ [Event.crs_write_status client_status, Event.kill 0 (WSTOPSIG client_status)])
      Ctl.head false mem

/-- One turn of the outer loop from step 7.1 up to the `continue` target, the
entry of the patch round, or an end of the process. -/
def stepHead (w : World) (s : FS) : FS :=
  let wait_afl := s.afl_attached && !s.crs_loop
  let r := w.afl_read s.tick
  let trigger := if wait_afl then [Event.afl_read r] else []
  if wait_afl && r != 4 then s.utils_error trigger Err.read_err s.mem
  else
    let client_pid := w.clone s.tick
    if client_pid < 0 then
      s.utils_error (trigger ++ [Event.clone client_pid]) Err.fork_err s.mem
    else if client_pid = 0 then
      s.next (trigger ++ [Event.clone client_pid, Event.child_close]) Ctl.child s.crs_loop
        (storeLE (storeLE s.mem (RW_PAGE_ADDR + OFF_client_pid) (w.child_tid s.tick) 8)
          (RW_PAGE_ADDR + OFF_afl_prev_id) 0 8)
    else
      let started := if wait_afl then [Event.afl_write_pid client_pid] else []
      let ret := (w.wait4 s.tick).1
      let client_status := (w.wait4 s.tick).2
      let evs := trigger ++ [Event.clone client_pid] ++ started ++
        [Event.wait4 client_pid ret client_status]
      let mem1 := w.wait_mem s.tick s.mem
      if ret < 0 then s.utils_error evs Err.wait4_err mem1
      else if IS_SUSPECT_STATUS client_status then
        let reply := w.crs_read s.tick
        let cmd_n : Int := reply.getD (-1)
        let evs2 := evs ++ [Event.crs_write_status client_status, Event.crs_read reply]
        let mem2 := w.crs_mem s.tick mem1
        if cmd_n ≥ 0 then s.next evs2 (Ctl.round cmd_n true) s.crs_loop mem2
        else report s evs2 mem2 139
      else report s evs mem1 client_status

/-- One turn of the inner loop of step 7.5.2: the call of `fork_server_patch`,
then either the follow-up exchange with the daemon, or the two `msync`, the
assignment `crs_loop = true`, the clear of the coverage map and `continue`. -/
def stepRound (C : Config) (w : World) (s : FS) (cmd_n : Int) (shadow_need_sync : Bool) : FS :=
  let out := fork_server_patch C.L (w.patch_sys s.tick) cmd_n shadow_need_sync s.mem
  let evs := Event.patch cmd_n :: out.log
  match out.err with
  | some e => s.next evs (Ctl.fatal e) s.crs_loop out.mem
  | none =>
    if cmd_n < C.L.CRS_MAP_MAX_CMD_N then
      let evs1 := evs ++ [Event.msync LOOKUP_TABLE_ADDR (lookup_tab_size out.mem)]
      if w.msync s.tick 0 ≠ 0 then s.utils_error evs1 Err.msync_err out.mem
      else
        let evs2 := if out.shadow_need_sync then
            evs1 ++ [Event.msync ((program_base out.mem + SHADOW_CODE_ADDR) % 2 ^ 64)
              (shadow_size out.mem)]
          else evs1
        if out.shadow_need_sync && w.msync s.tick 1 != 0 then
          s.utils_error evs2 Err.msync_err out.mem
        else
          match clearMap C out.mem with
          | none => s.next (evs2 ++ [Event.clear_map]) Ctl.hang true out.mem
          | some m => s.next (evs2 ++ [Event.clear_map]) Ctl.head true m
    else
      let reply := w.crs_read s.tick
      s.next (evs ++ [Event.crs_write_count cmd_n, Event.crs_read reply])
        (Ctl.round (reply.getD cmd_n) out.shadow_need_sync) s.crs_loop
        (w.crs_mem s.tick out.mem)

/-- One step of the fork server; a process that has ended stays as it is. -/
def step (C : Config) (w : World) (s : FS) : FS :=
  match s.ctl with
  | Ctl.head => stepHead w s
  | Ctl.round cmd_n sync => stepRound C w s cmd_n sync
  | _ => s

/-- The state after `k` steps. -/
def run (C : Config) (w : World) : Nat → FS → FS
  | 0, s => s
  | k + 1, s => run C w k (step C w s)

/-- Whether the event is a message on one of the two fuzzer descriptors. -/
def Event.isAfl : Event → Bool
  | Event.afl_read _ => true
  | Event.afl_write_pid _ => true
  | Event.afl_write_status _ => true
  | _ => false

/-- Whether the event is a message on the daemon socket. -/
def Event.isCrs : Event → Bool
  | Event.crs_write_status _ => true
  | Event.crs_read _ => true
  | Event.crs_write_count _ => true
  | _ => false

/-- Whether the event is a call of `fork_server_patch`. -/
def Event.isPatch : Event → Bool
  | Event.patch _ => true
  | _ => false

/-- Whether the event is a follow-up count written to the daemon. -/
def Event.isCount : Event → Bool
  | Event.crs_write_count _ => true
  | _ => false

/-- Whether the event can come from inside `fork_server_patch`. -/
def Event.inPatch : Event → Bool
  | Event.inspect _ _ => true
  | Event.munmap _ _ => true
  | Event.mmap_external_file _ => true
  | Event.mprotect _ _ _ => true
  | Event.error _ => true
  | _ => false

/-! ## Start-up of `fork_server_start` (steps 1 to 6)

The diagnostic lines printed by `utils_puts` (their texts exist in `DEBUG`
builds only) are left out. -/

/-- The constant `NO_SHM_ID` of `fork_server.c`. -/
def NO_SHM_ID : Int := -233

/-- The value an `int` holds after an operation whose arithmetic result is `x`
(32 bits, two's complement, wrapping around as the x86-64 instructions do). -/
def wrap32 (x : Int) : Int := (x + 2 ^ 31) % 2 ^ 32 - 2 ^ 31

/-- The loop `while (*s) val = val * 10 + (*(s++) - '0')` of
`fork_server_atoi`, entered with `s` and `val`; a `char` is signed.  The first
argument bounds the number of turns. -/
def atoiLoop (m : Mem) : Nat → Nat → Int → Option Int
  | 0, _, _ => none
  | fuel + 1, s, val =>
    if load8 m s = 0 then some val
    else atoiLoop m fuel (s + 1) (wrap32 (val * 10 + (toSignedChar (load8 m s) - 48)))

/-- The function `fork_server_atoi(s)` on the string at address `s`.  A loop
that has not met a zero byte after `2 ^ 64` turns has read every byte of
memory and never ends: that is the result `none`. -/
def fork_server_atoi (m : Mem) (s : Nat) : Option Int :=
  let is_neg := decide (load8 m s = 45)
  let s1 := if is_neg then s + 1 else s
  (atoiLoop m (2 ^ 64) s1 0).map (fun val => if is_neg then wrap32 (-val) else val)

/-- The loop `while ((s = *(envp++)))` of `fork_server_get_shm_id`, with the
three comparisons of the source; the first argument bounds the number of
turns. -/
def shmIdLoop (m : Mem) : Nat → Nat → Option Int
  | 0, _ => none
  | fuel + 1, envp =>
    let s := loadLE m envp 8
    if s = 0 then some NO_SHM_ID
    else if loadLE m s 8 ≠ 0x48535f4c46415f5f then shmIdLoop m fuel (envp + 8)
    else if loadLE m (s + 8) 4 ≠ 0x44495f4d then shmIdLoop m fuel (envp + 8)
    else if load8 m (s + 12) ≠ 61 then shmIdLoop m fuel (envp + 8)
    else fork_server_atoi m (s + 13)

/-- The function `fork_server_get_shm_id(envp)`.  After `2 ^ 61` turns `envp`
is back where it started: a loop that has not ended by then never ends, and
the result is `none`. -/
def fork_server_get_shm_id (m : Mem) (envp : Nat) : Option Int :=
  shmIdLoop m (2 ^ 61) envp

/-- The fatal messages of the start-up, one per `utils_error` call site. -/
inductive StartErr
  | socket_err
  | pipe_filename_err
  | env_setting_err
  | dup2_err
  | hello_err
  | crs_shmat_err
  | mumap_err
  | afl_shmat_err
  deriving DecidableEq, Repr

/-- The system calls of the start-up, with their return values. -/
inductive StartEvent
  /-- The call `sys_socket(AF_UNIX, SOCK_STREAM, 0)`. -/
  | socket (ret : Int)
  /-- The call `sys_connect(sock_fd, &server, ..)`. -/
  | connect (fd : Int) (ret : Int)
  | close (fd : Int)
  /-- The call `sys_dup2(comm_fd, CRS_COMM_FD)`. -/
  | dup2 (fd : Int) (ret : Int)
  /-- The call `sys_read(CRS_COMM_FD, &crs_shm_id, 4)`. -/
  | crs_read_shm_id (ret : Int)
  /-- The call `sys_write(CRS_COMM_FD, &__tmp_data, 4)` that tells `afl_attached`. -/
  | crs_write_attached (v : Nat) (ret : Int)
  /-- A call `sys_shmat(shm_id, addr, SHM_RND)` with the address returned. -/
  | shmat (shm_id : Int) (addr : Nat) (ret : Nat)
  /-- The call `sys_munmap(AFL_MAP_ADDR, AFL_MAP_SIZE)`. -/
  | munmap (addr len : Nat) (ret : Int)
  /-- The call `sys_write(AFL_FORKSRV_FD + 1, &__tmp_data, 4)` of the hello message. -/
  | afl_write_hello (v : Nat) (ret : Int)
  | error (e : StartErr)
  deriving DecidableEq, Repr

/-- What the start-up takes from the headers and from the build: whether the
build is a `DEBUG` build, and the address `CRS_MAP_ADDR` of `fork_server.h`. -/
structure StartConfig where
  DEBUG : Bool
  CRS_MAP_ADDR : Nat

/-- Size of `sun_path` in `struct sockaddr_un` on Linux. -/
def SUN_PATH_SIZE : Nat := 108

/-- Results of the system calls of the start-up. -/
structure StartSys where
  /-- Return value of `sys_socket`. -/
  socket : Int
  /-- Return value of `utils_strcpy(server.sun_path, RW_PAGE_INFO(pipe_path))`. -/
  strcpy_n : Nat
  /-- Return value of `sys_connect`. -/
  connect : Int
  /-- Return value of `sys_dup2`. -/
  dup2 : Int
  /-- Return value of the read of `crs_shm_id`, and the value read. -/
  hello_read : Int × Int
  /-- Return value of the write of `afl_attached` to the daemon. -/
  hello_write : Int
  /-- Address returned by `sys_shmat` for the command map. -/
  crs_shmat : Nat
  /-- Memory once the command map is attached. -/
  crs_shmat_mem : Mem → Mem
  /-- Return value of `sys_munmap(AFL_MAP_ADDR, AFL_MAP_SIZE)`. -/
  munmap : Int
  /-- Address returned by `sys_shmat` for the coverage map. -/
  afl_shmat : Nat
  /-- Memory once the coverage map of the fuzzer is attached. -/
  afl_shmat_mem : Mem → Mem
  /-- Return value of the write of the hello message to the fuzzer. -/
  afl_hello : Int

/-- The function `fork_server_connect_pipe()`: the descriptor returned (`-1`
when the daemon does not answer) or the fatal error, with the calls made. -/
def fork_server_connect_pipe (K : StartConfig) (ss : StartSys) :
    Except StartErr Int × List StartEvent :=
  let sock_fd := ss.socket
  if sock_fd < 0 then
    (Except.error StartErr.socket_err,
      [StartEvent.socket sock_fd, StartEvent.error StartErr.socket_err])
  else if K.DEBUG && decide (ss.strcpy_n ≥ SUN_PATH_SIZE) then
    (Except.error StartErr.pipe_filename_err,
      [StartEvent.socket sock_fd, StartEvent.error StartErr.pipe_filename_err])
  else if ss.connect < 0 then
    (Except.ok (-1),
      [StartEvent.socket sock_fd, StartEvent.connect sock_fd ss.connect, StartEvent.close sock_fd])
  else
    (Except.ok sock_fd, [StartEvent.socket sock_fd, StartEvent.connect sock_fd ss.connect])

/-- How the start-up ends. -/
inductive StartCtl
  /-- Dry run: `fork_server_start` has returned to its caller. -/
  | returned
  /-- Step 7 is entered with this value of `afl_attached`. -/
  | loop (afl_attached : Bool)
  /-- Ended by `utils_error`. -/
  | fatal (e : StartErr)
  /-- Inside a call of `fork_server_get_shm_id` that never returns. -/
  | hang
  deriving DecidableEq, Repr

/-- Outcome of the start-up: how it ends, memory, and the calls made. -/
structure Started where
  ctl : StartCtl
  mem : Mem
  trace : List StartEvent

/-- Steps 5 and 6 of `fork_server_start`, with the fuzzer attached: the fake
coverage map is unmapped, the one of the fuzzer attached, and the hello message
written. -/
def attachAfl (C : Config) (ss : StartSys) (afl_shm_id : Int) (m : Mem)
    (evs : List StartEvent) : Started :=
  let evs1 := evs ++ [StartEvent.munmap C.AFL_MAP_ADDR C.AFL_MAP_SIZE ss.munmap]
  if ss.munmap ≠ 0 then
    { ctl := StartCtl.fatal StartErr.mumap_err, mem := m,
      trace := evs1 ++ [StartEvent.error StartErr.mumap_err] }
  else
    let evs2 := evs1 ++ [StartEvent.shmat afl_shm_id C.AFL_MAP_ADDR ss.afl_shmat]
    if ss.afl_shmat ≠ C.AFL_MAP_ADDR then
      { ctl := StartCtl.fatal StartErr.afl_shmat_err, mem := m,
        trace := evs2 ++ [StartEvent.error StartErr.afl_shmat_err] }
    else
      let m1 := ss.afl_shmat_mem m
      let evs3 := evs2 ++ [StartEvent.afl_write_hello 0x19961219 ss.afl_hello]
      if ss.afl_hello ≠ 4 then
        { ctl := StartCtl.fatal StartErr.hello_err, mem := m1,
          trace := evs3 ++ [StartEvent.error StartErr.hello_err] }
      else { ctl := StartCtl.loop true, mem := m1, trace := evs3 }

/-- Steps 1.2 to 6 of `fork_server_start`, once the daemon is connected on
`comm_fd` and `daemon_attached` is set. -/
def attachDaemon (K : StartConfig) (C : Config) (ss : StartSys) (envp : Nat) (comm_fd : Int)
    (m : Mem) (evs : List StartEvent) : Started :=
  let evs1 := evs ++ [StartEvent.dup2 comm_fd ss.dup2]
  if ss.dup2 < 0 then
    { ctl := StartCtl.fatal StartErr.dup2_err, mem := m,
      trace := evs1 ++ [StartEvent.error StartErr.dup2_err] }
  else
    let evs2 := evs1 ++ [StartEvent.close comm_fd]
    match fork_server_get_shm_id m envp with
    | none => { ctl := StartCtl.hang, mem := m, trace := evs2 }
    | some afl_shm_id =>
      let afl_attached := decide (afl_shm_id ≠ NO_SHM_ID)
      let evs3 := evs2 ++ [StartEvent.crs_read_shm_id ss.hello_read.1]
      if ss.hello_read.1 ≠ 4 then
        { ctl := StartCtl.fatal StartErr.hello_err, mem := m,
          trace := evs3 ++ [StartEvent.error StartErr.hello_err] }
      else
        let crs_shm_id := ss.hello_read.2
        let evs4 := evs3 ++
          [StartEvent.crs_write_attached (if afl_attached then 1 else 0) ss.hello_write]
        if ss.hello_write ≠ 4 then
          { ctl := StartCtl.fatal StartErr.hello_err, mem := m,
            trace := evs4 ++ [StartEvent.error StartErr.hello_err] }
        else
          let evs5 := evs4 ++ [StartEvent.shmat crs_shm_id K.CRS_MAP_ADDR ss.crs_shmat]
          if ss.crs_shmat ≠ K.CRS_MAP_ADDR then
            { ctl := StartCtl.fatal StartErr.crs_shmat_err, mem := m,
              trace := evs5 ++ [StartEvent.error StartErr.crs_shmat_err] }
          else
            let m1 := ss.crs_shmat_mem m
            if afl_attached then attachAfl C ss afl_shm_id m1 evs5
            else { ctl := StartCtl.loop false, mem := m1, trace := evs5 }

/-- The function `fork_server_start(envp)` up to the entry of step 7, on
memory `m`: the connection to the daemon, then either the dry run (the
connection failed) or steps 1.2 to 6. -/
def fork_server_start (K : StartConfig) (C : Config) (ss : StartSys) (envp : Nat) (m : Mem) :
    Started :=
  match fork_server_connect_pipe K ss with
  | (Except.error e, evs) => { ctl := StartCtl.fatal e, mem := m, trace := evs }
  | (Except.ok comm_fd, evs) =>
    if comm_fd < 0 then
      match fork_server_get_shm_id m envp with
      | none => { ctl := StartCtl.hang, mem := m, trace := evs }
      | some shm_id =>
        if shm_id ≠ NO_SHM_ID then
          { ctl := StartCtl.fatal StartErr.env_setting_err, mem := m,
            trace := evs ++ [StartEvent.error StartErr.env_setting_err] }
        else
          { ctl := StartCtl.returned, mem := store8 m (RW_PAGE_ADDR + OFF_daemon_attached) 0,
            trace := evs }
    else
      attachDaemon K C ss envp comm_fd (store8 m (RW_PAGE_ADDR + OFF_daemon_attached) 1) evs

/-- The state of step 7 after `k` steps of the loop, when the start-up enters
the loop; `none` when it does not (dry run, fatal error). -/
def loopAfterStart (K : StartConfig) (C : Config) (ss : StartSys) (w : World) (envp : Nat)
    (m : Mem) (k : Nat) : Option FS :=
  match (fork_server_start K C ss envp m).ctl with
  | StartCtl.loop afl_attached =>
    some (run C w k (loopInit afl_attached (fork_server_start K C ss envp m).mem))
  | _ => none

/-! ## A concrete command map, for examples -/

/-- A concrete layout for examples (the one of `fork_server.h` is not among
the sources): `max` records of 64 bytes from address `base`; `type`, `addr`,
`size` and `data` are 8-byte little-endian fields at offsets 0, 8, 16 and 24,
`buf` holds 32 bytes from offset 32; the tags are 0 (NONE), 1 (REWRITE),
2 (MPROTECT), 3 (REMMAP). -/
def flatLayout (base max : Nat) : CRSLayout :=
  { CRS_MAP_MAX_CMD_N := (max : Int)
    CRS_CMD_NONE := 0
    CRS_CMD_REWRITE := 1
    CRS_CMD_MPROTECT := 2
    CRS_CMD_REMMAP := 3
    inMap := fun a => decide (base ≤ a ∧ a < base + 64 * max)
    bufCap := 32
    cmd_type := fun m i => loadLE m (base + 64 * i) 8
    cmd_addr := fun m i => loadLE m (base + 64 * i + 8) 8
    cmd_size := fun m i => loadLE m (base + 64 * i + 16) 8
    cmd_data := fun m i => loadLE m (base + 64 * i + 24) 8
    cmd_buf := fun m i j => load8 m (base + 64 * i + 32 + j) }

/-- Memory holding the bytes `bs` from address `a` on, zero elsewhere below. -/
def poke (m : Mem) (a : Nat) : List Nat → Mem
  | [] => m
  | b :: bs => poke (store8 m a b) (a + 1) bs

/-- System calls that all succeed and a remap that leaves memory as it is. -/
def okSys : PatchSys :=
  { munmap := fun _ => 0, mmap_external_file := fun _ => some 0x1000,
    mmap_mem := fun _ m => m, mprotect := fun _ => 0 }

/-- The index of the record an inspection event is about. -/
def Event.inspectIdx : Event → Option Nat
  | Event.inspect i _ => some i
  | _ => none

/-- Whether the event is not the inspection of a record with an unknown tag. -/
def Event.tagValid (L : CRSLayout) : Event → Bool
  | Event.inspect _ t => L.validTag t
  | _ => true

/-- Memory that holds zero everywhere. -/
def zeroMem : Mem := fun _ => 0

/-- Example layout: four records from address 0x400000. -/
def demoLayout : CRSLayout := flatLayout 0x400000 4

/-- Example memory: record 0 is NONE and record 1 carries the unknown tag 9. -/
def badTagMem : Mem := poke zeroMem 0x400040 [9]

/-- Example memory: record 0 carries the unknown tag 9. -/
def badFirstMem : Mem := poke zeroMem 0x400000 [9]

/-- Example memory: record 0 is REMMAP and record 1 is NONE. -/
def remmapMem : Mem := poke zeroMem 0x400000 [3]

/-- Example configuration: the example layout and a coverage map of 64 bytes
at 0x10000 cleared by 16-byte stores. -/
def demoConfig : Config :=
  { L := demoLayout, AFL_MAP_ADDR := 0x10000, AFL_MAP_SIZE := 64, clearWidth := 16 }

/-- Example world: every system call succeeds, the child forked at step `t`
has pid `1000 + t` and ends with status `statuses t`, the daemon answers
`replies t` to the read of step `t` and nobody else writes to memory. -/
def demoWorld (statuses : Nat → Nat) (replies : Nat → Option Int) : World :=
  { afl_read := fun _ => 4
    clone := fun t => 1000 + (t : Int)
    child_tid := fun t => 1000 + t
    wait4 := fun t => (1000 + (t : Int), statuses t)
    wait_mem := fun _ m => m
    crs_read := replies
    crs_mem := fun _ m => m
    patch_sys := fun _ => okSys
    msync := fun _ _ => 0 }

/-! ## Auxiliary notions for the statements about the loop -/

/-- Every status written to the fuzzer within `evs` is not suspect, and is 139
or a status returned by a `wait4` of `evs`. -/
def StatusOk (evs : List Event) : Prop :=
  ∀ v, Event.afl_write_status v ∈ evs →
    IS_SUSPECT_STATUS v = false ∧ (v = 139 ∨ ∃ pid ret, Event.wait4 pid ret v ∈ evs)

/-- The events of a turn of the outer loop up to and including `wait4`. -/
def turnEvents (w : World) (s : FS) : List Event :=
  (if (s.afl_attached && !s.crs_loop) = true then [Event.afl_read (w.afl_read s.tick)] else []) ++
    [Event.clone (w.clone s.tick)] ++
    (if (s.afl_attached && !s.crs_loop) = true then [Event.afl_write_pid (w.clone s.tick)] else []) ++
    [Event.wait4 (w.clone s.tick) (w.wait4 s.tick).1 (w.wait4 s.tick).2]

/-- Whether the event is an `msync`, the clear of the coverage map or an error
report. -/
def Event.isSync : Event → Bool
  | Event.msync _ _ => true
  | Event.clear_map => true
  | Event.error _ => true
  | _ => false

/-- The two `msync` events that follow a patch round left in state `out`. -/
def syncEvents (out : PatchState) : List Event :=
  [Event.msync LOOKUP_TABLE_ADDR (lookup_tab_size out.mem)] ++
    (if out.shadow_need_sync = true then
      [Event.msync ((program_base out.mem + SHADOW_CODE_ADDR) % 2 ^ 64) (shadow_size out.mem)]
    else [])

/-- Whether the fork server stands inside the patch round. -/
def Ctl.inRound : Ctl → Bool
  | Ctl.round _ _ => true
  | _ => false

/-- Whether the call of `fork_server_patch` that state `s` is about to make, if
it stands in the patch round, returns without fatal error. -/
def patchOk (C : Config) (w : World) (s : FS) : Bool :=
  match s.ctl with
  | Ctl.round cmd_n sync =>
    (fork_server_patch C.L (w.patch_sys s.tick) cmd_n sync s.mem).err.isNone
  | _ => true

/-- Nothing has reached the fuzzer, and if the fork server is back at the top
of the loop with the fuzzer attached, `crs_loop` is true. -/
def Quiet (st : FS) (evs : List Event) : Prop :=
  evs.filter Event.isAfl = [] ∧
    (st.ctl = Ctl.head → st.afl_attached = true → st.crs_loop = true)

/-- The first message that reached the fuzzer is a status that is not suspect:
139, or the status a `wait4` of `evs` returned. -/
def Told (evs : List Event) : Prop :=
  ∃ v rest, evs.filter Event.isAfl = Event.afl_write_status v :: rest ∧
    IS_SUSPECT_STATUS v = false ∧ (v = 139 ∨ ∃ pid ret, Event.wait4 pid ret v ∈ evs)

/-! ## Auxiliary notions for the statements about the clear loop, the end of
the process and the start-up -/

/-- The stores the clear loop is meant to make: `w` zero bytes at each of the
offsets `0, w, 2w, ..., (k - 1) * w` from address `a`, in this order. -/
def zeroBlocks (w a : Nat) : Nat → Mem → Mem
  | 0, m => m
  | k + 1, m => zeroBlocks w (a + w) k (storeZeros m (a % 2 ^ 64) w)

/-- Whether the event is a call of `sys_exit` or of `sys_kill`. -/
def Event.isExit : Event → Bool
  | Event.exit _ => true
  | Event.kill _ _ => true
  | _ => false

/-- Whether the event is a call of `sys_clone`. -/
def Event.isClone : Event → Bool
  | Event.clone _ => true
  | _ => false

/-- Whether the call of the start-up is a message on the daemon socket or on
the fuzzer descriptor, or attaches shared memory. -/
def StartEvent.isExchange : StartEvent → Bool
  | StartEvent.crs_read_shm_id _ => true
  | StartEvent.crs_write_attached _ _ => true
  | StartEvent.afl_write_hello _ _ => true
  | StartEvent.shmat _ _ _ => true
  | _ => false

/-- The 13 bytes of the text `__AFL_SHM_ID=`. -/
def shmPrefix : List Nat := "__AFL_SHM_ID=".toList.map Char.toNat

/-- Whether the bytes `bs` stand in memory from address `s` on. -/
def bytesAt (m : Mem) (s : Nat) : List Nat → Bool
  | [] => true
  | b :: bs => load8 m s == b && bytesAt m (s + 1) bs

/-- Whether the 13 bytes at address `s` are the text `__AFL_SHM_ID=`. -/
def hasPrefix (m : Mem) (s : Nat) : Bool := bytesAt m s shmPrefix

/-- Whether the C string at address `s` is `bs`: the bytes of `bs`, none of
them zero, then a zero byte. -/
def cstrAt (m : Mem) (s : Nat) : List Nat → Bool
  | [] => load8 m s == 0
  | b :: bs => b != 0 && load8 m s == b && cstrAt m (s + 1) bs

/-- Whether the environment block at address `envp` is the list `ptrs` of
non-null pointers to its entries, then a null pointer. -/
def envAt (m : Mem) (envp : Nat) : List Nat → Bool
  | [] => loadLE m envp 8 == 0
  | p :: ps => p != 0 && loadLE m envp 8 == p && envAt m (envp + 8) ps

/-- The number written by the decimal digits `ds`, most significant first. -/
def decimal (ds : List Nat) : Nat := ds.foldl (fun a d => a * 10 + d) 0

/-- The text of an integer: `-` when `neg`, then the characters of the digits `ds`. -/
def intText (neg : Bool) (ds : List Nat) : List Nat :=
  (if neg then [45] else []) ++ ds.map (fun d => d + 48)

/-- The integer the text `intText neg ds` writes. -/
def intValue (neg : Bool) (ds : List Nat) : Int :=
  if neg then -((decimal ds : Nat) : Int) else ((decimal ds : Nat) : Int)

/-- Example environment block at 0x2000: two entries, `HOME=/home/fuzz` at
0x3000 and `__AFL_SHM_ID=` followed by `text` at 0x3100. -/
def envMem (text : List Nat) : Mem :=
  poke (poke (poke (poke zeroMem 0x2000 [0x00, 0x30]) 0x2008 [0x00, 0x31])
    0x3000 ("HOME=/home/fuzz".toList.map Char.toNat)) 0x3100 (shmPrefix ++ text)

/-- Example environment block at 0x2000 with the single entry `HOME=/home/fuzz`
at 0x3000. -/
def plainEnvMem : Mem :=
  poke (poke zeroMem 0x2000 [0x00, 0x30]) 0x3000 ("HOME=/home/fuzz".toList.map Char.toNat)

/-- Example start-up configuration: the command map of the example layout. -/
def demoStart : StartConfig := { DEBUG := false, CRS_MAP_ADDR := 0x400000 }

/-- Example start-up: every call succeeds, except that `sys_connect` returns
`connect`. -/
def demoSys (connect : Int) : StartSys :=
  { socket := 5, strcpy_n := 20, connect := connect, dup2 := 200, hello_read := (4, 77),
    hello_write := 4, crs_shmat := 0x400000, crs_shmat_mem := fun m => m, munmap := 0,
    afl_shmat := 0x10000, afl_shmat_mem := fun m => m, afl_hello := 4 }

/-! ## Auxiliary notions for the statements about the tags of a batch -/

/-- Whether the address is one of the eight bytes of the field `program_base`
of the bootstrap page. -/
def inBase (a : Nat) : Bool :=
  decide (RW_PAGE_ADDR + OFF_program_base ≤ a ∧ a < RW_PAGE_ADDR + OFF_program_base + 8)

/-- Whether the address holds a byte that the patch engine reads to find its
commands and their targets: a byte of the command map or of `program_base`. -/
def CRSLayout.guarded (L : CRSLayout) (a : Nat) : Bool := L.inMap a || inBase a

/-- The first `n` records of the command map of `m` do not change the bytes the
patch engine reads: no REWRITE among them has a byte of the command map or of
`program_base` in its target range, and for a REMMAP among them the mapping of
the shadow file leaves these bytes as they are and the field `shadow_size`
lies outside the command map. -/
def StableBatch (L : CRSLayout) (sys : PatchSys) (n : Int) (m : Mem) : Prop :=
  (∀ i : Nat, (i : Int) < n → L.cmd_type m i = L.CRS_CMD_REWRITE →
    ∀ j, j < L.cmd_size m i →
      L.guarded ((program_base m + L.cmd_addr m i + j) % 2 ^ 64) = false) ∧
  (∀ i : Nat, (i : Int) < n → L.cmd_type m i = L.CRS_CMD_REMMAP →
    (∀ (m2 : Mem) (a : Nat), L.guarded a = true → sys.mmap_mem i m2 a = m2 a) ∧
    ∀ k, k < 8 → L.inMap (RW_PAGE_ADDR + OFF_shadow_size + k) = false)

/-- Example memory: record 0 is a REWRITE of the single byte `v` at address
0x400040, the first byte of the tag of record 1 (with `program_base = 0`);
record 1 is NONE. -/
def selfRewriteMem (v : Nat) : Mem :=
  poke (poke (poke (poke zeroMem 0x400000 [1]) 0x400008 [0x40, 0x00, 0x40]) 0x400010 [1])
    0x400020 [v]

/-! # Theorems -/

/-! ## Crash classification -/

set_option maxRecDepth 100000 in
theorem signed_char_table : ∀ x : Fin 128,
    (decide ((toSignedChar ((x : Nat) + 1)) >>> 1 > 0) = true ↔ (1 ≤ (x : Nat) ∧ (x : Nat) ≤ 126)) := by
  decide

theorem and_0x7f (s : Nat) : s &&& 0x7f = s % 128 := by
  have h := Nat.and_pow_two_sub_one_eq_mod s 7
  norm_num at h
  exact h

theorem WTERMSIG_eq (s : Nat) : WTERMSIG s = s % 128 := and_0x7f s

theorem WIFSIGNALED_iff (s : Nat) :
    WIFSIGNALED s = true ↔ (1 ≤ s % 128 ∧ s % 128 ≤ 126) := by
  have hlt : s % 128 < 128 := Nat.mod_lt _ (by norm_num)
  have h := signed_char_table ⟨s % 128, hlt⟩
  unfold WIFSIGNALED
  rw [and_0x7f]
  exact h

theorem WIFEXITED_iff (s : Nat) : WIFEXITED s = true ↔ s % 128 = 0 := by
  unfold WIFEXITED
  rw [WTERMSIG_eq]
  simp

theorem IS_SUSPECT_STATUS_iff (s : Nat) : IS_SUSPECT_STATUS s = true ↔ s % 128 = 10 := by
  unfold IS_SUSPECT_STATUS
  rw [Bool.and_eq_true, WIFSIGNALED_iff, WTERMSIG_eq]
  simp only [SIGUSR1, beq_iff_eq]
  omega

theorem IS_ABNORMAL_STATUS_iff (s : Nat) :
    IS_ABNORMAL_STATUS s = true ↔ (1 ≤ s % 128 ∧ s % 128 ≤ 126) := by
  unfold IS_ABNORMAL_STATUS
  rw [Bool.and_eq_true, WIFSIGNALED_iff, Bool.not_eq_true', ← Bool.not_eq_true, WIFEXITED_iff]
  omega

theorem or_0x80_mod (s : Nat) : (s ||| 0x80) % 128 = s % 128 := by
  rw [← and_0x7f, ← and_0x7f, Nat.and_comm, Nat.and_or_distrib_left]
  have h : (0x7f : Nat) &&& 0x80 = 0 := by decide
  rw [h, Nat.or_zero, Nat.and_comm]

/-- C2: for every wait status `s`, `IS_SUSPECT_STATUS s` holds exactly when `s`
denotes termination by a signal (`WIFSIGNALED`) whose number `s & 0x7f` is
SIGUSR1 = 10, which is the same as the low seven bits of `s` being 10; the
result is a function of the low seven bits of `s` alone, so the core-dump bit
0x80 and every higher bit leave it unchanged. -/
theorem C2_suspect_iff_sigusr1 (s : Nat) :
    (IS_SUSPECT_STATUS s = true ↔ (WIFSIGNALED s = true ∧ s &&& 0x7f = 10)) ∧
    (IS_SUSPECT_STATUS s = true ↔ s &&& 0x7f = 10) ∧
    (WIFSIGNALED s = true ↔ (1 ≤ s &&& 0x7f ∧ s &&& 0x7f ≤ 126)) ∧
    IS_SUSPECT_STATUS (s ||| 0x80) = IS_SUSPECT_STATUS s ∧
    (∀ t : Nat, t &&& 0x7f = s &&& 0x7f → IS_SUSPECT_STATUS t = IS_SUSPECT_STATUS s) := by
  refine ⟨?_, ?_, ?_, ?_, ?_⟩
  · rw [IS_SUSPECT_STATUS_iff, WIFSIGNALED_iff, and_0x7f]; omega
  · rw [IS_SUSPECT_STATUS_iff, and_0x7f]
  · rw [WIFSIGNALED_iff, and_0x7f]
  · rw [Bool.eq_iff_iff, IS_SUSPECT_STATUS_iff, IS_SUSPECT_STATUS_iff, or_0x80_mod]
  · intro t ht
    rw [and_0x7f, and_0x7f] at ht
    rw [Bool.eq_iff_iff, IS_SUSPECT_STATUS_iff, IS_SUSPECT_STATUS_iff, ht]

/-- C3: for every wait status `s`, a clean exit (`WIFEXITED`) is neither
suspect nor abnormal (NORMAL); termination by a signal other than SIGUSR1 is
abnormal and not suspect (REAL); REAL (abnormal and not suspect) holds exactly
when the child was ended by a signal that is not SIGUSR1; and exactly one of
NORMAL (neither suspect nor abnormal), SUSPECT and REAL holds of `s`. -/
theorem C3_classes_partition (s : Nat) :
    (WIFEXITED s = true → IS_SUSPECT_STATUS s = false ∧ IS_ABNORMAL_STATUS s = false) ∧
    (WIFSIGNALED s = true → WTERMSIG s ≠ SIGUSR1 →
      IS_ABNORMAL_STATUS s = true ∧ IS_SUSPECT_STATUS s = false) ∧
    ((IS_ABNORMAL_STATUS s = true ∧ IS_SUSPECT_STATUS s = false) ↔
      (WIFSIGNALED s = true ∧ WTERMSIG s ≠ SIGUSR1)) ∧
    ((IS_SUSPECT_STATUS s = false ∧ IS_ABNORMAL_STATUS s = false) ∨
      IS_SUSPECT_STATUS s = true ∨
      (IS_ABNORMAL_STATUS s = true ∧ IS_SUSPECT_STATUS s = false)) ∧
    ¬ ((IS_SUSPECT_STATUS s = false ∧ IS_ABNORMAL_STATUS s = false) ∧
        IS_SUSPECT_STATUS s = true) ∧
    ¬ ((IS_SUSPECT_STATUS s = false ∧ IS_ABNORMAL_STATUS s = false) ∧
        (IS_ABNORMAL_STATUS s = true ∧ IS_SUSPECT_STATUS s = false)) ∧
    ¬ (IS_SUSPECT_STATUS s = true ∧
        (IS_ABNORMAL_STATUS s = true ∧ IS_SUSPECT_STATUS s = false)) := by
  have hs := IS_SUSPECT_STATUS_iff s
  have ha := IS_ABNORMAL_STATUS_iff s
  have he := WIFEXITED_iff s
  have hg := WIFSIGNALED_iff s
  have ht := WTERMSIG_eq s
  have hsf : IS_SUSPECT_STATUS s = false ↔ ¬ s % 128 = 10 := by
    rw [← hs]; simp
  have haf : IS_ABNORMAL_STATUS s = false ↔ ¬ (1 ≤ s % 128 ∧ s % 128 ≤ 126) := by
    rw [← ha]; simp
  simp only [SIGUSR1, ne_eq]
  rw [hsf, haf, hs, ha, he, hg, ht]
  omega

/-! ## The patch engine -/

theorem patchCmd_log (L : CRSLayout) (sys : PatchSys) (i : Nat) (st : PatchState) :
    ∃ rest, (patchCmd L sys i st).log = st.log ++ Event.inspect i (L.cmd_type st.mem i) :: rest ∧
      (∀ e ∈ rest, e.inPatch = true ∧ e.inspectIdx = none) := by
  unfold patchCmd utils_error utils_mmap_external_file
  simp only
  split_ifs
  · simp
  · simp [Event.inPatch, Event.inspectIdx]
  · cases sys.mmap_external_file i <;> simp [Event.inPatch, Event.inspectIdx]
  · simp
  · simp [Event.inPatch, Event.inspectIdx]
  · simp [Event.inPatch, Event.inspectIdx]
  · simp [Event.inPatch, Event.inspectIdx]

theorem patchCmd_err (L : CRSLayout) (sys : PatchSys) (i : Nat) (st : PatchState)
    (hmunmap : ∀ k, sys.munmap k = 0) (hmmap : ∀ k, (sys.mmap_external_file k).isSome = true)
    (hmprotect : ∀ k, sys.mprotect k = 0) (h : st.err = none) :
    ((patchCmd L sys i st).err.isSome = true ↔ L.validTag (L.cmd_type st.mem i) = false) := by
  unfold patchCmd utils_error utils_mmap_external_file CRSLayout.validTag
  simp only
  have h1 := hmunmap i
  have h2 := hmmap i
  have h3 := hmprotect i
  split_ifs with a b c d e f
  · simp [h, a]
  · exact absurd h1 c
  · cases hm : sys.mmap_external_file i with
    | none => simp [hm] at h2
    | some sz => simp [h, b]
  · simp [h, d]
  · exact absurd h3 f
  · simp [h, e]
  · simp [a, b, d, e]

theorem patchCmd_flag (L : CRSLayout) (sys : PatchSys) (i : Nat) (st : PatchState)
    (hne : L.CRS_CMD_NONE ≠ L.CRS_CMD_REMMAP) (h : (patchCmd L sys i st).err = none) :
    ((patchCmd L sys i st).shadow_need_sync = true ↔
      (st.shadow_need_sync = true ∧ L.cmd_type st.mem i ≠ L.CRS_CMD_REMMAP)) := by
  unfold patchCmd utils_error utils_mmap_external_file at h ⊢
  simp only at h ⊢
  split_ifs at h ⊢ with a b c d e f
  · simp [a, hne]
  · cases hm : sys.mmap_external_file i with
    | none => simp [hm] at h
    | some sz => simp [b]
  · simp [b]
  · simp [b]

theorem patchCmd_err_mono (L : CRSLayout) (sys : PatchSys) (i : Nat) (st : PatchState)
    (h : (patchCmd L sys i st).err = none) : st.err = none := by
  unfold patchCmd utils_error utils_mmap_external_file at h
  simp only at h
  split_ifs at h with a b c d e f
  · exact h
  · cases hm : sys.mmap_external_file i with
    | none => simp [hm] at h
    | some sz => simpa [hm] using h
  · exact h
  · exact h

theorem patchLoop_spec (L : CRSLayout) (sys : PatchSys) :
    ∀ (cnt i : Nat) (st : PatchState),
    ∃ k new, k ≤ cnt ∧
      (∀ t, Event.inspect i t ∈ new → t = L.cmd_type st.mem i) ∧
      (patchLoop L sys cnt i st).log = st.log ++ new ∧
      new.filterMap Event.inspectIdx = List.range' i k ∧
      (∀ e ∈ new, e.inPatch = true) ∧
      ((patchLoop L sys cnt i st).err = none → k = cnt ∧ st.err = none) ∧
      (L.CRS_CMD_NONE ≠ L.CRS_CMD_REMMAP → (patchLoop L sys cnt i st).err = none →
        ((patchLoop L sys cnt i st).shadow_need_sync = true ↔
          (st.shadow_need_sync = true ∧ ∀ j, Event.inspect j L.CRS_CMD_REMMAP ∉ new))) ∧
      ((∀ k, sys.munmap k = 0) → (∀ k, (sys.mmap_external_file k).isSome = true) →
        (∀ k, sys.mprotect k = 0) → st.err = none →
        ((patchLoop L sys cnt i st).err.isSome = true ↔
          ∃ j t, Event.inspect j t ∈ new ∧ L.validTag t = false)) := by
  intro cnt
  induction cnt with
  | zero =>
    intro i st
    refine ⟨0, [], le_refl _, by simp, by simp [patchLoop], by simp, by simp, ?_, ?_, ?_⟩
    · intro h; exact ⟨rfl, h⟩
    · intro _ _; simp [patchLoop]
    · intro _ _ _ h; simp [patchLoop, h]
  | succ cnt ih =>
    intro i st
    obtain ⟨rest, hlog, hrest⟩ := patchCmd_log L sys i st
    unfold patchLoop
    simp only
    by_cases he : (patchCmd L sys i st).err.isSome = true
    · rw [if_pos he]
      refine ⟨1, Event.inspect i (L.cmd_type st.mem i) :: rest, by omega, ?_, hlog, ?_, ?_, ?_, ?_, ?_⟩
      · intro t ht
        rcases List.mem_cons.mp ht with h | h
        · injection h with h1 h2
        · have := (hrest _ h).2; simp [Event.inspectIdx] at this
      · have : rest.filterMap Event.inspectIdx = [] := by
          rw [List.filterMap_eq_nil_iff]; intro e he; exact (hrest e he).2
        simp [List.filterMap_cons, Event.inspectIdx, this]
      · intro e he
        rcases List.mem_cons.mp he with h | h
        · subst h; rfl
        · exact (hrest e h).1
      · intro h; rw [h] at he; simp at he
      · intro _ h; rw [h] at he; simp at he
      · intro h1 h2 h3 h4
        have := patchCmd_err L sys i st h1 h2 h3 h4
        constructor
        · intro _; exact ⟨i, _, List.mem_cons_self _ _, this.mp he⟩
        · intro _; exact he
    · rw [if_neg he]
      have he2 : (patchCmd L sys i st).err = none := by
        cases h : (patchCmd L sys i st).err with
        | none => rfl
        | some e => rw [h] at he; simp at he
      obtain ⟨k, new, hk, _, hlog2, hidx, hin, hnone, hflag, herr⟩ := ih (i + 1) (patchCmd L sys i st)
      refine ⟨k + 1, Event.inspect i (L.cmd_type st.mem i) :: rest ++ new, by omega, ?_, ?_, ?_, ?_, ?_, ?_, ?_⟩
      · intro t ht
        rcases List.mem_append.mp ht with h | h
        · rcases List.mem_cons.mp h with h | h
          · injection h with h1 h2
          · have := (hrest _ h).2; simp [Event.inspectIdx] at this
        · have hmem : i ∈ new.filterMap Event.inspectIdx :=
            List.mem_filterMap.mpr ⟨_, h, rfl⟩
          rw [hidx] at hmem
          have := (List.mem_range'_1.mp hmem).1
          omega
      · rw [hlog2, hlog]; simp [List.append_assoc]
      · have : rest.filterMap Event.inspectIdx = [] := by
          rw [List.filterMap_eq_nil_iff]; intro e he; exact (hrest e he).2
        rw [List.cons_append, List.filterMap_cons]
        simp only [Event.inspectIdx]
        rw [List.filterMap_append, this, List.nil_append, hidx]
        rfl
      · intro e he
        rcases List.mem_append.mp he with h | h
        · rcases List.mem_cons.mp h with h | h
          · subst h; rfl
          · exact (hrest e h).1
        · exact hin e h
      · intro h
        obtain ⟨h1, _⟩ := hnone h
        exact ⟨by omega, patchCmd_err_mono L sys i st he2⟩
      · intro hne h
        rw [hflag hne h, patchCmd_flag L sys i st hne he2]
        constructor
        · rintro ⟨⟨hs, ht⟩, hn⟩
          refine ⟨hs, ?_⟩
          intro j hj
          rcases List.mem_append.mp hj with h | h
          · rcases List.mem_cons.mp h with h | h
            · injection h with h1 h2; exact ht h2.symm
            · have := (hrest _ h).2; simp [Event.inspectIdx] at this
          · exact hn j h
        · rintro ⟨hs, hn⟩
          refine ⟨⟨hs, ?_⟩, ?_⟩
          · intro ht
            apply hn i
            rw [← ht]
            exact List.mem_append_left _ (List.mem_cons_self _ _)
          · intro j hj; exact hn j (List.mem_append_right _ hj)
      · intro h1 h2 h3 h4
        have hc := patchCmd_err L sys i st h1 h2 h3 h4
        rw [herr h1 h2 h3 he2]
        constructor
        · rintro ⟨j, t, hj, ht⟩; exact ⟨j, t, List.mem_append_right _ hj, ht⟩
        · rintro ⟨j, t, hj, ht⟩
          rcases List.mem_append.mp hj with h | h
          · rcases List.mem_cons.mp h with h | h
            · injection h with h1 h2
              subst h2
              exact absurd (hc.mpr ht) he
            · have := (hrest _ h).2; simp [Event.inspectIdx] at this
          · exact ⟨j, t, h, ht⟩

theorem inspect_mem_idx (log : List Event) (i t : Nat) (h : Event.inspect i t ∈ log) :
    i ∈ log.filterMap Event.inspectIdx :=
  List.mem_filterMap.mpr ⟨_, h, rfl⟩

theorem idx_mem_inspect (log : List Event) (i : Nat) (h : i ∈ log.filterMap Event.inspectIdx) :
    ∃ t, Event.inspect i t ∈ log := by
  obtain ⟨e, he, hi⟩ := List.mem_filterMap.mp h
  cases e <;> simp [Event.inspectIdx] at hi
  subst hi
  exact ⟨_, he⟩

/-- The fatal path in terms of the inspections made: when `sys_munmap`, the
mapping of the shadow file and `sys_mprotect`
succeed, `fork_server_patch(n, flag)` ends in the fatal error path exactly when
`n > CRS_MAP_MAX_CMD_N` or a record it inspects carries a tag other than NONE,
REMMAP, REWRITE, MPROTECT.  When `n > CRS_MAP_MAX_CMD_N` the error comes before
anything else: no record is inspected, memory and flag are untouched.  The
records are inspected in index order `0, 1, .., k - 1` with `k <= n` (and
`k = n` without error), so no record at an index `>= n` is inspected; record 0
is inspected with the tag it has in the initial memory, and when the batch
does not rewrite its own tags (each record has at its inspection the tag it
has in the initial memory) the fatal path is taken exactly when
`n > CRS_MAP_MAX_CMD_N` or one of the first `n` records of the initial command
map has an unknown tag. -/
theorem patch_fatal_inspected (L : CRSLayout) (sys : PatchSys) (n : Int) (flag : Bool) (m : Mem)
    (hmunmap : ∀ k, sys.munmap k = 0)
    (hmmap : ∀ k, (sys.mmap_external_file k).isSome = true)
    (hmprotect : ∀ k, sys.mprotect k = 0) :
    ((fork_server_patch L sys n flag m).err.isSome = true ↔
      (n > L.CRS_MAP_MAX_CMD_N ∨
        ∃ i t, Event.inspect i t ∈ (fork_server_patch L sys n flag m).log ∧
          L.validTag t = false)) ∧
    (n > L.CRS_MAP_MAX_CMD_N →
      (fork_server_patch L sys n flag m).err = some Err.patch_cmd_err ∧
      (fork_server_patch L sys n flag m).mem = m ∧
      (fork_server_patch L sys n flag m).shadow_need_sync = flag ∧
      (fork_server_patch L sys n flag m).log = [Event.error Err.patch_cmd_err]) ∧
    (∃ k, k ≤ n.toNat ∧
      (fork_server_patch L sys n flag m).log.filterMap Event.inspectIdx = List.range k ∧
      ((fork_server_patch L sys n flag m).err = none → k = n.toNat)) ∧
    (∀ i t, Event.inspect i t ∈ (fork_server_patch L sys n flag m).log → (i : Int) < n) ∧
    (∀ t, Event.inspect 0 t ∈ (fork_server_patch L sys n flag m).log → t = L.cmd_type m 0) ∧
    ((∀ i t, Event.inspect i t ∈ (fork_server_patch L sys n flag m).log → t = L.cmd_type m i) →
      ((fork_server_patch L sys n flag m).err.isSome = true ↔
        (n > L.CRS_MAP_MAX_CMD_N ∨
          ∃ i : Nat, (i : Int) < n ∧ L.validTag (L.cmd_type m i) = false))) := by
  by_cases hn : n > L.CRS_MAP_MAX_CMD_N
  · have hdef : fork_server_patch L sys n flag m =
        { mem := m, shadow_need_sync := flag, log := [Event.error Err.patch_cmd_err],
          err := some Err.patch_cmd_err } := by
      unfold fork_server_patch utils_error; rw [if_pos hn]; rfl
    rw [hdef]
    refine ⟨by simp [hn], fun _ => ⟨rfl, rfl, rfl, rfl⟩, ⟨0, Nat.zero_le _, by simp [Event.inspectIdx], ?_⟩,
      by simp, by simp, ?_⟩
    · intro h; simp at h
    · intro _; simp [hn]
  · have hdef : fork_server_patch L sys n flag m = patchLoop L sys n.toNat 0
        { mem := m, shadow_need_sync := flag, log := [], err := none } := by
      unfold fork_server_patch; rw [if_neg hn]
    obtain ⟨k, new, hk, h0, hlog, hidx, _, hnone, _, herr⟩ := patchLoop_spec L sys n.toNat 0
      { mem := m, shadow_need_sync := flag, log := [], err := none }
    rw [← hdef] at hlog hnone herr
    simp only [List.nil_append] at hlog
    rw [hlog]
    have hiff := herr hmunmap hmmap hmprotect rfl
    have hrange : new.filterMap Event.inspectIdx = List.range k := by
      rw [hidx, List.range_eq_range']
    have hlt : ∀ i t, Event.inspect i t ∈ new → (i : Int) < n := by
      intro i t hi
      have := inspect_mem_idx new i t hi
      rw [hrange, List.mem_range] at this
      omega
    refine ⟨?_, fun h => absurd h hn, ⟨k, hk, hrange, fun h => (hnone h).1⟩, hlt, h0, ?_⟩
    · rw [hiff]; simp [hn]
    · intro hst
      rw [hiff]
      constructor
      · rintro ⟨i, t, hi, ht⟩
        right
        exact ⟨i, hlt i t hi, by rw [← hst i t hi]; exact ht⟩
      · rintro (h | ⟨i, hi, ht⟩)
        · exact absurd h hn
        · by_contra hcon
          have hnoerr : (fork_server_patch L sys n flag m).err = none := by
            cases h : (fork_server_patch L sys n flag m).err with
            | none => rfl
            | some e => exact absurd (hiff.mp (by rw [h]; rfl)) hcon
          have hk2 := (hnone hnoerr).1
          have hmem : i ∈ new.filterMap Event.inspectIdx := by
            rw [hrange, List.mem_range]; omega
          obtain ⟨t, ht2⟩ := idx_mem_inspect new i hmem
          exact hcon ⟨i, t, ht2, by rw [hst i t ht2]; exact ht⟩

/-- The flag in terms of the inspections made: for every batch, every count
`n` and every prior value `b` of the flag:
whenever `fork_server_patch` returns, the flag is false if a REMMAP record was
inspected and is `b` otherwise (so NONE, REWRITE and MPROTECT records leave it
alone); when the batch does not rewrite its own tags (each record has at its
inspection the tag it has in the initial memory), "a REMMAP record was
inspected" is "one of the first `n` records of the command map is REMMAP".
And `fork_server_patch` does return for `n <= CRS_MAP_MAX_CMD_N` records that
all carry a known tag when they are inspected, if the system calls succeed. -/
theorem remmap_flag_inspected (L : CRSLayout) (sys : PatchSys) (n : Int) (b : Bool) (m : Mem)
    (hne : L.CRS_CMD_NONE ≠ L.CRS_CMD_REMMAP) :
    ((fork_server_patch L sys n b m).err = none →
      ((∃ i, Event.inspect i L.CRS_CMD_REMMAP ∈ (fork_server_patch L sys n b m).log) →
        (fork_server_patch L sys n b m).shadow_need_sync = false) ∧
      ((¬ ∃ i, Event.inspect i L.CRS_CMD_REMMAP ∈ (fork_server_patch L sys n b m).log) →
        (fork_server_patch L sys n b m).shadow_need_sync = b) ∧
      ((∀ i t, Event.inspect i t ∈ (fork_server_patch L sys n b m).log → t = L.cmd_type m i) →
        ((∃ i : Nat, (i : Int) < n ∧ L.cmd_type m i = L.CRS_CMD_REMMAP) →
          (fork_server_patch L sys n b m).shadow_need_sync = false) ∧
        ((¬ ∃ i : Nat, (i : Int) < n ∧ L.cmd_type m i = L.CRS_CMD_REMMAP) →
          (fork_server_patch L sys n b m).shadow_need_sync = b))) ∧
    (n ≤ L.CRS_MAP_MAX_CMD_N → (∀ k, sys.munmap k = 0) →
      (∀ k, (sys.mmap_external_file k).isSome = true) → (∀ k, sys.mprotect k = 0) →
      (∀ e ∈ (fork_server_patch L sys n b m).log, e.tagValid L = true) →
      (fork_server_patch L sys n b m).err = none) := by
  by_cases hn : n > L.CRS_MAP_MAX_CMD_N
  · have hdef : fork_server_patch L sys n b m =
        { mem := m, shadow_need_sync := b, log := [Event.error Err.patch_cmd_err],
          err := some Err.patch_cmd_err } := by
      unfold fork_server_patch utils_error; rw [if_pos hn]; rfl
    rw [hdef]
    refine ⟨fun h => ?_, fun h => ?_⟩
    · exact Option.noConfusion h
    · omega
  · have hdef : fork_server_patch L sys n b m = patchLoop L sys n.toNat 0
        { mem := m, shadow_need_sync := b, log := [], err := none } := by
      unfold fork_server_patch; rw [if_neg hn]
    obtain ⟨k, new, hk, _, hlog, hidx, _, hnone, hflag, herr⟩ := patchLoop_spec L sys n.toNat 0
      { mem := m, shadow_need_sync := b, log := [], err := none }
    rw [← hdef] at hlog hnone herr hflag
    simp only [List.nil_append] at hlog
    rw [hlog]
    have hrange : new.filterMap Event.inspectIdx = List.range k := by
      rw [hidx, List.range_eq_range']
    refine ⟨fun hnoerr => ?_, fun _ hmunmap hmmap hmprotect hvalid => ?_⟩
    · have hfl := hflag hne hnoerr
      simp only at hfl
      have hkn : k = n.toNat := (hnone hnoerr).1
      have hyes : (∃ i, Event.inspect i L.CRS_CMD_REMMAP ∈ new) →
          (fork_server_patch L sys n b m).shadow_need_sync = false := by
        rintro ⟨i, hi⟩
        cases hs : (fork_server_patch L sys n b m).shadow_need_sync with
        | false => rfl
        | true => exact absurd hi ((hfl.mp hs).2 i)
      have hno : (¬ ∃ i, Event.inspect i L.CRS_CMD_REMMAP ∈ new) →
          (fork_server_patch L sys n b m).shadow_need_sync = b := by
        intro h
        by_cases hb : b = true
        · rw [hfl.mpr ⟨hb, fun j hj => h ⟨j, hj⟩⟩, hb]
        · cases hs : (fork_server_patch L sys n b m).shadow_need_sync with
          | false => exact (Bool.eq_false_iff.mpr hb).symm
          | true => exact absurd (hfl.mp hs).1 hb
      refine ⟨hyes, hno, ?_⟩
      intro hst
      constructor
      · rintro ⟨i, hi, ht⟩
        apply hyes
        have hmem : i ∈ new.filterMap Event.inspectIdx := by
          rw [hrange, List.mem_range]; omega
        obtain ⟨t, ht2⟩ := idx_mem_inspect new i hmem
        refine ⟨i, ?_⟩
        rw [← ht, ← hst i t ht2]
        exact ht2
      · intro h
        apply hno
        rintro ⟨i, hi⟩
        apply h
        have := inspect_mem_idx new i _ hi
        rw [hrange, List.mem_range] at this
        exact ⟨i, by omega, (hst i _ hi).symm⟩
    · have hiff := herr hmunmap hmmap hmprotect rfl
      cases h : (fork_server_patch L sys n b m).err with
      | none => rfl
      | some e =>
        obtain ⟨j, t, hj, ht⟩ := hiff.mp (by rw [h]; rfl)
        have := hvalid _ hj
        simp only [Event.tagValid] at this
        rw [this] at ht
        exact Bool.noConfusion ht

/-! ## REWRITE commands -/

theorem loadLE_congr (m m2 : Mem) : ∀ (w a : Nat),
    (∀ k, k < w → m2 ((a + k) % 2 ^ 64) = m ((a + k) % 2 ^ 64)) → loadLE m2 a w = loadLE m a w := by
  intro w
  induction w with
  | zero => intro a _; rfl
  | succ w ih =>
    intro a h
    unfold loadLE load8
    have h0 := h 0 (Nat.succ_pos w)
    rw [Nat.add_zero] at h0
    rw [h0, ih (a + 1)]
    intro k hk
    have := h (k + 1) (by omega)
    rw [show a + (k + 1) = a + 1 + k by omega] at this
    exact this

theorem store8_same (m : Mem) (a v : Nat) : store8 m a v (a % 2 ^ 64) = v % 256 := by
  unfold store8
  rw [if_pos rfl]

theorem store8_other (m : Mem) (a v x : Nat) (h : x ≠ a % 2 ^ 64) : store8 m a v x = m x := by
  unfold store8
  rw [if_neg h]

theorem sound_fields (L : CRSLayout) (hS : L.Sound) (m m2 : Mem) (i : Nat)
    (hi : (i : Int) < L.CRS_MAP_MAX_CMD_N) (h : ∀ a, L.inMap a = true → m2 a = m a) :
    L.cmd_type m2 i = L.cmd_type m i ∧ L.cmd_addr m2 i = L.cmd_addr m i ∧
    L.cmd_size m2 i = L.cmd_size m i ∧ L.cmd_data m2 i = L.cmd_data m i ∧
    ∀ j, j < L.bufCap → L.cmd_buf m2 i j = L.cmd_buf m i j :=
  hS.2.2.2.2.2.2.2 m m2 h i hi

theorem flatLayout_sound (base max : Nat) (h : base + 64 * max ≤ 2 ^ 64) :
    (flatLayout base max).Sound := by
  refine ⟨by simp [flatLayout], by simp [flatLayout], by simp [flatLayout], by simp [flatLayout],
    by simp [flatLayout], by simp [flatLayout], by simp [flatLayout], ?_⟩
  intro m m2 hagree i hi
  have hi2 : i < max := by
    have : ((i : Nat) : Int) < (max : Int) := hi
    exact_mod_cast this
  have key : ∀ off w, off + w ≤ 64 →
      loadLE m2 (base + 64 * i + off) w = loadLE m (base + 64 * i + off) w := by
    intro off w hw
    apply loadLE_congr
    intro k hk
    have hlt : base + 64 * i + off + k < 2 ^ 64 := by omega
    rw [Nat.mod_eq_of_lt hlt]
    apply hagree
    simp only [flatLayout, decide_eq_true_eq]
    omega
  refine ⟨key 0 8 (by omega), key 8 8 (by omega), key 16 8 (by omega), key 24 8 (by omega), ?_⟩
  intro j hj
  have hj2 : j < 32 := hj
  have := key (32 + j) 1 (by omega)
  simp only [loadLE, Nat.mul_zero, Nat.add_zero] at this
  simp only [flatLayout]
  rw [show base + 64 * i + 32 + j = base + 64 * i + (32 + j) by omega]
  exact this

theorem inPatch_kinds (e : Event) (h : e.inPatch = true) :
    e.isAfl = false ∧ e.isCrs = false ∧ e.isPatch = false ∧ e.isCount = false := by
  cases e <;> simp_all [Event.inPatch, Event.isAfl, Event.isCrs, Event.isPatch, Event.isCount]

theorem fork_server_patch_log (L : CRSLayout) (sys : PatchSys) (n : Int) (b : Bool) (m : Mem) :
    (∀ e ∈ (fork_server_patch L sys n b m).log, e.inPatch = true) ∧
    ((fork_server_patch L sys n b m).err = none →
      (fork_server_patch L sys n b m).log.filterMap Event.inspectIdx = List.range n.toNat) := by
  by_cases hn : n > L.CRS_MAP_MAX_CMD_N
  · have hdef : fork_server_patch L sys n b m =
        { mem := m, shadow_need_sync := b, log := [Event.error Err.patch_cmd_err],
          err := some Err.patch_cmd_err } := by
      unfold fork_server_patch utils_error; rw [if_pos hn]; rfl
    rw [hdef]
    constructor
    · intro e he; simp at he; subst he; rfl
    · intro h; simp at h
  · have hdef : fork_server_patch L sys n b m = patchLoop L sys n.toNat 0
        { mem := m, shadow_need_sync := b, log := [], err := none } := by
      unfold fork_server_patch; rw [if_neg hn]
    obtain ⟨k, new, _, _, hlog, hidx, hin, hnone, _, _⟩ := patchLoop_spec L sys n.toNat 0
      { mem := m, shadow_need_sync := b, log := [], err := none }
    rw [← hdef] at hlog hnone
    simp only [List.nil_append] at hlog
    rw [hlog]
    refine ⟨hin, fun h => ?_⟩
    rw [hidx, (hnone h).1, List.range_eq_range']

theorem not_suspect_139 : IS_SUSPECT_STATUS 139 = false := by decide

theorem report_eq (s : FS) (evs : List Event) (mem : Mem) (st : Nat) :
    ∃ tail, (report s evs mem st).trace = s.trace ++ (evs ++ tail) ∧
      (∀ v, Event.afl_write_status v ∈ tail → v = st) ∧
      (∀ e ∈ tail, e.isAfl = true → s.afl_attached = true ∧ e = Event.afl_write_status st) ∧
      (report s evs mem st).crs_loop = false ∧
      (report s evs mem st).afl_attached = s.afl_attached ∧
      (report s evs mem st).tick = s.tick + 1 ∧
      (s.afl_attached = true → tail = [Event.afl_write_status st] ∧
        (report s evs mem st).ctl = Ctl.head ∧ (report s evs mem st).mem = mem) := by
  unfold report FS.sys_exit
  by_cases h1 : s.afl_attached = true
  · rw [if_pos h1]
    exact ⟨_, rfl, by simp, by simp [h1], rfl, rfl, rfl, fun _ => ⟨rfl, rfl, rfl⟩⟩
  · rw [if_neg h1]
    by_cases h2 : WIFEXITED st = true
    · rw [if_pos h2]
      exact ⟨[Event.crs_write_status st, Event.exit (WEXITSTATUS st)], by simp [FS.next],
        by simp, by simp [Event.isAfl], rfl, rfl, rfl, fun h => absurd h h1⟩
    · rw [if_neg h2]
      by_cases h3 : WIFSIGNALED st = true
      · rw [if_pos h3]
        exact ⟨_, rfl, by simp, by simp [Event.isAfl], rfl, rfl, rfl, fun h => absurd h h1⟩
      · rw [if_neg h3]
        exact ⟨_, rfl, by simp, by simp [Event.isAfl], rfl, rfl, rfl, fun h => absurd h h1⟩

theorem stepHead_normal (w : World) (s : FS)
    (hread : (s.afl_attached && !s.crs_loop) = true → w.afl_read s.tick = 4)
    (hclone : 0 < w.clone s.tick) (hwait : 0 ≤ (w.wait4 s.tick).1)
    (hst : IS_SUSPECT_STATUS (w.wait4 s.tick).2 = false) :
    stepHead w s = report s (turnEvents w s) (w.wait_mem s.tick s.mem) (w.wait4 s.tick).2 := by
  have h1 : ¬ (s.afl_attached && !s.crs_loop && w.afl_read s.tick != 4) = true := by
    intro h
    rw [Bool.and_eq_true] at h
    have := hread h.1
    simp [this] at h
  have h2 : ¬ w.clone s.tick < 0 := by omega
  have h3 : ¬ w.clone s.tick = 0 := by omega
  have h4 : ¬ (w.wait4 s.tick).1 < 0 := by omega
  have h5 : ¬ IS_SUSPECT_STATUS (w.wait4 s.tick).2 = true := by rw [hst]; simp
  unfold stepHead turnEvents FS.utils_error
  simp only []
  rw [if_neg h1, if_neg h2, if_neg h3, if_neg h4, if_neg h5]

theorem stepHead_real (w : World) (s : FS)
    (hread : (s.afl_attached && !s.crs_loop) = true → w.afl_read s.tick = 4)
    (hclone : 0 < w.clone s.tick) (hwait : 0 ≤ (w.wait4 s.tick).1)
    (hst : IS_SUSPECT_STATUS (w.wait4 s.tick).2 = true)
    (hreply : (w.crs_read s.tick).getD (-1) < 0) :
    stepHead w s = report s
      (turnEvents w s ++ [Event.crs_write_status (w.wait4 s.tick).2, Event.crs_read (w.crs_read s.tick)])
      (w.crs_mem s.tick (w.wait_mem s.tick s.mem)) 139 := by
  have h1 : ¬ (s.afl_attached && !s.crs_loop && w.afl_read s.tick != 4) = true := by
    intro h
    rw [Bool.and_eq_true] at h
    have := hread h.1
    simp [this] at h
  have h2 : ¬ w.clone s.tick < 0 := by omega
  have h3 : ¬ w.clone s.tick = 0 := by omega
  have h4 : ¬ (w.wait4 s.tick).1 < 0 := by omega
  have h6 : ¬ (w.crs_read s.tick).getD (-1) ≥ 0 := by omega
  unfold stepHead turnEvents FS.utils_error
  simp only []
  rw [if_neg h1, if_neg h2, if_neg h3, if_neg h4, if_pos hst, if_neg h6]

theorem stepHead_patch (w : World) (s : FS)
    (hread : (s.afl_attached && !s.crs_loop) = true → w.afl_read s.tick = 4)
    (hclone : 0 < w.clone s.tick) (hwait : 0 ≤ (w.wait4 s.tick).1)
    (hst : IS_SUSPECT_STATUS (w.wait4 s.tick).2 = true)
    (hreply : 0 ≤ (w.crs_read s.tick).getD (-1)) :
    stepHead w s = s.next
      (turnEvents w s ++ [Event.crs_write_status (w.wait4 s.tick).2, Event.crs_read (w.crs_read s.tick)])
      (Ctl.round ((w.crs_read s.tick).getD (-1)) true) s.crs_loop
      (w.crs_mem s.tick (w.wait_mem s.tick s.mem)) := by
  have h1 : ¬ (s.afl_attached && !s.crs_loop && w.afl_read s.tick != 4) = true := by
    intro h
    rw [Bool.and_eq_true] at h
    have := hread h.1
    simp [this] at h
  have h2 : ¬ w.clone s.tick < 0 := by omega
  have h3 : ¬ w.clone s.tick = 0 := by omega
  have h4 : ¬ (w.wait4 s.tick).1 < 0 := by omega
  have h6 : (w.crs_read s.tick).getD (-1) ≥ 0 := hreply
  unfold stepHead turnEvents FS.utils_error
  simp only []
  rw [if_neg h1, if_neg h2, if_neg h3, if_neg h4, if_pos hst, if_pos h6]

theorem turnEvents_no_status (w : World) (s : FS) (v : Nat) :
    Event.afl_write_status v ∉ turnEvents w s := by
  unfold turnEvents
  by_cases h : (s.afl_attached && !s.crs_loop) = true
  · simp [h]
  · simp [h]

theorem turnEvents_wait (w : World) (s : FS) :
    Event.wait4 (w.clone s.tick) (w.wait4 s.tick).1 (w.wait4 s.tick).2 ∈ turnEvents w s := by
  unfold turnEvents
  simp

/-- The head step in full: the five ways a turn of the outer loop can go. -/
theorem stepHead_cases (w : World) (s : FS) :
    (∃ evs e, stepHead w s = s.next evs (Ctl.fatal e) s.crs_loop s.mem ∧
        (∀ x ∈ evs, (∀ v, x ≠ Event.afl_write_status v) ∧ x.isCrs = false ∧
          ((s.afl_attached && !s.crs_loop) = false → x.isAfl = false))) ∨
    (∃ evs m, stepHead w s = s.next evs Ctl.child s.crs_loop m ∧
        (∀ x ∈ evs, (∀ v, x ≠ Event.afl_write_status v) ∧ x.isCrs = false ∧
          ((s.afl_attached && !s.crs_loop) = false → x.isAfl = false))) ∨
    (stepHead w s = s.next (turnEvents w s ++ [Event.error Err.wait4_err])
        (Ctl.fatal Err.wait4_err) s.crs_loop (w.wait_mem s.tick s.mem)) ∨
    (IS_SUSPECT_STATUS (w.wait4 s.tick).2 = true ∧ 0 ≤ (w.crs_read s.tick).getD (-1) ∧
      stepHead w s = s.next
        (turnEvents w s ++
          [Event.crs_write_status (w.wait4 s.tick).2, Event.crs_read (w.crs_read s.tick)])
        (Ctl.round ((w.crs_read s.tick).getD (-1)) true) s.crs_loop
        (w.crs_mem s.tick (w.wait_mem s.tick s.mem))) ∨
    (IS_SUSPECT_STATUS (w.wait4 s.tick).2 = true ∧ (w.crs_read s.tick).getD (-1) < 0 ∧
      stepHead w s = report s
        (turnEvents w s ++
          [Event.crs_write_status (w.wait4 s.tick).2, Event.crs_read (w.crs_read s.tick)])
        (w.crs_mem s.tick (w.wait_mem s.tick s.mem)) 139) ∨
    (IS_SUSPECT_STATUS (w.wait4 s.tick).2 = false ∧
      stepHead w s = report s (turnEvents w s) (w.wait_mem s.tick s.mem) (w.wait4 s.tick).2) := by
  by_cases h1 : (s.afl_attached && !s.crs_loop && w.afl_read s.tick != 4) = true
  · left
    refine ⟨_, _, by unfold stepHead FS.utils_error; simp only []; rw [if_pos h1], ?_⟩
    intro x hx
    have hw : (s.afl_attached && !s.crs_loop) = true := by
      rw [Bool.and_eq_true] at h1; exact h1.1
    simp [hw] at hx
    rcases hx with rfl | rfl <;> simp [Event.isCrs, hw]
  · by_cases h2 : w.clone s.tick < 0
    · left
      refine ⟨_, _, by unfold stepHead FS.utils_error; simp only []; rw [if_neg h1, if_pos h2], ?_⟩
      intro x hx
      by_cases hw : (s.afl_attached && !s.crs_loop) = true
      · simp [hw] at hx
        rcases hx with rfl | rfl | rfl <;> simp [Event.isCrs, hw]
      · simp [hw] at hx
        rcases hx with rfl | rfl <;> simp [Event.isCrs, Event.isAfl]
    · by_cases h3 : w.clone s.tick = 0
      · right; left
        refine ⟨_, _, by unfold stepHead FS.utils_error; simp only []; rw [if_neg h1, if_neg h2, if_pos h3], ?_⟩
        intro x hx
        by_cases hw : (s.afl_attached && !s.crs_loop) = true
        · simp [hw] at hx
          rcases hx with rfl | rfl | rfl <;> simp [Event.isCrs, hw]
        · simp [hw] at hx
          rcases hx with rfl | rfl <;> simp [Event.isCrs, Event.isAfl]
      · by_cases h4 : (w.wait4 s.tick).1 < 0
        · right; right; left
          unfold stepHead turnEvents FS.utils_error; simp only []
          rw [if_neg h1, if_neg h2, if_neg h3, if_pos h4]
        · have hread : (s.afl_attached && !s.crs_loop) = true → w.afl_read s.tick = 4 := by
            intro hw
            by_contra hne
            apply h1
            rw [Bool.and_eq_true]
            exact ⟨hw, by simpa using hne⟩
          by_cases h5 : IS_SUSPECT_STATUS (w.wait4 s.tick).2 = true
          · by_cases h6 : 0 ≤ (w.crs_read s.tick).getD (-1)
            · right; right; right; left
              exact ⟨h5, h6, stepHead_patch w s hread (by omega) (by omega) h5 h6⟩
            · right; right; right; right; left
              exact ⟨h5, by omega, stepHead_real w s hread (by omega) (by omega) h5 (by omega)⟩
          · right; right; right; right; right
            have h5f : IS_SUSPECT_STATUS (w.wait4 s.tick).2 = false := by
              simpa using h5
            exact ⟨h5f, stepHead_normal w s hread (by omega) (by omega) h5f⟩

theorem stepRound_fatal (C : Config) (w : World) (s : FS) (n : Int) (b : Bool) (e : Err)
    (h : (fork_server_patch C.L (w.patch_sys s.tick) n b s.mem).err = some e) :
    stepRound C w s n b = s.next
      (Event.patch n :: (fork_server_patch C.L (w.patch_sys s.tick) n b s.mem).log)
      (Ctl.fatal e) s.crs_loop (fork_server_patch C.L (w.patch_sys s.tick) n b s.mem).mem := by
  unfold stepRound FS.utils_error
  simp only []
  rw [h]

theorem stepRound_more (C : Config) (w : World) (s : FS) (n : Int) (b : Bool)
    (h : (fork_server_patch C.L (w.patch_sys s.tick) n b s.mem).err = none)
    (hn : ¬ n < C.L.CRS_MAP_MAX_CMD_N) :
    stepRound C w s n b = s.next
      (Event.patch n :: (fork_server_patch C.L (w.patch_sys s.tick) n b s.mem).log ++
        [Event.crs_write_count n, Event.crs_read (w.crs_read s.tick)])
      (Ctl.round ((w.crs_read s.tick).getD n)
        (fork_server_patch C.L (w.patch_sys s.tick) n b s.mem).shadow_need_sync)
      s.crs_loop
      (w.crs_mem s.tick (fork_server_patch C.L (w.patch_sys s.tick) n b s.mem).mem) := by
  unfold stepRound FS.utils_error
  simp only []
  rw [h]
  simp only []
  rw [if_neg hn]

theorem stepRound_last (C : Config) (w : World) (s : FS) (n : Int) (b : Bool)
    (h : (fork_server_patch C.L (w.patch_sys s.tick) n b s.mem).err = none)
    (hn : n < C.L.CRS_MAP_MAX_CMD_N) :
    (∃ evs, stepRound C w s n b = s.next
        (Event.patch n :: (fork_server_patch C.L (w.patch_sys s.tick) n b s.mem).log ++ evs)
        (Ctl.fatal Err.msync_err) s.crs_loop
        (fork_server_patch C.L (w.patch_sys s.tick) n b s.mem).mem ∧
        ∀ x ∈ evs, x.isSync = true) ∨
    (clearMap C (fork_server_patch C.L (w.patch_sys s.tick) n b s.mem).mem = none ∧
      stepRound C w s n b = s.next
        (Event.patch n :: (fork_server_patch C.L (w.patch_sys s.tick) n b s.mem).log ++
          (syncEvents (fork_server_patch C.L (w.patch_sys s.tick) n b s.mem) ++ [Event.clear_map]))
        Ctl.hang true (fork_server_patch C.L (w.patch_sys s.tick) n b s.mem).mem) ∨
    (∃ m, clearMap C (fork_server_patch C.L (w.patch_sys s.tick) n b s.mem).mem = some m ∧
      w.msync s.tick 0 = 0 ∧
      ((fork_server_patch C.L (w.patch_sys s.tick) n b s.mem).shadow_need_sync = true →
        w.msync s.tick 1 = 0) ∧
      stepRound C w s n b = s.next
        (Event.patch n :: (fork_server_patch C.L (w.patch_sys s.tick) n b s.mem).log ++
          (syncEvents (fork_server_patch C.L (w.patch_sys s.tick) n b s.mem) ++ [Event.clear_map]))
        Ctl.head true m) := by
  unfold stepRound syncEvents FS.utils_error
  simp only []
  rw [h]
  simp only []
  rw [if_pos hn]
  by_cases h1 : w.msync s.tick 0 ≠ 0
  · left
    rw [if_pos h1]
    exact ⟨_, by rw [List.append_assoc], by simp [Event.isSync]⟩
  · rw [if_neg h1]
    by_cases h2 : ((fork_server_patch C.L (w.patch_sys s.tick) n b s.mem).shadow_need_sync
        && w.msync s.tick 1 != 0) = true
    · left
      rw [if_pos h2]
      rw [Bool.and_eq_true] at h2
      rw [if_pos h2.1]
      exact ⟨_, by rw [List.append_assoc, List.append_assoc], by simp [Event.isSync]⟩
    · rw [if_neg h2]
      have h1b : w.msync s.tick 0 = 0 := by simpa using h1
      have h2b : (fork_server_patch C.L (w.patch_sys s.tick) n b s.mem).shadow_need_sync = true →
          w.msync s.tick 1 = 0 := by
        intro hs
        by_contra hne
        apply h2
        rw [Bool.and_eq_true]
        exact ⟨hs, by simpa using hne⟩
      cases hc : clearMap C (fork_server_patch C.L (w.patch_sys s.tick) n b s.mem).mem with
      | none =>
        right; left
        refine ⟨rfl, ?_⟩
        simp only [List.append_assoc, List.cons_append]
        split_ifs <;> simp
      | some m =>
        right; right
        refine ⟨m, rfl, h1b, h2b, ?_⟩
        simp only [List.append_assoc, List.cons_append]
        split_ifs <;> simp

theorem isSync_kinds (e : Event) (h : e.isSync = true) :
    e.isAfl = false ∧ e.isCrs = false ∧ e.isPatch = false ∧ e.isCount = false ∧
      e.inspectIdx = none := by
  cases e <;> simp_all [Event.isSync, Event.isAfl, Event.isCrs, Event.isPatch, Event.isCount,
    Event.inspectIdx]

theorem syncEvents_isSync (out : PatchState) : ∀ x ∈ syncEvents out, x.isSync = true := by
  intro x hx
  unfold syncEvents at hx
  split_ifs at hx <;> simp at hx
  · rcases hx with rfl | rfl <;> rfl
  · subst hx; rfl

/-- The events of a step of the patch round carry no message for the fuzzer. -/
theorem stepRound_trace (C : Config) (w : World) (s : FS) (n : Int) (b : Bool) :
    ∃ evs, (stepRound C w s n b).trace = s.trace ++ evs ∧ (∀ x ∈ evs, x.isAfl = false) ∧
      (stepRound C w s n b).afl_attached = s.afl_attached ∧
      ((∃ e, (stepRound C w s n b).ctl = Ctl.fatal e) ∨
        (stepRound C w s n b).ctl = Ctl.hang ∨
        (∃ n2 b2, (stepRound C w s n b).ctl = Ctl.round n2 b2) ∨
        ((stepRound C w s n b).ctl = Ctl.head ∧ (stepRound C w s n b).crs_loop = true)) := by
  have hlog := (fork_server_patch_log C.L (w.patch_sys s.tick) n b s.mem).1
  have hpl : ∀ x ∈ Event.patch n :: (fork_server_patch C.L (w.patch_sys s.tick) n b s.mem).log,
      x.isAfl = false := by
    intro x hx
    rcases List.mem_cons.mp hx with rfl | hx
    · rfl
    · exact (inPatch_kinds x (hlog x hx)).1
  cases he : (fork_server_patch C.L (w.patch_sys s.tick) n b s.mem).err with
  | some e =>
    rw [stepRound_fatal C w s n b e he]
    exact ⟨_, rfl, hpl, rfl, Or.inl ⟨e, rfl⟩⟩
  | none =>
    by_cases hn : n < C.L.CRS_MAP_MAX_CMD_N
    · rcases stepRound_last C w s n b he hn with ⟨evs, h, hs⟩ | ⟨_, h⟩ | ⟨m, _, _, _, h⟩
      · rw [h]
        refine ⟨_, rfl, ?_, rfl, Or.inl ⟨_, rfl⟩⟩
        intro x hx
        rcases List.mem_append.mp hx with hx | hx
        · exact hpl x hx
        · exact (isSync_kinds x (hs x hx)).1
      · rw [h]
        refine ⟨_, rfl, ?_, rfl, Or.inr (Or.inl rfl)⟩
        intro x hx
        rcases List.mem_append.mp hx with hx | hx
        · exact hpl x hx
        · rcases List.mem_append.mp hx with hx | hx
          · exact (isSync_kinds x (syncEvents_isSync _ x hx)).1
          · simp at hx; subst hx; rfl
      · rw [h]
        refine ⟨_, rfl, ?_, rfl, Or.inr (Or.inr (Or.inr ⟨rfl, rfl⟩))⟩
        intro x hx
        rcases List.mem_append.mp hx with hx | hx
        · exact hpl x hx
        · rcases List.mem_append.mp hx with hx | hx
          · exact (isSync_kinds x (syncEvents_isSync _ x hx)).1
          · simp at hx; subst hx; rfl
    · rw [stepRound_more C w s n b he hn]
      refine ⟨_, rfl, ?_, rfl, Or.inr (Or.inr (Or.inl ⟨_, _, rfl⟩))⟩
      intro x hx
      rcases List.mem_append.mp hx with hx | hx
      · exact hpl x hx
      · simp at hx; rcases hx with rfl | rfl <;> rfl

theorem statusOk_append (tr evs : List Event) (h1 : StatusOk tr) (h2 : StatusOk evs) :
    StatusOk (tr ++ evs) := by
  intro v hv
  rcases List.mem_append.mp hv with h | h
  · obtain ⟨a, b⟩ := h1 v h
    refine ⟨a, ?_⟩
    rcases b with b | ⟨p, r, hb⟩
    · exact Or.inl b
    · exact Or.inr ⟨p, r, List.mem_append_left _ hb⟩
  · obtain ⟨a, b⟩ := h2 v h
    refine ⟨a, ?_⟩
    rcases b with b | ⟨p, r, hb⟩
    · exact Or.inl b
    · exact Or.inr ⟨p, r, List.mem_append_right _ hb⟩

theorem stepHead_statusOk (w : World) (s : FS) :
    ∃ evs, (stepHead w s).trace = s.trace ++ evs ∧ StatusOk evs := by
  rcases stepHead_cases w s with ⟨evs, e, h, hx⟩ | ⟨evs, m, h, hx⟩ | h | ⟨_, _, h⟩ | ⟨_, _, h⟩ | ⟨hs, h⟩
  · rw [h]; exact ⟨_, rfl, fun v hv => absurd rfl ((hx _ hv).1 v)⟩
  · rw [h]; exact ⟨_, rfl, fun v hv => absurd rfl ((hx _ hv).1 v)⟩
  · rw [h]
    refine ⟨_, rfl, fun v hv => ?_⟩
    rcases List.mem_append.mp hv with hv | hv
    · exact absurd hv (turnEvents_no_status w s v)
    · simp at hv
  · rw [h]
    refine ⟨_, rfl, fun v hv => ?_⟩
    rcases List.mem_append.mp hv with hv | hv
    · exact absurd hv (turnEvents_no_status w s v)
    · simp at hv
  · rw [h]
    obtain ⟨tail, ht, hv1, _⟩ := report_eq s
      (turnEvents w s ++
        [Event.crs_write_status (w.wait4 s.tick).2, Event.crs_read (w.crs_read s.tick)])
      (w.crs_mem s.tick (w.wait_mem s.tick s.mem)) 139
    refine ⟨_, ht, fun v hv => ?_⟩
    rcases List.mem_append.mp hv with hv | hv
    · rcases List.mem_append.mp hv with hv | hv
      · exact absurd hv (turnEvents_no_status w s v)
      · simp at hv
    · rw [hv1 v hv]
      exact ⟨not_suspect_139, Or.inl rfl⟩
  · rw [h]
    obtain ⟨tail, ht, hv1, _⟩ := report_eq s (turnEvents w s) (w.wait_mem s.tick s.mem)
      (w.wait4 s.tick).2
    refine ⟨_, ht, fun v hv => ?_⟩
    rcases List.mem_append.mp hv with hv | hv
    · exact absurd hv (turnEvents_no_status w s v)
    · rw [hv1 v hv]
      exact ⟨hs, Or.inr ⟨_, _, List.mem_append_left _ (turnEvents_wait w s)⟩⟩

theorem step_statusOk (C : Config) (w : World) (s : FS) :
    ∃ evs, (step C w s).trace = s.trace ++ evs ∧ StatusOk evs := by
  unfold step
  cases hc : s.ctl with
  | head => exact stepHead_statusOk w s
  | round n b =>
    obtain ⟨evs, h, hx, _⟩ := stepRound_trace C w s n b
    refine ⟨evs, h, fun v hv => ?_⟩
    have := hx _ hv
    simp [Event.isAfl] at this
  | child => exact ⟨[], by simp, fun v hv => by simp at hv⟩
  | fatal e => exact ⟨[], by simp, fun v hv => by simp at hv⟩
  | exited c => exact ⟨[], by simp, fun v hv => by simp at hv⟩
  | hang => exact ⟨[], by simp, fun v hv => by simp at hv⟩

theorem run_statusOk (C : Config) (w : World) : ∀ (k : Nat) (s : FS),
    StatusOk s.trace → StatusOk (run C w k s).trace := by
  intro k
  induction k with
  | zero => intro s h; exact h
  | succ k ih =>
    intro s h
    unfold run
    apply ih
    obtain ⟨evs, he, hok⟩ := step_statusOk C w s
    rw [he]
    exact statusOk_append _ _ h hok

/-- C1: in every run of the loop of `fork_server_start` entered with the fuzzer
attached, whatever the system calls return, whatever the children end with and
whatever the daemon replies, every status `v` written on `AFL_FORKSRV_FD + 1`
fails `IS_SUSPECT_STATUS`; it is either 139 or the status a `wait4` of the run
returned, so a status signalled by SIGUSR1 is never forwarded. -/
theorem C1_no_suspect_status_forwarded (C : Config) (w : World) (m : Mem) (k : Nat) (v : Nat)
    (hv : Event.afl_write_status v ∈ (run C w k (loopInit true m)).trace) :
    IS_SUSPECT_STATUS v = false ∧
    (v = 139 ∨ ∃ pid ret, Event.wait4 pid ret v ∈ (run C w k (loopInit true m)).trace) :=
  run_statusOk C w k (loopInit true m) (fun v hv => by simp [loopInit] at hv) v hv

theorem step_head (C : Config) (w : World) (s : FS) (h : s.ctl = Ctl.head) :
    step C w s = stepHead w s := by
  unfold step; rw [h]

theorem step_round (C : Config) (w : World) (s : FS) (n : Int) (b : Bool)
    (h : s.ctl = Ctl.round n b) : step C w s = stepRound C w s n b := by
  unfold step; rw [h]

theorem turnEvents_quiet (w : World) (s : FS) :
    ∀ e ∈ turnEvents w s, e.isPatch = false ∧ e.isSync = false ∧ e.isCrs = false ∧
      (∀ v, e ≠ Event.afl_write_status v) := by
  intro e he
  unfold turnEvents at he
  by_cases h : (s.afl_attached && !s.crs_loop) = true
  · simp [h] at he
    rcases he with rfl | rfl | rfl | rfl <;> simp [Event.isPatch, Event.isSync, Event.isCrs]
  · simp [h] at he
    rcases he with rfl | rfl <;> simp [Event.isPatch, Event.isSync, Event.isCrs]

/-- C4: take a turn of the loop with the fuzzer attached (the trigger read, if
one is due, returns 4, the fork and `wait4` succeed) whose child ends with a
suspect status and whose read of the daemon reply leaves `cmd_n` negative (a
negative count, or nothing delivered).  The events of the turn are those up to
`wait4`, the report of the status to the daemon, the read of the reply and one
write of 139 to the fuzzer: no call of `fork_server_patch`, no `msync`, no
clear of the coverage map.  Afterwards `crs_loop` is false and the loop is at
its top; memory is what the child and the daemon left.  And 139 is a status of
termination by SIGSEGV: abnormal, not suspect. -/
theorem C4_confirmed_crash_reported_as_139 (C : Config) (w : World) (s : FS)
    (hctl : s.ctl = Ctl.head) (hafl : s.afl_attached = true)
    (hread : s.crs_loop = false → w.afl_read s.tick = 4)
    (hclone : 0 < w.clone s.tick) (hwait : 0 ≤ (w.wait4 s.tick).1)
    (hst : IS_SUSPECT_STATUS (w.wait4 s.tick).2 = true)
    (hreply : (w.crs_read s.tick).getD (-1) < 0) :
    (step C w s).trace = s.trace ++ (turnEvents w s ++
      [Event.crs_write_status (w.wait4 s.tick).2, Event.crs_read (w.crs_read s.tick),
        Event.afl_write_status 139]) ∧
    (∀ e ∈ turnEvents w s, e.isPatch = false ∧ e.isSync = false ∧ e.isCrs = false ∧
      ∀ v, e ≠ Event.afl_write_status v) ∧
    (step C w s).crs_loop = false ∧
    (step C w s).ctl = Ctl.head ∧
    (step C w s).mem = w.crs_mem s.tick (w.wait_mem s.tick s.mem) ∧
    WIFSIGNALED 139 = true ∧ WTERMSIG 139 = SIGSEGV ∧ IS_ABNORMAL_STATUS 139 = true ∧
    IS_SUSPECT_STATUS 139 = false := by
  have hread2 : (s.afl_attached && !s.crs_loop) = true → w.afl_read s.tick = 4 := by
    intro h
    apply hread
    rw [Bool.and_eq_true] at h
    simpa using h.2
  rw [step_head C w s hctl, stepHead_real w s hread2 hclone hwait hst hreply]
  unfold report FS.sys_exit
  rw [if_pos hafl]
  refine ⟨?_, turnEvents_quiet w s, rfl, rfl, rfl, by decide, by decide, by decide, by decide⟩
  simp [FS.next]

/-- C6: a turn that starts with `crs_loop` false and the fuzzer attached, whose
trigger read returns 4, whose fork and `wait4` succeed and whose child ends
with a status `s` that is not suspect, produces exactly: the trigger read, the
fork, the write of the pid, `wait4`, the write of `s` unchanged.  Its messages
on the fuzzer descriptors are the read, the pid, the status, in this order;
there is none on the daemon socket; `crs_loop` is false afterwards and the
loop is back at its top. -/
theorem C6_plain_turn (C : Config) (w : World) (s : FS)
    (hctl : s.ctl = Ctl.head) (hafl : s.afl_attached = true) (hloop : s.crs_loop = false)
    (hread : w.afl_read s.tick = 4)
    (hclone : 0 < w.clone s.tick) (hwait : 0 ≤ (w.wait4 s.tick).1)
    (hst : IS_SUSPECT_STATUS (w.wait4 s.tick).2 = false) :
    (step C w s).trace = s.trace ++
      [Event.afl_read 4, Event.clone (w.clone s.tick), Event.afl_write_pid (w.clone s.tick),
        Event.wait4 (w.clone s.tick) (w.wait4 s.tick).1 (w.wait4 s.tick).2,
        Event.afl_write_status (w.wait4 s.tick).2] ∧
    ([Event.afl_read 4, Event.clone (w.clone s.tick), Event.afl_write_pid (w.clone s.tick),
        Event.wait4 (w.clone s.tick) (w.wait4 s.tick).1 (w.wait4 s.tick).2,
        Event.afl_write_status (w.wait4 s.tick).2].filter Event.isAfl =
      [Event.afl_read 4, Event.afl_write_pid (w.clone s.tick),
        Event.afl_write_status (w.wait4 s.tick).2]) ∧
    ([Event.afl_read 4, Event.clone (w.clone s.tick), Event.afl_write_pid (w.clone s.tick),
        Event.wait4 (w.clone s.tick) (w.wait4 s.tick).1 (w.wait4 s.tick).2,
        Event.afl_write_status (w.wait4 s.tick).2].filter Event.isCrs = []) ∧
    (step C w s).crs_loop = false ∧
    (step C w s).ctl = Ctl.head := by
  have hw : (s.afl_attached && !s.crs_loop) = true := by rw [hafl, hloop]; rfl
  rw [step_head C w s hctl, stepHead_normal w s (fun _ => hread) hclone hwait hst]
  unfold report turnEvents
  rw [if_pos hafl, hread]
  simp only [if_pos hw]
  refine ⟨by simp [FS.next], by simp [Event.isAfl, List.filter],
    by simp [Event.isCrs, List.filter], rfl, rfl⟩

theorem filter_false {α : Type} (p : α → Bool) (l : List α) (h : ∀ x ∈ l, p x = false) :
    l.filter p = [] := by
  rw [List.filter_eq_nil_iff]
  intro x hx
  rw [h x hx]
  simp

theorem filterMap_none {α β : Type} (f : α → Option β) (l : List α) (h : ∀ x ∈ l, f x = none) :
    l.filterMap f = [] := by
  rw [List.filterMap_eq_nil_iff]
  exact h

/-- What a completed call of `fork_server_patch` contributes to the counts. -/
theorem patch_counts (L : CRSLayout) (sys : PatchSys) (n : Int) (b : Bool) (m : Mem)
    (h : (fork_server_patch L sys n b m).err = none) :
    (Event.patch n :: (fork_server_patch L sys n b m).log).filter Event.isPatch = [Event.patch n] ∧
    (Event.patch n :: (fork_server_patch L sys n b m).log).filter Event.isCount = [] ∧
    (Event.patch n :: (fork_server_patch L sys n b m).log).filterMap Event.inspectIdx =
      List.range n.toNat ∧
    (∀ x ∈ Event.patch n :: (fork_server_patch L sys n b m).log, x.isAfl = false) := by
  obtain ⟨h1, h2⟩ := fork_server_patch_log L sys n b m
  refine ⟨?_, ?_, ?_, ?_⟩
  · rw [List.filter_cons]
    simp only [Event.isPatch, if_true]
    rw [filter_false _ _ (fun x hx => (inPatch_kinds x (h1 x hx)).2.2.1)]
  · rw [List.filter_cons]
    simp only [Event.isCount]
    rw [filter_false _ _ (fun x hx => (inPatch_kinds x (h1 x hx)).2.2.2)]
    simp
  · rw [List.filterMap_cons]
    simp only [Event.inspectIdx]
    exact h2 h
  · intro x hx
    rcases List.mem_cons.mp hx with rfl | hx
    · rfl
    · exact (inPatch_kinds x (h1 x hx)).1

theorem run_succ (C : Config) (w : World) (k : Nat) (s : FS) :
    run C w (k + 1) s = run C w k (step C w s) := rfl

theorem patchOk_round (C : Config) (w : World) (s : FS) (c : Int) (b : Bool)
    (hctl : s.ctl = Ctl.round c b) (h : patchOk C w s = true) :
    (fork_server_patch C.L (w.patch_sys s.tick) c b s.mem).err = none := by
  unfold patchOk at h
  rw [hctl] at h
  simp only [Option.isNone_iff_eq_none] at h
  exact h

theorem rounds_run (C : Config) (w : World) (r : Int)
    (hr : r < C.L.CRS_MAP_MAX_CMD_N) :
    ∀ (d : Nat) (s : FS) (c : Int) (b : Bool), s.ctl = Ctl.round c b →
      (d = 0 → c = r) → (0 < d → c = C.L.CRS_MAP_MAX_CMD_N) →
      (∀ t, t + 1 < d → w.crs_read (s.tick + t) = some C.L.CRS_MAP_MAX_CMD_N) →
      (0 < d → w.crs_read (s.tick + (d - 1)) = some r) →
      (∀ j, j ≤ d → patchOk C w (run C w j s) = true) →
      ∃ evs, (run C w (d + 1) s).trace = s.trace ++ evs ∧
        (run C w (d + 1) s).ctl.inRound = false ∧
        (evs.filter Event.isPatch).length = d + 1 ∧
        evs.filter Event.isCount =
          List.replicate d (Event.crs_write_count C.L.CRS_MAP_MAX_CMD_N) ∧
        (evs.filterMap Event.inspectIdx).length = d * C.L.CRS_MAP_MAX_CMD_N.toNat + r.toNat ∧
        (∀ x ∈ evs, x.isAfl = false) := by
  intro d
  induction d with
  | zero =>
    intro s c b hctl hc0 _ _ _ hok
    have hc : c = r := hc0 rfl
    subst hc
    have he := patchOk_round C w s c b hctl (hok 0 (le_refl _))
    have hrun : run C w (0 + 1) s = stepRound C w s c b := by
      show run C w 0 (step C w s) = _
      rw [step_round C w s c b hctl]; rfl
    rw [hrun]
    obtain ⟨p1, p2, p3, p4⟩ := patch_counts C.L (w.patch_sys s.tick) c b s.mem he
    have key : ∀ (tl : List Event) (ctl : Ctl) (cl : Bool) (m : Mem),
        (∀ x ∈ tl, x.isSync = true) → ctl.inRound = false →
        stepRound C w s c b = s.next
          (Event.patch c :: (fork_server_patch C.L (w.patch_sys s.tick) c b s.mem).log ++ tl)
          ctl cl m →
        ∃ evs, (stepRound C w s c b).trace = s.trace ++ evs ∧
          (stepRound C w s c b).ctl.inRound = false ∧
          (evs.filter Event.isPatch).length = 0 + 1 ∧
          evs.filter Event.isCount =
            List.replicate 0 (Event.crs_write_count C.L.CRS_MAP_MAX_CMD_N) ∧
          (evs.filterMap Event.inspectIdx).length =
            0 * C.L.CRS_MAP_MAX_CMD_N.toNat + c.toNat ∧
          (∀ x ∈ evs, x.isAfl = false) := by
      intro tl ctl cl m hs hctl2 h
      rw [h]
      refine ⟨_, rfl, hctl2, ?_, ?_, ?_, ?_⟩
      · rw [List.filter_append, p1, filter_false _ _ (fun x hx => (isSync_kinds x (hs x hx)).2.2.1)]
        rfl
      · rw [List.filter_append, p2,
          filter_false _ _ (fun x hx => (isSync_kinds x (hs x hx)).2.2.2.1)]
        rfl
      · rw [List.filterMap_append, p3,
          filterMap_none _ _ (fun x hx => (isSync_kinds x (hs x hx)).2.2.2.2)]
        simp
      · intro x hx
        rcases List.mem_append.mp hx with hx | hx
        · exact p4 x hx
        · exact (isSync_kinds x (hs x hx)).1
    have hs : ∀ x ∈ syncEvents (fork_server_patch C.L (w.patch_sys s.tick) c b s.mem) ++
        [Event.clear_map], x.isSync = true := by
      intro x hx
      rcases List.mem_append.mp hx with hx | hx
      · exact syncEvents_isSync _ x hx
      · simp at hx; subst hx; rfl
    rcases stepRound_last C w s c b he hr with ⟨evs, h, hsy⟩ | ⟨_, h⟩ | ⟨m, _, _, _, h⟩
    · exact key _ (Ctl.fatal Err.msync_err) _ _ hsy rfl h
    · exact key _ Ctl.hang _ _ hs rfl h
    · exact key _ Ctl.head _ _ hs rfl h
  | succ d ih =>
    intro s c b hctl _ hcM hmax hlast hok
    have hc : c = C.L.CRS_MAP_MAX_CMD_N := hcM (Nat.succ_pos d)
    have he := patchOk_round C w s c b hctl (hok 0 (Nat.zero_le _))
    have hstep : step C w s = stepRound C w s c b := step_round C w s c b hctl
    obtain ⟨p1, p2, p3, p4⟩ := patch_counts C.L (w.patch_sys s.tick) c b s.mem he
    have hn : ¬ c < C.L.CRS_MAP_MAX_CMD_N := by omega
    have hmore := stepRound_more C w s c b he hn
    rw [run_succ, hstep, hmore]
    have hreply : (w.crs_read s.tick).getD c = if d = 0 then r else C.L.CRS_MAP_MAX_CMD_N := by
      by_cases hd : d = 0
      · subst hd
        have := hlast (by omega)
        simp only [Nat.zero_add, Nat.sub_self, Nat.add_zero] at this
        rw [this]; simp
      · have := hmax 0 (by omega)
        rw [Nat.add_zero] at this
        rw [this, if_neg hd]; simp
    obtain ⟨evs, e1, e2, e4, e5, e6, e7⟩ := ih
      (s.next (Event.patch c :: (fork_server_patch C.L (w.patch_sys s.tick) c b s.mem).log ++
          [Event.crs_write_count c, Event.crs_read (w.crs_read s.tick)])
        (Ctl.round ((w.crs_read s.tick).getD c)
          (fork_server_patch C.L (w.patch_sys s.tick) c b s.mem).shadow_need_sync)
        s.crs_loop
        (w.crs_mem s.tick (fork_server_patch C.L (w.patch_sys s.tick) c b s.mem).mem))
      ((w.crs_read s.tick).getD c)
      (fork_server_patch C.L (w.patch_sys s.tick) c b s.mem).shadow_need_sync rfl
      (by intro hd; rw [hreply, if_pos hd])
      (by intro hd; rw [hreply, if_neg (by omega)])
      (by
        intro t ht
        have := hmax (t + 1) (by omega)
        simp only [FS.next]
        rw [show s.tick + 1 + t = s.tick + (t + 1) by omega]
        exact this)
      (by
        intro hd
        have := hlast (by omega)
        simp only [FS.next]
        rw [show s.tick + 1 + (d - 1) = s.tick + (d + 1 - 1) by omega]
        exact this)
      (by
        intro j hj
        have := hok (j + 1) (by omega)
        rw [run_succ, hstep, hmore] at this
        exact this)
    refine ⟨(Event.patch c :: (fork_server_patch C.L (w.patch_sys s.tick) c b s.mem).log ++
        [Event.crs_write_count c, Event.crs_read (w.crs_read s.tick)]) ++ evs,
      ?_, e2, ?_, ?_, ?_, ?_⟩
    · rw [e1]
      simp only [FS.next]
      rw [List.append_assoc]
    · rw [List.filter_append, List.filter_append, p1, List.length_append, e4]
      simp [Event.isPatch, List.filter]
      omega
    · rw [List.filter_append, List.filter_append, p2, e5, hc]
      simp [Event.isCount, List.filter, List.replicate_succ]
    · rw [List.filterMap_append, List.filterMap_append, p3, List.length_append, e6, hc]
      simp [Event.inspectIdx, List.filterMap]
      ring
    · intro x hx
      rcases List.mem_append.mp hx with hx | hx
      · rcases List.mem_append.mp hx with hx | hx
        · exact p4 x hx
        · simp at hx; rcases hx with rfl | rfl <;> rfl
      · exact e7 x hx

/-- C7 (amended): take a turn whose child ends with a suspect status, `k >= 0`,
`0 <= r < CRS_MAP_MAX_CMD_N`, a daemon that replies `CRS_MAP_MAX_CMD_N` to the
report and to the next reads, `k` times in all, and then `r`, and suppose that
no call of `fork_server_patch` made on the way ends in the fatal path.  Then
after the report the fork server calls `fork_server_patch` exactly `k + 1`
times, writes exactly `k` follow-up counts to the daemon, each being
`CRS_MAP_MAX_CMD_N`, inspects `k * CRS_MAP_MAX_CMD_N + r` command records in
all, sends nothing to the fuzzer, and is out of the patch round after these
`k + 1` calls. -/
theorem C7_batched_round (C : Config) (w : World) (s : FS) (k : Nat) (r : Int)
    (hctl : s.ctl = Ctl.head)
    (hread : (s.afl_attached && !s.crs_loop) = true → w.afl_read s.tick = 4)
    (hclone : 0 < w.clone s.tick) (hwait : 0 ≤ (w.wait4 s.tick).1)
    (hst : IS_SUSPECT_STATUS (w.wait4 s.tick).2 = true)
    (hr0 : 0 ≤ r) (hr : r < C.L.CRS_MAP_MAX_CMD_N)
    (hmax : ∀ t, t < k → w.crs_read (s.tick + t) = some C.L.CRS_MAP_MAX_CMD_N)
    (hlast : w.crs_read (s.tick + k) = some r)
    (hok : ∀ j, j ≤ k + 1 → patchOk C w (run C w j s) = true) :
    ∃ evs, (run C w (k + 2) s).trace = (step C w s).trace ++ evs ∧
      (evs.filter Event.isPatch).length = k + 1 ∧
      evs.filter Event.isCount = List.replicate k (Event.crs_write_count C.L.CRS_MAP_MAX_CMD_N) ∧
      (evs.filterMap Event.inspectIdx).length = k * C.L.CRS_MAP_MAX_CMD_N.toNat + r.toNat ∧
      (∀ x ∈ evs, x.isAfl = false) ∧
      (run C w (k + 2) s).ctl.inRound = false := by
  have hfirst : w.crs_read s.tick = some (if k = 0 then r else C.L.CRS_MAP_MAX_CMD_N) := by
    by_cases hk : k = 0
    · subst hk; rw [if_pos rfl]; simpa using hlast
    · rw [if_neg hk]; simpa using hmax 0 (by omega)
  have hge : 0 ≤ (w.crs_read s.tick).getD (-1) := by
    rw [hfirst]
    by_cases hk : k = 0
    · rw [if_pos hk]; simpa using hr0
    · rw [if_neg hk]; simp; omega
  have hstep := stepHead_patch w s hread hclone hwait hst hge
  rw [← step_head C w s hctl] at hstep
  obtain ⟨evs, e1, e2, e4, e5, e6, e7⟩ := rounds_run C w r hr k (step C w s)
    ((w.crs_read s.tick).getD (-1)) true (by rw [hstep]; rfl)
    (by intro hk; rw [hfirst, if_pos hk]; rfl)
    (by intro hk; rw [hfirst, if_neg (by omega)]; rfl)
    (by
      intro t ht
      rw [hstep]
      simp only [FS.next]
      rw [show s.tick + 1 + t = s.tick + (t + 1) by omega]
      exact hmax (t + 1) (by omega))
    (by
      intro hk
      rw [hstep]
      simp only [FS.next]
      rw [show s.tick + 1 + (k - 1) = s.tick + k by omega]
      exact hlast)
    (by
      intro j hj
      have := hok (j + 1) (by omega)
      rw [run_succ] at this
      exact this)
  refine ⟨evs, ?_, e4, e5, e6, e7, ?_⟩
  · rw [show k + 2 = (k + 1) + 1 by omega, run_succ]; exact e1
  · rw [show k + 2 = (k + 1) + 1 by omega, run_succ]; exact e2

theorem run_step (C : Config) (w : World) : ∀ (k : Nat) (s : FS),
    run C w (k + 1) s = step C w (run C w k s) := by
  intro k
  induction k with
  | zero => intro s; rfl
  | succ k ih => intro s; rw [run_succ, ih (step C w s)]; rfl

theorem turnEvents_replay (w : World) (s : FS) (h : (s.afl_attached && !s.crs_loop) = false) :
    turnEvents w s = [Event.clone (w.clone s.tick),
      Event.wait4 (w.clone s.tick) (w.wait4 s.tick).1 (w.wait4 s.tick).2] := by
  unfold turnEvents
  simp [h]

/-- A turn that starts with `crs_loop` true, or without fuzzer, starts with
the fork: no trigger is read and no pid is written. -/
theorem stepHead_replay (w : World) (s : FS) (h : (s.afl_attached && !s.crs_loop) = false) :
    ∃ evs, (stepHead w s).trace = s.trace ++ Event.clone (w.clone s.tick) :: evs ∧
      (∀ e ∈ evs, (∀ x, e ≠ Event.afl_read x) ∧ (∀ p, e ≠ Event.afl_write_pid p)) ∧
      (stepHead w s).afl_attached = s.afl_attached ∧
      ((evs.filter Event.isAfl = [] ∧
          ((stepHead w s).ctl = Ctl.head → (stepHead w s).afl_attached = false)) ∨
        (∃ v, evs.filter Event.isAfl = [Event.afl_write_status v] ∧
          IS_SUSPECT_STATUS v = false ∧ (v = 139 ∨ ∃ pid ret, Event.wait4 pid ret v ∈ evs))) := by
  have h1 : ¬ (s.afl_attached && !s.crs_loop && w.afl_read s.tick != 4) = true := by
    rw [h]; simp
  have hread : (s.afl_attached && !s.crs_loop) = true → w.afl_read s.tick = 4 := by
    intro hw; rw [h] at hw; exact Bool.noConfusion hw
  have hrep : ∀ (pre : List Event) (mem : Mem) (st : Nat),
      (∀ e ∈ pre, e.isAfl = false) → IS_SUSPECT_STATUS st = false →
      (st = 139 ∨ ∃ pid ret, Event.wait4 pid ret st ∈ pre) →
      ∃ evs, (report s (Event.clone (w.clone s.tick) :: pre) mem st).trace =
          s.trace ++ Event.clone (w.clone s.tick) :: evs ∧
        (∀ e ∈ evs, (∀ x, e ≠ Event.afl_read x) ∧ (∀ p, e ≠ Event.afl_write_pid p)) ∧
        (report s (Event.clone (w.clone s.tick) :: pre) mem st).afl_attached = s.afl_attached ∧
        ((evs.filter Event.isAfl = [] ∧
            ((report s (Event.clone (w.clone s.tick) :: pre) mem st).ctl = Ctl.head →
              (report s (Event.clone (w.clone s.tick) :: pre) mem st).afl_attached = false)) ∨
          (∃ v, evs.filter Event.isAfl = [Event.afl_write_status v] ∧
            IS_SUSPECT_STATUS v = false ∧
            (v = 139 ∨ ∃ pid ret, Event.wait4 pid ret v ∈ evs))) := by
    intro pre mem st hpre hst hsrc
    obtain ⟨tail, ht, _, hafl, _, hatt, _, hyes⟩ :=
      report_eq s (Event.clone (w.clone s.tick) :: pre) mem st
    refine ⟨pre ++ tail, by rw [ht]; simp, ?_, hatt, ?_⟩
    · intro e he
      rcases List.mem_append.mp he with he | he
      · have := hpre e he
        constructor
        · intro x hx; rw [hx] at this; simp [Event.isAfl] at this
        · intro p hp; rw [hp] at this; simp [Event.isAfl] at this
      · constructor
        · intro x hx
          have := (hafl e he (by rw [hx]; rfl)).2
          rw [hx] at this; simp at this
        · intro p hp
          have := (hafl e he (by rw [hp]; rfl)).2
          rw [hp] at this; simp at this
    · by_cases ha : s.afl_attached = true
      · right
        refine ⟨st, ?_, hst, ?_⟩
        · rw [List.filter_append, filter_false _ _ hpre, (hyes ha).1]
          rfl
        · rcases hsrc with h139 | ⟨pid, ret, hw⟩
          · exact Or.inl h139
          · exact Or.inr ⟨pid, ret, List.mem_append_left _ hw⟩
      · left
        refine ⟨?_, fun _ => by rw [hatt]; simpa using ha⟩
        rw [List.filter_append, filter_false _ _ hpre]
        rw [List.nil_append, List.filter_eq_nil_iff]
        intro e he hE
        exact ha (hafl e he hE).1
  by_cases h2 : w.clone s.tick < 0
  · refine ⟨[Event.error Err.fork_err], ?_, by simp, ?_, Or.inl ⟨by simp [Event.isAfl], ?_⟩⟩
    all_goals unfold stepHead FS.utils_error; simp only []; rw [if_neg h1, if_pos h2]
    · simp [FS.next, h]
    · rfl
    · intro hc; simp [FS.next] at hc
  · by_cases h3 : w.clone s.tick = 0
    · refine ⟨[Event.child_close], ?_, by simp, ?_, Or.inl ⟨by simp [Event.isAfl], ?_⟩⟩
      all_goals unfold stepHead FS.utils_error; simp only []; rw [if_neg h1, if_neg h2, if_pos h3]
      · simp [FS.next, h]
      · rfl
      · intro hc; simp [FS.next] at hc
    · by_cases h4 : (w.wait4 s.tick).1 < 0
      · refine ⟨[Event.wait4 (w.clone s.tick) (w.wait4 s.tick).1 (w.wait4 s.tick).2,
          Event.error Err.wait4_err], ?_, by simp, ?_, Or.inl ⟨by simp [Event.isAfl], ?_⟩⟩
        all_goals unfold stepHead FS.utils_error; simp only []; rw [if_neg h1, if_neg h2, if_neg h3, if_pos h4]
        · simp [FS.next, h]
        · rfl
        · intro hc; simp [FS.next] at hc
      · by_cases h5 : IS_SUSPECT_STATUS (w.wait4 s.tick).2 = true
        · by_cases h6 : 0 ≤ (w.crs_read s.tick).getD (-1)
          · rw [stepHead_patch w s hread (by omega) (by omega) h5 h6, turnEvents_replay w s h]
            refine ⟨[Event.wait4 (w.clone s.tick) (w.wait4 s.tick).1 (w.wait4 s.tick).2,
              Event.crs_write_status (w.wait4 s.tick).2, Event.crs_read (w.crs_read s.tick)],
              by simp [FS.next], ?_, rfl, Or.inl ⟨by simp [Event.isAfl], ?_⟩⟩
            · intro e he
              simp at he
              rcases he with rfl | rfl | rfl <;> simp
            · intro hc; simp [FS.next] at hc
          · rw [stepHead_real w s hread (by omega) (by omega) h5 (by omega),
              turnEvents_replay w s h]
            exact hrep _ _ 139 (by
              intro e he
              simp at he
              rcases he with rfl | rfl | rfl <;> rfl) not_suspect_139 (Or.inl rfl)
        · have h5f : IS_SUSPECT_STATUS (w.wait4 s.tick).2 = false := by simpa using h5
          rw [stepHead_normal w s hread (by omega) (by omega) h5f, turnEvents_replay w s h]
          exact hrep _ _ _ (by
            intro e he
            simp at he
            subst he; rfl) h5f (Or.inr ⟨_, _, List.mem_singleton.mpr rfl⟩)

theorem stepHead_afl (w : World) (s : FS) : (stepHead w s).afl_attached = s.afl_attached := by
  rcases stepHead_cases w s with ⟨evs, e, h, _⟩ | ⟨evs, m, h, _⟩ | h | ⟨_, _, h⟩ | ⟨_, _, h⟩ | ⟨_, h⟩
  · rw [h]; rfl
  · rw [h]; rfl
  · rw [h]; rfl
  · rw [h]; rfl
  · rw [h]; exact (report_eq s _ _ _).choose_spec.2.2.2.2.1
  · rw [h]; exact (report_eq s _ _ _).choose_spec.2.2.2.2.1

theorem step_afl (C : Config) (w : World) (s : FS) : (step C w s).afl_attached = s.afl_attached := by
  unfold step
  cases hc : s.ctl with
  | head => exact stepHead_afl w s
  | round n b => exact (stepRound_trace C w s n b).choose_spec.2.2.1
  | child => rfl
  | fatal e => rfl
  | exited c => rfl
  | hang => rfl

theorem run_afl (C : Config) (w : World) : ∀ (k : Nat) (s : FS),
    (run C w k s).afl_attached = s.afl_attached := by
  intro k
  induction k with
  | zero => intro s; rfl
  | succ k ih => intro s; rw [run_succ, ih, step_afl]

theorem step_keeps (C : Config) (w : World) (st : FS) (evs : List Event)
    (h : Quiet st evs ∨ Told evs) :
    ∃ evs2, (step C w st).trace = st.trace ++ evs2 ∧
      (Quiet (step C w st) (evs ++ evs2) ∨ Told (evs ++ evs2)) := by
  rcases h with ⟨hq, hc⟩ | ⟨v, rest, hv, hs, hsrc⟩
  · cases hctl : st.ctl with
    | head =>
      have hw : (st.afl_attached && !st.crs_loop) = false := by
        cases ha : st.afl_attached with
        | false => rfl
        | true => rw [hc hctl ha]; rfl
      obtain ⟨evs2, ht, _, _, hcase⟩ := stepHead_replay w st hw
      rw [step_head C w st hctl]
      refine ⟨_, ht, ?_⟩
      rcases hcase with ⟨hf, hh⟩ | ⟨v, hf, hs, hsrc⟩
      · left
        refine ⟨?_, ?_⟩
        · rw [List.filter_append, hq, List.filter_cons]
          simpa [Event.isAfl] using hf
        · intro h1 h2
          rw [hh h1] at h2
          exact Bool.noConfusion h2
      · right
        refine ⟨v, [], ?_, hs, ?_⟩
        · rw [List.filter_append, hq, List.filter_cons]
          simpa [Event.isAfl] using hf
        · rcases hsrc with h139 | ⟨pid, ret, hm⟩
          · exact Or.inl h139
          · exact Or.inr ⟨pid, ret, List.mem_append_right _ (List.mem_cons_of_mem _ hm)⟩
    | round n b =>
      obtain ⟨evs2, ht, hx, _, hcase⟩ := stepRound_trace C w st n b
      rw [step_round C w st n b hctl]
      refine ⟨_, ht, Or.inl ⟨?_, ?_⟩⟩
      · rw [List.filter_append, hq, filter_false _ _ hx]; rfl
      · intro h1 _
        rcases hcase with ⟨e, he⟩ | he | ⟨n2, b2, he⟩ | ⟨_, he⟩
        · rw [he] at h1; exact Ctl.noConfusion h1
        · rw [he] at h1; exact Ctl.noConfusion h1
        · rw [he] at h1; exact Ctl.noConfusion h1
        · exact he
    | child =>
      have : step C w st = st := by unfold step; rw [hctl]
      rw [this]
      exact ⟨[], by simp, Or.inl ⟨by simpa using hq, hc⟩⟩
    | fatal e =>
      have : step C w st = st := by unfold step; rw [hctl]
      rw [this]
      exact ⟨[], by simp, Or.inl ⟨by simpa using hq, hc⟩⟩
    | exited c =>
      have : step C w st = st := by unfold step; rw [hctl]
      rw [this]
      exact ⟨[], by simp, Or.inl ⟨by simpa using hq, hc⟩⟩
    | hang =>
      have : step C w st = st := by unfold step; rw [hctl]
      rw [this]
      exact ⟨[], by simp, Or.inl ⟨by simpa using hq, hc⟩⟩
  · obtain ⟨evs2, ht, _⟩ := step_statusOk C w st
    refine ⟨evs2, ht, Or.inr ⟨v, rest ++ evs2.filter Event.isAfl, ?_, hs, ?_⟩⟩
    · rw [List.filter_append, hv]
      rfl
    · rcases hsrc with h139 | ⟨pid, ret, hm⟩
      · exact Or.inl h139
      · exact Or.inr ⟨pid, ret, List.mem_append_left _ hm⟩

theorem run_keeps (C : Config) (w : World) (s : FS) (h : Quiet s []) :
    ∀ k : Nat, ∃ evs, (run C w k s).trace = s.trace ++ evs ∧
      (Quiet (run C w k s) evs ∨ Told evs) := by
  intro k
  induction k with
  | zero => exact ⟨[], by simp [run], Or.inl h⟩
  | succ k ih =>
    obtain ⟨evs, ht, hcase⟩ := ih
    obtain ⟨evs2, ht2, hcase2⟩ := step_keeps C w (run C w k s) evs hcase
    rw [run_step]
    exact ⟨evs ++ evs2, by rw [ht2, ht, List.append_assoc], hcase2⟩

theorem stepRound_done (C : Config) (w : World) (s : FS) (n : Int) (b : Bool) (m : Mem)
    (h : (fork_server_patch C.L (w.patch_sys s.tick) n b s.mem).err = none)
    (hn : n < C.L.CRS_MAP_MAX_CMD_N)
    (h0 : w.msync s.tick 0 = 0)
    (h1 : (fork_server_patch C.L (w.patch_sys s.tick) n b s.mem).shadow_need_sync = true →
      w.msync s.tick 1 = 0)
    (hc : clearMap C (fork_server_patch C.L (w.patch_sys s.tick) n b s.mem).mem = some m) :
    stepRound C w s n b = s.next
      (Event.patch n :: (fork_server_patch C.L (w.patch_sys s.tick) n b s.mem).log ++
        (syncEvents (fork_server_patch C.L (w.patch_sys s.tick) n b s.mem) ++ [Event.clear_map]))
      Ctl.head true m := by
  rcases stepRound_last C w s n b h hn with ⟨evs, hf, _⟩ | ⟨hnone, _⟩ | ⟨m2, hsome, _, _, hd⟩
  · exfalso
    have hctl : (stepRound C w s n b).ctl = Ctl.fatal Err.msync_err := by rw [hf]; rfl
    unfold stepRound FS.utils_error at hctl
    simp only [] at hctl
    rw [h] at hctl
    simp only [] at hctl
    rw [if_pos hn, if_neg (by rw [h0]; simp)] at hctl
    have hno : ¬ ((fork_server_patch C.L (w.patch_sys s.tick) n b s.mem).shadow_need_sync
        && w.msync s.tick 1 != 0) = true := by
      intro hh
      rw [Bool.and_eq_true] at hh
      have := h1 hh.1
      rw [this] at hh
      simp at hh
    rw [if_neg hno, hc] at hctl
    simp [FS.next] at hctl
  · rw [hc] at hnone; exact Option.noConfusion hnone
  · rw [hc] at hsome
    injection hsome with hm
    rw [hd, hm]

theorem patch_zero (L : CRSLayout) (sys : PatchSys) (b : Bool) (m : Mem)
    (h : 0 ≤ L.CRS_MAP_MAX_CMD_N) :
    (fork_server_patch L sys 0 b m).mem = m ∧ (fork_server_patch L sys 0 b m).log = [] ∧
    (fork_server_patch L sys 0 b m).err = none ∧
    (fork_server_patch L sys 0 b m).shadow_need_sync = b := by
  have hn : ¬ (0 : Int) > L.CRS_MAP_MAX_CMD_N := by omega
  unfold fork_server_patch
  rw [if_neg hn]
  exact ⟨rfl, rfl, rfl, rfl⟩

/-- Whether the clear loop ends does not depend on the memory it clears. -/
theorem clearLoop_isSome (w rax : Nat) : ∀ (fuel rdi : Nat) (m m2 : Mem),
    (clearLoop w rax fuel rdi m).isSome = (clearLoop w rax fuel rdi m2).isSome := by
  intro fuel
  induction fuel with
  | zero => intro rdi m m2; rfl
  | succ fuel ih =>
    intro rdi m m2
    unfold clearLoop
    simp only
    by_cases h : (rdi + w) % 2 ^ 64 = 0
    · rw [if_pos h, if_pos h]; rfl
    · rw [if_neg h, if_neg h]
      exact ih _ _ _

theorem clearMap_isSome (C : Config) (m m2 : Mem) :
    (clearMap C m).isSome = (clearMap C m2).isSome := by
  unfold clearMap
  exact clearLoop_isSome _ _ _ _ _ _

/-- A patch round entered with the count `c`: when the daemon replies
`CRS_MAP_MAX_CMD_N` to the reads that follow the first `d - 1` calls and `r` to
the read that follows call `d`, and none of the first `d` calls of
`fork_server_patch` is fatal, the fork server stands before call `d + 1` with
the count `r`, and nothing has gone to the fuzzer. -/
theorem rounds_reach (C : Config) (w : World) (r : Int) :
    ∀ (d : Nat) (s : FS) (c : Int) (b : Bool), s.ctl = Ctl.round c b →
      (d = 0 → c = r) → (0 < d → c = C.L.CRS_MAP_MAX_CMD_N) →
      (∀ t, t + 1 < d → w.crs_read (s.tick + t) = some C.L.CRS_MAP_MAX_CMD_N) →
      (0 < d → w.crs_read (s.tick + (d - 1)) = some r) →
      (∀ j, j < d → patchOk C w (run C w j s) = true) →
      ∃ b2 evs, (run C w d s).ctl = Ctl.round r b2 ∧ (run C w d s).tick = s.tick + d ∧
        (run C w d s).trace = s.trace ++ evs ∧ (∀ x ∈ evs, x.isAfl = false) := by
  intro d
  induction d with
  | zero =>
    intro s c b hctl hc0 _ _ _ _
    have hc : c = r := hc0 rfl
    subst hc
    exact ⟨b, [], hctl, rfl, by simp [run], by simp⟩
  | succ d ih =>
    intro s c b hctl _ hcM hmax hlast hok
    have hc : c = C.L.CRS_MAP_MAX_CMD_N := hcM (Nat.succ_pos d)
    have he := patchOk_round C w s c b hctl (hok 0 (Nat.succ_pos d))
    have hstep : step C w s = stepRound C w s c b := step_round C w s c b hctl
    obtain ⟨_, _, _, p4⟩ := patch_counts C.L (w.patch_sys s.tick) c b s.mem he
    have hn : ¬ c < C.L.CRS_MAP_MAX_CMD_N := by omega
    have hmore := stepRound_more C w s c b he hn
    rw [run_succ, hstep, hmore]
    have hreply : (w.crs_read s.tick).getD c = if d = 0 then r else C.L.CRS_MAP_MAX_CMD_N := by
      by_cases hd : d = 0
      · subst hd
        have := hlast (by omega)
        simp only [Nat.zero_add, Nat.sub_self, Nat.add_zero] at this
        rw [this]; simp
      · have := hmax 0 (by omega)
        rw [Nat.add_zero] at this
        rw [this, if_neg hd]; simp
    obtain ⟨b2, evs, e1, e2, e3, e4⟩ := ih
      (s.next (Event.patch c :: (fork_server_patch C.L (w.patch_sys s.tick) c b s.mem).log ++
          [Event.crs_write_count c, Event.crs_read (w.crs_read s.tick)])
        (Ctl.round ((w.crs_read s.tick).getD c)
          (fork_server_patch C.L (w.patch_sys s.tick) c b s.mem).shadow_need_sync)
        s.crs_loop
        (w.crs_mem s.tick (fork_server_patch C.L (w.patch_sys s.tick) c b s.mem).mem))
      ((w.crs_read s.tick).getD c)
      (fork_server_patch C.L (w.patch_sys s.tick) c b s.mem).shadow_need_sync rfl
      (by intro hd; rw [hreply, if_pos hd])
      (by intro hd; rw [hreply, if_neg (by omega)])
      (by
        intro t ht
        have := hmax (t + 1) (by omega)
        simp only [FS.next]
        rw [show s.tick + 1 + t = s.tick + (t + 1) by omega]
        exact this)
      (by
        intro hd
        have := hlast (by omega)
        simp only [FS.next]
        rw [show s.tick + 1 + (d - 1) = s.tick + (d + 1 - 1) by omega]
        exact this)
      (by
        intro j hj
        have := hok (j + 1) (by omega)
        rw [run_succ, hstep, hmore] at this
        exact this)
    refine ⟨b2, (Event.patch c :: (fork_server_patch C.L (w.patch_sys s.tick) c b s.mem).log ++
        [Event.crs_write_count c, Event.crs_read (w.crs_read s.tick)]) ++ evs, e1, ?_, ?_, ?_⟩
    · rw [e2]; simp only [FS.next]; omega
    · rw [e3]
      simp only [FS.next]
      rw [List.append_assoc]
    · intro x hx
      rcases List.mem_append.mp hx with hx | hx
      · rcases List.mem_append.mp hx with hx | hx
        · exact p4 x hx
        · simp at hx; rcases hx with rfl | rfl <;> rfl
      · exact e4 x hx

/-- A patch round of `d + 1` calls runs to its end: the daemon replies
`CRS_MAP_MAX_CMD_N` `d` times and then `r < CRS_MAP_MAX_CMD_N`, no call of
`fork_server_patch` is fatal, the `msync` calls succeed and the clear loop
ends.  Then the fork server is back at the top of the loop with `crs_loop`
true and the coverage map cleared, nothing has gone to the fuzzer, and the next
turn starts with the fork, without trigger read and pid write. -/
theorem round_completes (C : Config) (w : World) (r : Int) (hr : r < C.L.CRS_MAP_MAX_CMD_N)
    (d : Nat) (s : FS) (c : Int) (b : Bool) (hctl : s.ctl = Ctl.round c b)
    (hc0 : d = 0 → c = r) (hcM : 0 < d → c = C.L.CRS_MAP_MAX_CMD_N)
    (hmax : ∀ t, t + 1 < d → w.crs_read (s.tick + t) = some C.L.CRS_MAP_MAX_CMD_N)
    (hlast : 0 < d → w.crs_read (s.tick + (d - 1)) = some r)
    (hok : ∀ j, j ≤ d → patchOk C w (run C w j s) = true)
    (h0 : w.msync (s.tick + d) 0 = 0)
    (h1 : ∀ b2, (run C w d s).ctl = Ctl.round r b2 →
      (fork_server_patch C.L (w.patch_sys (s.tick + d)) r b2
        (run C w d s).mem).shadow_need_sync = true → w.msync (s.tick + d) 1 = 0)
    (hclear : ∃ m, (clearMap C m).isSome = true) :
    (run C w (d + 1) s).ctl = Ctl.head ∧ (run C w (d + 1) s).crs_loop = true ∧
    (∃ evs, (run C w (d + 1) s).trace = s.trace ++ evs ∧ (∀ x ∈ evs, x.isAfl = false)) ∧
    (∃ b2, (run C w d s).ctl = Ctl.round r b2 ∧
      clearMap C (fork_server_patch C.L (w.patch_sys (s.tick + d)) r b2 (run C w d s).mem).mem =
        some (run C w (d + 1) s).mem) ∧
    (∃ evs, (run C w (d + 2) s).trace =
        (run C w (d + 1) s).trace ++ Event.clone (w.clone (s.tick + d + 1)) :: evs ∧
      ∀ e ∈ evs, (∀ x, e ≠ Event.afl_read x) ∧ (∀ p, e ≠ Event.afl_write_pid p)) := by
  obtain ⟨b2, evs, e1, e2, e3, e4⟩ := rounds_reach C w r d s c b hctl hc0 hcM hmax hlast
    (fun j hj => hok j (by omega))
  have he := patchOk_round C w (run C w d s) r b2 e1 (hok d (le_refl _))
  obtain ⟨m0, hm0⟩ := hclear
  obtain ⟨m, hm⟩ := Option.isSome_iff_exists.mp
    (show (clearMap C (fork_server_patch C.L (w.patch_sys (run C w d s).tick) r b2
      (run C w d s).mem).mem).isSome = true by rw [clearMap_isSome C _ m0]; exact hm0)
  have hdone := stepRound_done C w (run C w d s) r b2 m he hr (by rw [e2]; exact h0)
    (fun hs => by rw [e2] at hs ⊢; exact h1 b2 e1 hs) hm
  have hrun : run C w (d + 1) s = stepRound C w (run C w d s) r b2 := by
    rw [run_step, step_round C w (run C w d s) r b2 e1]
  have hlog := (fork_server_patch_log C.L (w.patch_sys (run C w d s).tick) r b2 (run C w d s).mem).1
  have hhead : (run C w (d + 1) s).ctl = Ctl.head := by rw [hrun, hdone]; rfl
  have hloop : (run C w (d + 1) s).crs_loop = true := by rw [hrun, hdone]; rfl
  have htick : (run C w (d + 1) s).tick = s.tick + d + 1 := by
    rw [hrun, hdone]; simp only [FS.next]; rw [e2]
  refine ⟨hhead, hloop, ?_, ⟨b2, e1, ?_⟩, ?_⟩
  · refine ⟨evs ++ (Event.patch r ::
        (fork_server_patch C.L (w.patch_sys (run C w d s).tick) r b2 (run C w d s).mem).log ++
        (syncEvents (fork_server_patch C.L (w.patch_sys (run C w d s).tick) r b2
          (run C w d s).mem) ++ [Event.clear_map])), ?_, ?_⟩
    · rw [hrun, hdone]
      simp only [FS.next]
      rw [e3, List.append_assoc]
    · intro x hx
      rcases List.mem_append.mp hx with hx | hx
      · exact e4 x hx
      · rcases List.mem_append.mp hx with hx | hx
        · rcases List.mem_cons.mp hx with rfl | hx
          · rfl
          · exact (inPatch_kinds x (hlog x hx)).1
        · rcases List.mem_append.mp hx with hx | hx
          · exact (isSync_kinds x (syncEvents_isSync _ x hx)).1
          · simp at hx; subst hx; rfl
  · rw [hrun, hdone, ← e2]
    exact hm
  · have hw : ((run C w (d + 1) s).afl_attached && !(run C w (d + 1) s).crs_loop) = false := by
      rw [hloop]; simp
    obtain ⟨evs2, ht, hev, _⟩ := stepHead_replay w (run C w (d + 1) s) hw
    refine ⟨evs2, ?_, hev⟩
    rw [show d + 2 = (d + 1) + 1 by rfl, run_step, step_head C w _ hhead, ht, htick]

/-- C5 (amended): take a turn (trigger read, fork and `wait4` succeed) whose
child ends with a suspect status and to which the daemon replies a count
`r >= 0`.  (1) After `wait4` the turn only reports the status to the daemon and
reads the reply: nothing goes to the fuzzer, and the patch round is entered
with count `r`.  (2) However long the run goes on, either nothing has reached
the fuzzer since and, whenever the fork server is back at the top of the loop
with the fuzzer attached, `crs_loop` is true; or the first message that reached
the fuzzer is a status that is not suspect: 139, or the status that a later
`wait4` returned.  (3) A turn entered with `crs_loop` true starts with the fork: it reads
no trigger and writes no pid.  (4) The round does run to its end, with
`crs_loop` true at the top of the loop and the coverage map cleared, when
`r < CRS_MAP_MAX_CMD_N`, the call of `fork_server_patch` returns without error,
the `msync` calls succeed and the clear loop ends.  (5) A count of 0 applies
nothing: `fork_server_patch(0, ..)` inspects no record and leaves memory as it
is.  (6) A round of any number `d + 1` of calls runs to its end: when the
daemon replies `CRS_MAP_MAX_CMD_N` to the report and to the next reads, `d`
times in all, and then a count `r2 < CRS_MAP_MAX_CMD_N`, no call of
`fork_server_patch` ends in the fatal path, the `msync` calls made succeed and
the clear loop ends, then after the `d + 1` calls the fork server is at the top of
the loop with `crs_loop` true, nothing has gone to the fuzzer since the report,
the memory is the one the clear loop leaves, and the next turn starts with the
fork: it reads no trigger and writes no pid. -/
theorem C5_patch_and_replay (C : Config) (w : World) (s : FS) (r : Int)
    (hctl : s.ctl = Ctl.head)
    (hread : (s.afl_attached && !s.crs_loop) = true → w.afl_read s.tick = 4)
    (hclone : 0 < w.clone s.tick) (hwait : 0 ≤ (w.wait4 s.tick).1)
    (hst : IS_SUSPECT_STATUS (w.wait4 s.tick).2 = true)
    (hreply : w.crs_read s.tick = some r) (hr : 0 ≤ r) :
    (step C w s).trace = s.trace ++ (turnEvents w s ++
      [Event.crs_write_status (w.wait4 s.tick).2, Event.crs_read (some r)]) ∧
    (step C w s).ctl = Ctl.round r true ∧
    (∀ k, ∃ evs, (run C w k (step C w s)).trace = (step C w s).trace ++ evs ∧
      ((evs.filter Event.isAfl = [] ∧
          ((run C w k (step C w s)).ctl = Ctl.head → s.afl_attached = true →
            (run C w k (step C w s)).crs_loop = true)) ∨
        ∃ v rest, evs.filter Event.isAfl = Event.afl_write_status v :: rest ∧
          IS_SUSPECT_STATUS v = false ∧
          (v = 139 ∨ ∃ pid ret, Event.wait4 pid ret v ∈ evs))) ∧
    (∀ s2 : FS, s2.ctl = Ctl.head → s2.crs_loop = true →
      ∃ evs, (step C w s2).trace = s2.trace ++ Event.clone (w.clone s2.tick) :: evs ∧
        ∀ e ∈ evs, (∀ x, e ≠ Event.afl_read x) ∧ (∀ p, e ≠ Event.afl_write_pid p)) ∧
    (r < C.L.CRS_MAP_MAX_CMD_N →
      (fork_server_patch C.L (w.patch_sys (s.tick + 1)) r true
        (w.crs_mem s.tick (w.wait_mem s.tick s.mem))).err = none →
      w.msync (s.tick + 1) 0 = 0 →
      ((fork_server_patch C.L (w.patch_sys (s.tick + 1)) r true
        (w.crs_mem s.tick (w.wait_mem s.tick s.mem))).shadow_need_sync = true →
          w.msync (s.tick + 1) 1 = 0) →
      (clearMap C (fork_server_patch C.L (w.patch_sys (s.tick + 1)) r true
        (w.crs_mem s.tick (w.wait_mem s.tick s.mem))).mem).isSome = true →
      (run C w 1 (step C w s)).ctl = Ctl.head ∧
      (run C w 1 (step C w s)).crs_loop = true ∧
      clearMap C (fork_server_patch C.L (w.patch_sys (s.tick + 1)) r true
        (w.crs_mem s.tick (w.wait_mem s.tick s.mem))).mem = some (run C w 1 (step C w s)).mem ∧
      (run C w 1 (step C w s)).trace = (step C w s).trace ++
        (Event.patch r :: (fork_server_patch C.L (w.patch_sys (s.tick + 1)) r true
            (w.crs_mem s.tick (w.wait_mem s.tick s.mem))).log ++
          (syncEvents (fork_server_patch C.L (w.patch_sys (s.tick + 1)) r true
            (w.crs_mem s.tick (w.wait_mem s.tick s.mem))) ++ [Event.clear_map]))) ∧
    (0 ≤ C.L.CRS_MAP_MAX_CMD_N → ∀ (sys : PatchSys) (b : Bool) (m : Mem),
      (fork_server_patch C.L sys 0 b m).mem = m ∧ (fork_server_patch C.L sys 0 b m).log = [] ∧
      (fork_server_patch C.L sys 0 b m).err = none) ∧
    (∀ (d : Nat) (r2 : Int), r2 < C.L.CRS_MAP_MAX_CMD_N →
      (∀ t, t < d → w.crs_read (s.tick + t) = some C.L.CRS_MAP_MAX_CMD_N) →
      w.crs_read (s.tick + d) = some r2 →
      (∀ j, j ≤ d → patchOk C w (run C w j (step C w s)) = true) →
      w.msync (s.tick + 1 + d) 0 = 0 →
      (∀ b2, (run C w d (step C w s)).ctl = Ctl.round r2 b2 →
        (fork_server_patch C.L (w.patch_sys (s.tick + 1 + d)) r2 b2
          (run C w d (step C w s)).mem).shadow_need_sync = true →
        w.msync (s.tick + 1 + d) 1 = 0) →
      (∃ m, (clearMap C m).isSome = true) →
      (run C w (d + 1) (step C w s)).ctl = Ctl.head ∧
      (run C w (d + 1) (step C w s)).crs_loop = true ∧
      (∃ evs, (run C w (d + 1) (step C w s)).trace = (step C w s).trace ++ evs ∧
        (∀ x ∈ evs, x.isAfl = false)) ∧
      (∃ b2, (run C w d (step C w s)).ctl = Ctl.round r2 b2 ∧
        clearMap C (fork_server_patch C.L (w.patch_sys (s.tick + 1 + d)) r2 b2
            (run C w d (step C w s)).mem).mem =
          some (run C w (d + 1) (step C w s)).mem) ∧
      (∃ evs, (run C w (d + 2) (step C w s)).trace =
          (run C w (d + 1) (step C w s)).trace ++
            Event.clone (w.clone (s.tick + 1 + d + 1)) :: evs ∧
        ∀ e ∈ evs, (∀ x, e ≠ Event.afl_read x) ∧ (∀ p, e ≠ Event.afl_write_pid p))) := by
  have hge : 0 ≤ (w.crs_read s.tick).getD (-1) := by rw [hreply]; exact hr
  have hstep : step C w s = s.next
      (turnEvents w s ++ [Event.crs_write_status (w.wait4 s.tick).2, Event.crs_read (some r)])
      (Ctl.round r true) s.crs_loop (w.crs_mem s.tick (w.wait_mem s.tick s.mem)) := by
    rw [step_head C w s hctl, stepHead_patch w s hread hclone hwait hst hge, hreply]
    rfl
  refine ⟨by rw [hstep]; rfl, by rw [hstep]; rfl, ?_, ?_, ?_, ?_, ?_⟩
  · intro k
    have hq : Quiet (step C w s) [] := by
      refine ⟨rfl, ?_⟩
      intro h; rw [hstep] at h; exact Ctl.noConfusion h
    obtain ⟨evs, ht, hcase⟩ := run_keeps C w (step C w s) hq k
    refine ⟨evs, ht, ?_⟩
    rcases hcase with ⟨h1, h2⟩ | h
    · left
      refine ⟨h1, fun hh ha => h2 hh ?_⟩
      rw [run_afl, step_afl]; exact ha
    · right; exact h
  · intro s2 h1 h2
    have hw : (s2.afl_attached && !s2.crs_loop) = false := by rw [h2]; simp
    obtain ⟨evs, ht, he, _⟩ := stepHead_replay w s2 hw
    rw [step_head C w s2 h1]
    exact ⟨evs, ht, he⟩
  · intro hlt herr h0 h1 hclear
    have hs1 : (step C w s).ctl = Ctl.round r true := by rw [hstep]; rfl
    have hmem : (step C w s).mem = w.crs_mem s.tick (w.wait_mem s.tick s.mem) := by rw [hstep]; rfl
    have htick : (step C w s).tick = s.tick + 1 := by rw [hstep]; rfl
    obtain ⟨m, hm⟩ := Option.isSome_iff_exists.mp hclear
    have hrun : run C w 1 (step C w s) = stepRound C w (step C w s) r true := by
      show run C w 0 (step C w (step C w s)) = _
      rw [step_round C w (step C w s) r true hs1]; rfl
    have hdone := stepRound_done C w (step C w s) r true m
      (by rw [htick, hmem]; exact herr) hlt (by rw [htick]; exact h0)
      (by rw [htick, hmem]; exact h1) (by rw [htick, hmem]; exact hm)
    rw [hrun, hdone, htick, hmem]
    exact ⟨rfl, rfl, hm, rfl⟩
  · intro h sys b m
    obtain ⟨a, b2, c, _⟩ := patch_zero C.L sys b m h
    exact ⟨a, b2, c⟩
  · intro d r2 hr2 hmax hlast hok h0 h1 hclear
    have hs1 : (step C w s).ctl = Ctl.round r true := by rw [hstep]; rfl
    have htick : (step C w s).tick = s.tick + 1 := by rw [hstep]; rfl
    have hcomp := round_completes C w r2 hr2 d (step C w s) r true hs1
      (by
        intro hd
        subst hd
        rw [Nat.add_zero, hreply] at hlast
        exact Option.some.inj hlast)
      (by
        intro hd
        have := hmax 0 hd
        rw [Nat.add_zero, hreply] at this
        exact Option.some.inj this)
      (by
        intro t ht
        rw [htick, show s.tick + 1 + t = s.tick + (t + 1) by omega]
        exact hmax (t + 1) ht)
      (by
        intro hd
        rw [htick, show s.tick + 1 + (d - 1) = s.tick + d by omega]
        exact hlast)
      hok (by rw [htick]; exact h0) (by rw [htick]; exact h1) hclear
    rw [htick] at hcomp
    exact hcomp

theorem run_add (C : Config) (w : World) : ∀ (a b : Nat) (s : FS),
    run C w (a + b) s = run C w b (run C w a s) := by
  intro a
  induction a with
  | zero => intro b s; rw [Nat.zero_add]; rfl
  | succ a ih =>
    intro b s
    rw [show a + 1 + b = (a + b) + 1 by omega, run_succ, ih b (step C w s)]
    rfl

theorem run_fatal (C : Config) (w : World) (e : Err) : ∀ (k : Nat) (s : FS),
    s.ctl = Ctl.fatal e → run C w k s = s := by
  intro k
  induction k with
  | zero => intro s _; rfl
  | succ k ih =>
    intro s h
    have hs : step C w s = s := by unfold step; rw [h]
    rw [run_succ, hs]
    exact ih s h

/-! ## Instances -/

set_option maxRecDepth 100000 in
/-- Witness of C1: the child ends with status 10 (killed by SIGUSR1), the daemon
replies -1, and the status written to the fuzzer is 139. -/
theorem C1_no_suspect_status_forwarded_witness :
    Event.afl_write_status 139 ∈
      (run demoConfig (demoWorld (fun _ => 10) (fun _ => some (-1))) 1 (loopInit true zeroMem)).trace ∧
    IS_SUSPECT_STATUS 10 = true ∧ IS_SUSPECT_STATUS 139 = false :=
  ⟨by decide, by decide,
    (C1_no_suspect_status_forwarded demoConfig (demoWorld (fun _ => 10) (fun _ => some (-1)))
      zeroMem 1 139 (by decide)).1⟩

set_option maxRecDepth 100000 in
/-- Witness of C4: first turn, child killed by SIGUSR1, daemon replies -1. -/
theorem C4_confirmed_crash_reported_as_139_witness :
    (step demoConfig (demoWorld (fun _ => 10) (fun _ => some (-1))) (loopInit true zeroMem)).trace =
      [Event.afl_read 4, Event.clone 1000, Event.afl_write_pid 1000, Event.wait4 1000 1000 10,
        Event.crs_write_status 10, Event.crs_read (some (-1)), Event.afl_write_status 139] ∧
    (step demoConfig (demoWorld (fun _ => 10) (fun _ => some (-1))) (loopInit true zeroMem)).crs_loop
      = false :=
  ⟨by decide,
    (C4_confirmed_crash_reported_as_139 demoConfig (demoWorld (fun _ => 10) (fun _ => some (-1)))
      (loopInit true zeroMem) rfl rfl (fun _ => rfl) (by decide) (by decide) (by decide)
      (by decide)).2.2.1⟩

set_option maxRecDepth 100000 in
/-- Witness of C6: first turn, child exits with status 0. -/
theorem C6_plain_turn_witness :
    (step demoConfig (demoWorld (fun _ => 0) (fun _ => none)) (loopInit true zeroMem)).trace =
      [] ++ [Event.afl_read 4, Event.clone 1000, Event.afl_write_pid 1000, Event.wait4 1000 1000 0,
        Event.afl_write_status 0] :=
  (C6_plain_turn demoConfig (demoWorld (fun _ => 0) (fun _ => none)) (loopInit true zeroMem)
    rfl rfl rfl rfl (by decide) (by decide) (by decide)).1

set_option maxRecDepth 100000 in
/-- Counterexample to C5 as stated: `CRS_MAP_MAX_CMD_N` is 4, the child is
killed by SIGUSR1 and the daemon replies the non-negative count 5.  The patch
round is entered, `fork_server_patch(5, ..)` ends in the fatal path
(`patch_cmd_err`), and `crs_loop` is true at no point of the run. -/
theorem C5_count_above_max_is_fatal :
    IS_SUSPECT_STATUS 10 = true ∧
    (step demoConfig (demoWorld (fun _ => 10) (fun _ => some 5)) (loopInit true zeroMem)).ctl =
      Ctl.round 5 true ∧
    (run demoConfig (demoWorld (fun _ => 10) (fun _ => some 5)) 2 (loopInit true zeroMem)).ctl =
      Ctl.fatal Err.patch_cmd_err ∧
    ¬ ∃ k, (run demoConfig (demoWorld (fun _ => 10) (fun _ => some 5)) k
      (loopInit true zeroMem)).crs_loop = true := by
  have h2 : (run demoConfig (demoWorld (fun _ => 10) (fun _ => some 5)) 2
      (loopInit true zeroMem)).ctl = Ctl.fatal Err.patch_cmd_err := by decide
  refine ⟨by decide, by decide, h2, ?_⟩
  rintro ⟨k, hk⟩
  by_cases hk2 : k < 2
  · have : k = 0 ∨ k = 1 := by omega
    rcases this with rfl | rfl
    · revert hk; decide
    · revert hk; decide
  · obtain ⟨j, rfl⟩ : ∃ j, k = 2 + j := ⟨k - 2, by omega⟩
    rw [run_add, run_fatal _ _ _ j _ h2] at hk
    revert hk; decide

set_option maxRecDepth 100000 in
/-- Witness of C5 (amended): `CRS_MAP_MAX_CMD_N` is 4, the child is killed by
SIGUSR1, the daemon replies 4 to the report and 2 to the follow-up count.  After
the two calls of `fork_server_patch` the fork server is at the top of the loop
with `crs_loop` true. -/
theorem C5_patch_and_replay_witness :
    (run demoConfig
      (demoWorld (fun t => if t = 0 then 10 else 0) (fun t => if t = 0 then some 4 else some 2)) 2
      (step demoConfig
        (demoWorld (fun t => if t = 0 then 10 else 0) (fun t => if t = 0 then some 4 else some 2))
        (loopInit true zeroMem))).ctl = Ctl.head ∧
    (run demoConfig
      (demoWorld (fun t => if t = 0 then 10 else 0) (fun t => if t = 0 then some 4 else some 2)) 2
      (step demoConfig
        (demoWorld (fun t => if t = 0 then 10 else 0) (fun t => if t = 0 then some 4 else some 2))
        (loopInit true zeroMem))).crs_loop = true ∧
    ((run demoConfig
      (demoWorld (fun t => if t = 0 then 10 else 0) (fun t => if t = 0 then some 4 else some 2)) 2
      (step demoConfig
        (demoWorld (fun t => if t = 0 then 10 else 0) (fun t => if t = 0 then some 4 else some 2))
        (loopInit true zeroMem))).trace.filter Event.isPatch) = [Event.patch 4, Event.patch 2] :=
  have h := (C5_patch_and_replay demoConfig
    (demoWorld (fun t => if t = 0 then 10 else 0) (fun t => if t = 0 then some 4 else some 2))
    (loopInit true zeroMem) 4
    rfl (fun _ => rfl) (by decide) (by decide) (by decide) rfl (by decide)).2.2.2.2.2.2
    1 2 (by decide) (by decide) rfl (by decide) rfl (fun _ _ _ => rfl) ⟨zeroMem, by decide⟩
  ⟨h.1, h.2.1, by decide⟩

set_option maxRecDepth 100000 in
/-- Counterexample to C7 as stated (`k = 0`, `r = 2`): the daemon replies 2 but
record 0 carries an unknown tag; `fork_server_patch(2, ..)` ends in the fatal
path (`cmd_err`) on the first record, and at no point of the run have two
records been inspected. -/
theorem C7_unknown_tag_stops_round :
    (run demoConfig (demoWorld (fun _ => 10) (fun _ => some 2)) 2 (loopInit true badFirstMem)).ctl =
      Ctl.fatal Err.cmd_err ∧
    ¬ ∃ j, ((run demoConfig (demoWorld (fun _ => 10) (fun _ => some 2)) j
      (loopInit true badFirstMem)).trace.filterMap Event.inspectIdx).length = 0 * 4 + 2 := by
  have h2 : (run demoConfig (demoWorld (fun _ => 10) (fun _ => some 2)) 2
      (loopInit true badFirstMem)).ctl = Ctl.fatal Err.cmd_err := by decide
  refine ⟨h2, ?_⟩
  rintro ⟨k, hk⟩
  by_cases hk2 : k < 2
  · have : k = 0 ∨ k = 1 := by omega
    rcases this with rfl | rfl
    · revert hk; decide
    · revert hk; decide
  · obtain ⟨j, rfl⟩ : ∃ j, k = 2 + j := ⟨k - 2, by omega⟩
    rw [run_add, run_fatal _ _ _ j _ h2] at hk
    revert hk; decide

set_option maxRecDepth 100000 in
/-- Witness of C7 (amended), `k = 3`, `r = 2`, `CRS_MAP_MAX_CMD_N = 4`: four
calls of `fork_server_patch`, three follow-up counts of 4, and
`3 * 4 + 2` records inspected. -/
theorem C7_batched_round_witness :
    ∃ evs, (run demoConfig (demoWorld (fun _ => 10) (fun t => if t < 3 then some 4 else some 2))
        (3 + 2) (loopInit true zeroMem)).trace =
      (step demoConfig (demoWorld (fun _ => 10) (fun t => if t < 3 then some 4 else some 2))
        (loopInit true zeroMem)).trace ++ evs ∧
      (evs.filter Event.isPatch).length = 3 + 1 ∧
      evs.filter Event.isCount = List.replicate 3 (Event.crs_write_count 4) ∧
      (evs.filterMap Event.inspectIdx).length = 3 * 4 + 2 := by
  obtain ⟨evs, h1, h2, h3, h4, _⟩ := C7_batched_round demoConfig
    (demoWorld (fun _ => 10) (fun t => if t < 3 then some 4 else some 2)) (loopInit true zeroMem)
    3 2 rfl (fun _ => rfl) (by decide) (by decide) (by decide) (by decide) (by decide)
    (by decide) (by decide) (by decide)
  exact ⟨evs, h1, h2, h3, h4⟩

/-! ## The clear loop of the coverage map -/

theorem storeZeros_spec (w : Nat) : ∀ (m : Mem) (a x : Nat),
    storeZeros m a w x = if ∃ b, b < w ∧ x = (a + b) % 2 ^ 64 then 0 else m x := by
  induction w with
  | zero =>
    intro m a x
    simp [storeZeros]
  | succ w ih =>
    intro m a x
    unfold storeZeros
    rw [ih]
    by_cases h : ∃ b, b < w ∧ x = (a + 1 + b) % 2 ^ 64
    · rw [if_pos h]
      obtain ⟨b, hb, hx⟩ := h
      rw [if_pos ⟨b + 1, by omega, by rw [hx]; congr 1; omega⟩]
    · rw [if_neg h]
      by_cases hx : x = a % 2 ^ 64
      · rw [if_pos ⟨0, by omega, by simpa using hx⟩, hx, store8_same]
      · rw [store8_other _ _ _ _ hx]
        have : ¬ ∃ b, b < w + 1 ∧ x = (a + b) % 2 ^ 64 := by
          rintro ⟨b, hb, hxb⟩
          rcases Nat.eq_zero_or_pos b with h0 | h0
          · subst h0; exact hx (by simpa using hxb)
          · exact h ⟨b - 1, by omega, by rw [hxb]; congr 1; omega⟩
        rw [if_neg this]

theorem zeroBlocks_spec (w : Nat) : ∀ (k a : Nat) (m : Mem) (x : Nat),
    zeroBlocks w a k m x = if ∃ j, j < k * w ∧ x = (a + j) % 2 ^ 64 then 0 else m x := by
  intro k
  induction k with
  | zero => intro a m x; simp [zeroBlocks]
  | succ k ih =>
    intro a m x
    unfold zeroBlocks
    rw [ih, storeZeros_spec]
    by_cases h1 : ∃ j, j < k * w ∧ x = (a + w + j) % 2 ^ 64
    · rw [if_pos h1]
      obtain ⟨j, hj, hx⟩ := h1
      rw [if_pos ⟨w + j, by rw [Nat.succ_mul]; omega, by rw [hx]; congr 1; omega⟩]
    · rw [if_neg h1]
      by_cases h2 : ∃ b, b < w ∧ x = (a % 2 ^ 64 + b) % 2 ^ 64
      · rw [if_pos h2]
        obtain ⟨b, hb, hx⟩ := h2
        rw [if_pos ⟨b, by rw [Nat.succ_mul]; omega, by rw [hx]; omega⟩]
      · rw [if_neg h2]
        have : ¬ ∃ j, j < (k + 1) * w ∧ x = (a + j) % 2 ^ 64 := by
          rintro ⟨j, hj, hx⟩
          by_cases hjw : j < w
          · exact h2 ⟨j, hjw, by rw [hx]; omega⟩
          · exact h1 ⟨j - w, by rw [Nat.succ_mul] at hj; omega, by rw [hx]; congr 1; omega⟩
        rw [if_neg this]

/-- The clear loop entered with `k` blocks left. -/
theorem clearLoop_spec (w rax : Nat) (hw : 0 < w) : ∀ (k fuel rdi : Nat) (m : Mem),
    0 < k → rdi + k * w = 2 ^ 64 →
    clearLoop w rax fuel rdi m =
      if k ≤ fuel then some (zeroBlocks w (rax + rdi) k m) else none := by
  intro k
  induction k with
  | zero => intro fuel rdi m h; omega
  | succ k ih =>
    intro fuel rdi m _ hsum
    rw [Nat.succ_mul] at hsum
    cases fuel with
    | zero => simp [clearLoop]
    | succ fuel =>
      unfold clearLoop
      rcases Nat.eq_zero_or_pos k with hk | hk
      · subst hk
        have h0 : (rdi + w) % 2 ^ 64 = 0 := by
          have : rdi + w = 2 ^ 64 := by omega
          rw [this]; simp
        simp only [h0, if_true]
        simp [zeroBlocks]
      · have hkw : 0 < k * w := Nat.mul_pos hk hw
        have hne : (rdi + w) % 2 ^ 64 ≠ 0 := by
          have : rdi + w < 2 ^ 64 := by omega
          rw [Nat.mod_eq_of_lt this]; omega
        have hlt : (rdi + w) % 2 ^ 64 = rdi + w := Nat.mod_eq_of_lt (by omega)
        simp only [hne, if_false]
        rw [hlt, ih fuel (rdi + w) _ hk (by omega)]
        by_cases hf : k ≤ fuel
        · rw [if_pos hf, if_pos (by omega)]
          congr 1
          show zeroBlocks w (rax + (rdi + w)) k _ = zeroBlocks w (rax + rdi + w) k _
          rw [Nat.add_assoc]
        · rw [if_neg hf, if_neg (by omega)]

theorem zeroBlocks_congr (w k a a2 : Nat) (m : Mem) (h : a % 2 ^ 64 = a2 % 2 ^ 64) :
    zeroBlocks w a k m = zeroBlocks w a2 k m := by
  funext x
  rw [zeroBlocks_spec, zeroBlocks_spec]
  have hiff : (∃ j, j < k * w ∧ x = (a + j) % 2 ^ 64) ↔ (∃ j, j < k * w ∧ x = (a2 + j) % 2 ^ 64) := by
    constructor
    · rintro ⟨j, hj, hx⟩
      exact ⟨j, hj, by rw [hx]; omega⟩
    · rintro ⟨j, hj, hx⟩
      exact ⟨j, hj, by rw [hx]; omega⟩
  by_cases h1 : ∃ j, j < k * w ∧ x = (a + j) % 2 ^ 64
  · rw [if_pos h1, if_pos (hiff.mp h1)]
  · rw [if_neg h1, if_neg (fun h2 => h1 (hiff.mpr h2))]

/-- The registers on entry of the clear loop: `rdi` holds `-AFL_MAP_SIZE`. -/
theorem clearMap_entry (A S : Nat) (hpos : 0 < S) (hsz : S < 2 ^ 64) :
    (A % 2 ^ 64 + 2 ^ 64 - (A % 2 ^ 64 + S % 2 ^ 64) % 2 ^ 64) % 2 ^ 64 = 2 ^ 64 - S ∧
    ((A % 2 ^ 64 + S % 2 ^ 64) % 2 ^ 64 + (2 ^ 64 - S)) % 2 ^ 64 = A % 2 ^ 64 := by
  have ha : A % 2 ^ 64 < 2 ^ 64 := Nat.mod_lt _ (by norm_num)
  rw [Nat.mod_eq_of_lt hsz]
  by_cases h : A % 2 ^ 64 + S < 2 ^ 64
  · rw [Nat.mod_eq_of_lt h]
    constructor
    · have : A % 2 ^ 64 + 2 ^ 64 - (A % 2 ^ 64 + S) = 2 ^ 64 - S := by omega
      rw [this]; exact Nat.mod_eq_of_lt (by omega)
    · have : A % 2 ^ 64 + S + (2 ^ 64 - S) = A % 2 ^ 64 + 2 ^ 64 := by omega
      rw [this]; omega
  · have hr : (A % 2 ^ 64 + S) % 2 ^ 64 = A % 2 ^ 64 + S - 2 ^ 64 := by omega
    rw [hr]
    constructor
    · have : A % 2 ^ 64 + 2 ^ 64 - (A % 2 ^ 64 + S - 2 ^ 64) = (2 ^ 64 - S) + 2 ^ 64 := by omega
      rw [this]; omega
    · have : A % 2 ^ 64 + S - 2 ^ 64 + (2 ^ 64 - S) = A % 2 ^ 64 := by omega
      rw [this]; omega

theorem clearMap_fuel (C : Config) (k : Nat) (hpos : 0 < C.AFL_MAP_SIZE)
    (hmul : C.AFL_MAP_SIZE = k * C.clearWidth) (hsz : C.AFL_MAP_SIZE < 2 ^ 64) (m : Mem)
    (fuel : Nat) :
    clearLoop C.clearWidth ((C.AFL_MAP_ADDR % 2 ^ 64 + C.AFL_MAP_SIZE % 2 ^ 64) % 2 ^ 64) fuel
        (2 ^ 64 - C.AFL_MAP_SIZE) m =
      if k ≤ fuel then some (zeroBlocks C.clearWidth C.AFL_MAP_ADDR k m) else none := by
  have hk : 0 < k := by
    rcases Nat.eq_zero_or_pos k with h | h
    · subst h; simp at hmul; omega
    · exact h
  have hw : 0 < C.clearWidth := by
    rcases Nat.eq_zero_or_pos C.clearWidth with h | h
    · rw [h] at hmul; simp at hmul; omega
    · exact h
  rw [clearLoop_spec C.clearWidth _ hw k fuel (2 ^ 64 - C.AFL_MAP_SIZE) m hk (by omega)]
  have hc := zeroBlocks_congr C.clearWidth k
    ((C.AFL_MAP_ADDR % 2 ^ 64 + C.AFL_MAP_SIZE % 2 ^ 64) % 2 ^ 64 + (2 ^ 64 - C.AFL_MAP_SIZE))
    C.AFL_MAP_ADDR m (clearMap_entry C.AFL_MAP_ADDR C.AFL_MAP_SIZE hpos hsz).2
  rw [hc]

theorem clearMap_eq (C : Config) (k : Nat) (hpos : 0 < C.AFL_MAP_SIZE)
    (hmul : C.AFL_MAP_SIZE = k * C.clearWidth) (hsz : C.AFL_MAP_SIZE < 2 ^ 64) (m : Mem) :
    clearMap C m = some (zeroBlocks C.clearWidth C.AFL_MAP_ADDR k m) := by
  have hw : 0 < C.clearWidth := by
    rcases Nat.eq_zero_or_pos C.clearWidth with h | h
    · rw [h] at hmul; simp at hmul; omega
    · exact h
  have hk : k ≤ 2 ^ 64 := by
    have : k * 1 ≤ k * C.clearWidth := Nat.mul_le_mul_left k hw
    omega
  unfold clearMap
  simp only []
  rw [(clearMap_entry C.AFL_MAP_ADDR C.AFL_MAP_SIZE hpos hsz).1,
    clearMap_fuel C k hpos hmul hsz m (2 ^ 64), if_pos hk]

/-- C11: let `AFL_MAP_SIZE` be a positive multiple `k * w` of the store width
`w` (and a 64-bit value).  (1) The clear loop ends, and its result is the
memory in which `w` zero bytes were stored at each of the offsets
`0, w, .., (k - 1) * w` from `AFL_MAP_ADDR`.  (2) In that memory every byte of
the map, at `AFL_MAP_ADDR + j` for `j < AFL_MAP_SIZE`, is zero, and (3) every
other byte is what it was; (4) when the map does not wrap around the end of the
address space, these are the addresses from `AFL_MAP_ADDR` up to
`AFL_MAP_ADDR + AFL_MAP_SIZE`.  (5) The loop is entered with the running offset
`-AFL_MAP_SIZE` in `rdi`, (6) which after `i <= k` turns is zero exactly when
`i = k`, and (7) the loop makes exactly `k` turns: bounded to fewer it has not
ended.  (8) A turn of the patch round with a count below `CRS_MAP_MAX_CMD_N`,
a call of `fork_server_patch` that returns and `msync` calls that succeed ends
with the clear loop as its last event, at the top of the outer loop, before
the next fork, with `crs_loop` true and the map cleared. -/
theorem C11_clear_loop_zeroes_map (C : Config) (k : Nat) (hpos : 0 < C.AFL_MAP_SIZE)
    (hmul : C.AFL_MAP_SIZE = k * C.clearWidth) (hsz : C.AFL_MAP_SIZE < 2 ^ 64) :
    (∀ m, clearMap C m = some (zeroBlocks C.clearWidth C.AFL_MAP_ADDR k m)) ∧
    (∀ m j, j < C.AFL_MAP_SIZE →
      zeroBlocks C.clearWidth C.AFL_MAP_ADDR k m ((C.AFL_MAP_ADDR + j) % 2 ^ 64) = 0) ∧
    (∀ m x, (∀ j, j < C.AFL_MAP_SIZE → x ≠ (C.AFL_MAP_ADDR + j) % 2 ^ 64) →
      zeroBlocks C.clearWidth C.AFL_MAP_ADDR k m x = m x) ∧
    (C.AFL_MAP_ADDR + C.AFL_MAP_SIZE ≤ 2 ^ 64 → ∀ m x,
      zeroBlocks C.clearWidth C.AFL_MAP_ADDR k m x =
        if C.AFL_MAP_ADDR ≤ x ∧ x < C.AFL_MAP_ADDR + C.AFL_MAP_SIZE then 0 else m x) ∧
    ((C.AFL_MAP_ADDR % 2 ^ 64 + 2 ^ 64 -
        (C.AFL_MAP_ADDR % 2 ^ 64 + C.AFL_MAP_SIZE % 2 ^ 64) % 2 ^ 64) % 2 ^ 64 =
      2 ^ 64 - C.AFL_MAP_SIZE) ∧
    (∀ i, i ≤ k → ((2 ^ 64 - C.AFL_MAP_SIZE + i * C.clearWidth) % 2 ^ 64 = 0 ↔ i = k)) ∧
    (∀ m fuel,
      clearLoop C.clearWidth ((C.AFL_MAP_ADDR % 2 ^ 64 + C.AFL_MAP_SIZE % 2 ^ 64) % 2 ^ 64) fuel
          (2 ^ 64 - C.AFL_MAP_SIZE) m =
        if k ≤ fuel then some (zeroBlocks C.clearWidth C.AFL_MAP_ADDR k m) else none) ∧
    (∀ (w : World) (s : FS) (n : Int) (b : Bool), s.ctl = Ctl.round n b →
      n < C.L.CRS_MAP_MAX_CMD_N →
      (fork_server_patch C.L (w.patch_sys s.tick) n b s.mem).err = none →
      w.msync s.tick 0 = 0 →
      ((fork_server_patch C.L (w.patch_sys s.tick) n b s.mem).shadow_need_sync = true →
        w.msync s.tick 1 = 0) →
      (step C w s).ctl = Ctl.head ∧ (step C w s).crs_loop = true ∧
      (step C w s).mem = zeroBlocks C.clearWidth C.AFL_MAP_ADDR k
        (fork_server_patch C.L (w.patch_sys s.tick) n b s.mem).mem ∧
      (step C w s).trace = s.trace ++
        (Event.patch n :: (fork_server_patch C.L (w.patch_sys s.tick) n b s.mem).log ++
          (syncEvents (fork_server_patch C.L (w.patch_sys s.tick) n b s.mem) ++
            [Event.clear_map]))) := by
  have hw : 0 < C.clearWidth := by
    rcases Nat.eq_zero_or_pos C.clearWidth with h | h
    · rw [h] at hmul; simp at hmul; omega
    · exact h
  refine ⟨clearMap_eq C k hpos hmul hsz, ?_, ?_, ?_,
    (clearMap_entry C.AFL_MAP_ADDR C.AFL_MAP_SIZE hpos hsz).1, ?_,
    fun m fuel => clearMap_fuel C k hpos hmul hsz m fuel, ?_⟩
  · intro m j hj
    rw [zeroBlocks_spec, if_pos ⟨j, by rw [← hmul]; exact hj, rfl⟩]
  · intro m x hx
    rw [zeroBlocks_spec, if_neg]
    rintro ⟨j, hj, hxj⟩
    exact hx j (by rw [hmul]; exact hj) hxj
  · intro hfit m x
    rw [zeroBlocks_spec, ← hmul]
    by_cases h : C.AFL_MAP_ADDR ≤ x ∧ x < C.AFL_MAP_ADDR + C.AFL_MAP_SIZE
    · rw [if_pos h, if_pos ⟨x - C.AFL_MAP_ADDR, by omega, by
        have : C.AFL_MAP_ADDR + (x - C.AFL_MAP_ADDR) = x := by omega
        rw [this, Nat.mod_eq_of_lt (by omega)]⟩]
    · rw [if_neg h, if_neg]
      rintro ⟨j, hj, hxj⟩
      rw [Nat.mod_eq_of_lt (by omega)] at hxj
      exact h (by omega)
  · intro i hi
    have hle : i * C.clearWidth ≤ k * C.clearWidth := Nat.mul_le_mul_right _ hi
    constructor
    · intro h0
      by_contra hne
      have hlt : i < k := by omega
      have : (i + 1) * C.clearWidth ≤ k * C.clearWidth := Nat.mul_le_mul_right _ hlt
      rw [Nat.succ_mul] at this
      rw [Nat.mod_eq_of_lt (by omega)] at h0
      omega
    · intro h
      subst h
      have : 2 ^ 64 - C.AFL_MAP_SIZE + i * C.clearWidth = 2 ^ 64 := by omega
      rw [this]; simp
  · intro w s n b hctl hn herr h0 h1
    rw [step_round C w s n b hctl,
      stepRound_done C w s n b _ herr hn h0 h1 (clearMap_eq C k hpos hmul hsz _)]
    exact ⟨rfl, rfl, rfl, rfl⟩

set_option maxRecDepth 100000 in
/-- Witness of C11: a map of 64 bytes at 0x10000 cleared by four stores of 16
bytes; the byte 9 at its last address 0x1003f is zero afterwards. -/
theorem C11_clear_loop_zeroes_map_witness :
    0 < demoConfig.AFL_MAP_SIZE ∧ demoConfig.AFL_MAP_SIZE = 4 * demoConfig.clearWidth ∧
    clearMap demoConfig (poke zeroMem 0x1003f [9]) =
      some (zeroBlocks 16 0x10000 4 (poke zeroMem 0x1003f [9])) ∧
    zeroBlocks 16 0x10000 4 (poke zeroMem 0x1003f [9]) 0x1003f = 0 :=
  have h := C11_clear_loop_zeroes_map demoConfig 4 (by decide) (by decide) (by decide)
  ⟨by decide, by decide, h.1 _, h.2.1 _ 0x3f (by decide)⟩

/-! ## The end of a turn: report, exit and signal -/

theorem turnEvents_no_exit (w : World) (s : FS) : ∀ e ∈ turnEvents w s, e.isExit = false := by
  intro e he
  unfold turnEvents at he
  by_cases hw : (s.afl_attached && !s.crs_loop) = true
  · simp [hw] at he
    rcases he with rfl | rfl | rfl | rfl <;> rfl
  · simp [hw] at he
    rcases he with rfl | rfl <;> rfl

theorem WEXITSTATUS_eq (s : Nat) : WEXITSTATUS s = (s >>> 8) &&& 0xff := by
  unfold WEXITSTATUS
  apply Nat.eq_of_testBit_eq
  intro i
  rw [Nat.testBit_shiftRight, Nat.testBit_and, Nat.testBit_and, Nat.testBit_shiftRight]
  congr 1
  have h1 : (255 : Nat) = 2 ^ 8 - 1 := by norm_num
  have h2 : (65280 : Nat) = (2 ^ 8 - 1) <<< 8 := by decide
  rw [h1, h2, Nat.testBit_shiftLeft, Nat.testBit_two_pow_sub_one, Nat.testBit_two_pow_sub_one]
  simp

/-- Step 7.6 without fuzzer, for a status that is not a clean exit. -/
theorem report_signalled (s : FS) (evs : List Event) (mem : Mem) (st : Nat)
    (ha : s.afl_attached = false) (hsig : WIFSIGNALED st = true) :
    report s evs mem st =
      s.next (evs ++ [Event.crs_write_status st, Event.kill 0 (WTERMSIG st)]) Ctl.head false mem := by
  have hex : WIFEXITED st = false := by
    have h1 := (WIFSIGNALED_iff st).mp hsig
    cases h : WIFEXITED st with
    | false => rfl
    | true => have := (WIFEXITED_iff st).mp h; omega
  unfold report
  rw [ha, hex, hsig]
  rfl

/-- Step 7.6 without fuzzer, for a clean exit. -/
theorem report_exited (s : FS) (evs : List Event) (mem : Mem) (st : Nat)
    (ha : s.afl_attached = false) (hex : WIFEXITED st = true) :
    report s evs mem st =
      s.next (evs ++ [Event.crs_write_status st, Event.exit (WEXITSTATUS st)])
        (Ctl.exited (WEXITSTATUS st)) false mem := by
  unfold report FS.sys_exit
  rw [ha, hex]
  simp

/-- Step 7.6 with the fuzzer attached. -/
theorem report_afl (s : FS) (evs : List Event) (mem : Mem) (st : Nat)
    (ha : s.afl_attached = true) :
    report s evs mem st = s.next (evs ++ [Event.afl_write_status st]) Ctl.head false mem := by
  unfold report
  rw [ha]
  rfl

theorem in_patch_no_exit (e : Event) (h : e.inPatch = true) : e.isExit = false := by
  cases e <;> first | rfl | exact Bool.noConfusion h

theorem is_sync_no_exit (e : Event) (h : e.isSync = true) : e.isExit = false := by
  cases e <;> first | rfl | exact Bool.noConfusion h

/-- A turn of the patch round makes no call of `sys_exit` or `sys_kill` and
does not end by `sys_exit`. -/
theorem stepRound_no_exit (C : Config) (w : World) (s : FS) (n : Int) (b : Bool) :
    ∃ evs, (stepRound C w s n b).trace = s.trace ++ evs ∧ (∀ x ∈ evs, x.isExit = false) ∧
      ∀ c, (stepRound C w s n b).ctl ≠ Ctl.exited c := by
  have hlog := (fork_server_patch_log C.L (w.patch_sys s.tick) n b s.mem).1
  have hpl : ∀ x ∈ Event.patch n :: (fork_server_patch C.L (w.patch_sys s.tick) n b s.mem).log,
      x.isExit = false := by
    intro x hx
    rcases List.mem_cons.mp hx with rfl | hx
    · rfl
    · exact in_patch_no_exit x (hlog x hx)
  cases he : (fork_server_patch C.L (w.patch_sys s.tick) n b s.mem).err with
  | some e =>
    rw [stepRound_fatal C w s n b e he]
    exact ⟨_, rfl, hpl, fun c h => Ctl.noConfusion h⟩
  | none =>
    by_cases hn : n < C.L.CRS_MAP_MAX_CMD_N
    · rcases stepRound_last C w s n b he hn with ⟨evs, h, hs⟩ | ⟨_, h⟩ | ⟨m, _, _, _, h⟩
      · rw [h]
        refine ⟨_, rfl, ?_, fun c h => Ctl.noConfusion h⟩
        intro x hx
        rcases List.mem_append.mp hx with hx | hx
        · exact hpl x hx
        · exact is_sync_no_exit x (hs x hx)
      · rw [h]
        refine ⟨_, rfl, ?_, fun c h => Ctl.noConfusion h⟩
        intro x hx
        rcases List.mem_append.mp hx with hx | hx
        · exact hpl x hx
        · rcases List.mem_append.mp hx with hx | hx
          · exact is_sync_no_exit x (syncEvents_isSync _ x hx)
          · simp at hx; subst hx; rfl
      · rw [h]
        refine ⟨_, rfl, ?_, fun c h => Ctl.noConfusion h⟩
        intro x hx
        rcases List.mem_append.mp hx with hx | hx
        · exact hpl x hx
        · rcases List.mem_append.mp hx with hx | hx
          · exact is_sync_no_exit x (syncEvents_isSync _ x hx)
          · simp at hx; subst hx; rfl
    · rw [stepRound_more C w s n b he hn]
      refine ⟨_, rfl, ?_, fun c h => Ctl.noConfusion h⟩
      intro x hx
      rcases List.mem_append.mp hx with hx | hx
      · exact hpl x hx
      · simp at hx; rcases hx with rfl | rfl <;> rfl

/-- With the fuzzer attached, a turn of the outer loop makes no call of
`sys_exit` or `sys_kill` and does not end by `sys_exit`. -/
theorem stepHead_no_exit (w : World) (s : FS) (ha : s.afl_attached = true) :
    ∃ evs, (stepHead w s).trace = s.trace ++ evs ∧ (∀ x ∈ evs, x.isExit = false) ∧
      ∀ c, (stepHead w s).ctl ≠ Ctl.exited c := by
  have hrep : ∀ (evs : List Event) (mem : Mem) (st : Nat), (∀ x ∈ evs, x.isExit = false) →
      ∃ evs2, (report s evs mem st).trace = s.trace ++ evs2 ∧ (∀ x ∈ evs2, x.isExit = false) ∧
        ∀ c, (report s evs mem st).ctl ≠ Ctl.exited c := by
    intro evs mem st hevs
    rw [report_afl s evs mem st ha]
    refine ⟨_, rfl, ?_, fun c h => Ctl.noConfusion h⟩
    intro x hx
    rcases List.mem_append.mp hx with hx | hx
    · exact hevs x hx
    · simp at hx; subst hx; rfl
  have hcrs : ∀ x ∈ turnEvents w s ++
      [Event.crs_write_status (w.wait4 s.tick).2, Event.crs_read (w.crs_read s.tick)],
      x.isExit = false := by
    intro x hx
    rcases List.mem_append.mp hx with hx | hx
    · exact turnEvents_no_exit w s x hx
    · simp at hx; rcases hx with rfl | rfl <;> rfl
  by_cases h1 : (s.afl_attached && !s.crs_loop && w.afl_read s.tick != 4) = true
  · refine ⟨_, by unfold stepHead FS.utils_error; simp only []; rw [if_pos h1]; rfl, ?_,
      by unfold stepHead FS.utils_error; simp only []; rw [if_pos h1];
         exact fun c h => Ctl.noConfusion h⟩
    intro x hx
    by_cases hw : (s.afl_attached && !s.crs_loop) = true
    · simp [hw] at hx
      rcases hx with rfl | rfl <;> rfl
    · simp [hw] at hx
      subst hx; rfl
  · by_cases h2 : w.clone s.tick < 0
    · refine ⟨_, by unfold stepHead FS.utils_error; simp only []; rw [if_neg h1, if_pos h2]; rfl,
        ?_, by unfold stepHead FS.utils_error; simp only []; rw [if_neg h1, if_pos h2];
               exact fun c h => Ctl.noConfusion h⟩
      intro x hx
      by_cases hw : (s.afl_attached && !s.crs_loop) = true
      · simp [hw] at hx
        rcases hx with rfl | rfl | rfl <;> rfl
      · simp [hw] at hx
        rcases hx with rfl | rfl <;> rfl
    · by_cases h3 : w.clone s.tick = 0
      · refine ⟨_, by unfold stepHead FS.utils_error; simp only [];
                      rw [if_neg h1, if_neg h2, if_pos h3]; rfl,
          ?_, by unfold stepHead FS.utils_error; simp only []
                 rw [if_neg h1, if_neg h2, if_pos h3]
                 exact fun c h => Ctl.noConfusion h⟩
        intro x hx
        by_cases hw : (s.afl_attached && !s.crs_loop) = true
        · simp [hw] at hx
          rcases hx with rfl | rfl | rfl <;> rfl
        · simp [hw] at hx
          rcases hx with rfl | rfl <;> rfl
      · by_cases h4 : (w.wait4 s.tick).1 < 0
        · have h : stepHead w s = s.next (turnEvents w s ++ [Event.error Err.wait4_err])
              (Ctl.fatal Err.wait4_err) s.crs_loop (w.wait_mem s.tick s.mem) := by
            unfold stepHead turnEvents FS.utils_error; simp only []
            rw [if_neg h1, if_neg h2, if_neg h3, if_pos h4]
          rw [h]
          refine ⟨_, rfl, ?_, fun c h => Ctl.noConfusion h⟩
          intro x hx
          rcases List.mem_append.mp hx with hx | hx
          · exact turnEvents_no_exit w s x hx
          · simp at hx; subst hx; rfl
        · have hread : (s.afl_attached && !s.crs_loop) = true → w.afl_read s.tick = 4 := by
            intro hw
            by_contra hne
            apply h1
            rw [Bool.and_eq_true]
            exact ⟨hw, by simpa using hne⟩
          by_cases h5 : IS_SUSPECT_STATUS (w.wait4 s.tick).2 = true
          · by_cases h6 : 0 ≤ (w.crs_read s.tick).getD (-1)
            · rw [stepHead_patch w s hread (by omega) (by omega) h5 h6]
              exact ⟨_, rfl, hcrs, fun c h => Ctl.noConfusion h⟩
            · rw [stepHead_real w s hread (by omega) (by omega) h5 (by omega)]
              exact hrep _ _ _ hcrs
          · have h5f : IS_SUSPECT_STATUS (w.wait4 s.tick).2 = false := by
              simpa using h5
            rw [stepHead_normal w s hread (by omega) (by omega) h5f]
            exact hrep _ _ _ (turnEvents_no_exit w s)

theorem step_no_exit (C : Config) (w : World) (s : FS) (ha : s.afl_attached = true)
    (hc : ∀ c, s.ctl ≠ Ctl.exited c) :
    ∃ evs, (step C w s).trace = s.trace ++ evs ∧ (∀ x ∈ evs, x.isExit = false) ∧
      ∀ c, (step C w s).ctl ≠ Ctl.exited c := by
  cases hctl : s.ctl with
  | head => rw [step_head C w s hctl]; exact stepHead_no_exit w s ha
  | round n b => rw [step_round C w s n b hctl]; exact stepRound_no_exit C w s n b
  | child =>
    have : step C w s = s := by unfold step; rw [hctl]
    rw [this]; exact ⟨[], by simp, by simp, hc⟩
  | fatal e =>
    have : step C w s = s := by unfold step; rw [hctl]
    rw [this]; exact ⟨[], by simp, by simp, hc⟩
  | exited c => exact absurd hctl (hc c)
  | hang =>
    have : step C w s = s := by unfold step; rw [hctl]
    rw [this]; exact ⟨[], by simp, by simp, hc⟩

theorem run_no_exit (C : Config) (w : World) (s : FS) (ha : s.afl_attached = true)
    (ht : ∀ x ∈ s.trace, x.isExit = false) (hc : ∀ c, s.ctl ≠ Ctl.exited c) :
    ∀ k, (∀ x ∈ (run C w k s).trace, x.isExit = false) ∧ ∀ c, (run C w k s).ctl ≠ Ctl.exited c := by
  intro k
  induction k with
  | zero => exact ⟨ht, hc⟩
  | succ k ih =>
    rw [run_step]
    have ha2 : (run C w k s).afl_attached = true := by rw [run_afl]; exact ha
    obtain ⟨evs, h1, h2, h3⟩ := step_no_exit C w (run C w k s) ha2 ih.2
    refine ⟨?_, h3⟩
    rw [h1]
    intro x hx
    rcases List.mem_append.mp hx with hx | hx
    · exact ih.1 x hx
    · exact h2 x hx

/-- C12 (amended): take a turn that runs with `crs_loop` true (fork and
`wait4` succeed) and whose child ends in a real crash: killed by a signal, not
by the reserved marker.  (1) Without fuzzer, the fork server writes the status
of the child on the daemon socket and then signals its process group with the
signal of the child; nothing of the turn is a fuzzer message.  (2) With the
fuzzer attached, the fork server writes the status of the child on the status
descriptor of the fuzzer, unchanged, and nothing of the turn is a message on
the daemon socket.  In both cases `crs_loop` is false afterwards. -/
theorem C12_real_crash_during_replay (C : Config) (w : World) (s : FS)
    (hctl : s.ctl = Ctl.head) (hloop : s.crs_loop = true)
    (hclone : 0 < w.clone s.tick) (hwait : 0 ≤ (w.wait4 s.tick).1)
    (hreal : IS_ABNORMAL_STATUS (w.wait4 s.tick).2 = true)
    (hnot : IS_SUSPECT_STATUS (w.wait4 s.tick).2 = false) :
    (s.afl_attached = false →
      (step C w s).trace = s.trace ++
        [Event.clone (w.clone s.tick),
          Event.wait4 (w.clone s.tick) (w.wait4 s.tick).1 (w.wait4 s.tick).2,
          Event.crs_write_status (w.wait4 s.tick).2,
          Event.kill 0 (WTERMSIG (w.wait4 s.tick).2)]) ∧
    (s.afl_attached = true →
      (step C w s).trace = s.trace ++
        [Event.clone (w.clone s.tick),
          Event.wait4 (w.clone s.tick) (w.wait4 s.tick).1 (w.wait4 s.tick).2,
          Event.afl_write_status (w.wait4 s.tick).2]) ∧
    (step C w s).ctl = Ctl.head ∧ (step C w s).crs_loop = false := by
  have hw : (s.afl_attached && !s.crs_loop) = false := by rw [hloop]; simp
  have hread : (s.afl_attached && !s.crs_loop) = true → w.afl_read s.tick = 4 := by
    intro h; rw [hw] at h; exact Bool.noConfusion h
  have hsig : WIFSIGNALED (w.wait4 s.tick).2 = true := by
    unfold IS_ABNORMAL_STATUS at hreal
    rw [Bool.and_eq_true] at hreal
    exact hreal.2
  rw [step_head C w s hctl, stepHead_normal w s hread hclone hwait hnot, turnEvents_replay w s hw]
  refine ⟨?_, ?_, ?_, ?_⟩
  · intro ha
    rw [report_signalled s _ _ _ ha hsig]
    rfl
  · intro ha
    rw [report_afl s _ _ _ ha]
    rfl
  · cases ha : s.afl_attached with
    | false => rw [report_signalled s _ _ _ ha hsig]; rfl
    | true => rw [report_afl s _ _ _ ha]; rfl
  · cases ha : s.afl_attached with
    | false => rw [report_signalled s _ _ _ ha hsig]; rfl
    | true => rw [report_afl s _ _ _ ha]; rfl

/-- C14 (amended): take a turn without fuzzer (fork and `wait4` succeed), which
ends in the branch of step 7.6 that exits or signals.  (1) A child that exited
cleanly: the fork server writes the status to the daemon and exits with the
exit code of the child, `(status >> 8) & 0xff`.  (2) A child killed by a signal
other than the reserved marker: the fork server signals its process group with
the signal of the child, `status & 0x7f`.  (3) A child killed by the reserved
marker (signal 10) that the daemon confirms as a real crash (negative reply, or
no reply): the status is replaced by 139, and the signal raised is that of
139, SIGSEGV (11), not the signal 10 of the child. -/
theorem C14_exit_code_and_signal (C : Config) (w : World) (s : FS)
    (hctl : s.ctl = Ctl.head) (ha : s.afl_attached = false)
    (hclone : 0 < w.clone s.tick) (hwait : 0 ≤ (w.wait4 s.tick).1) :
    (IS_SUSPECT_STATUS (w.wait4 s.tick).2 = false → WIFEXITED (w.wait4 s.tick).2 = true →
      (step C w s).trace = s.trace ++
        [Event.clone (w.clone s.tick),
          Event.wait4 (w.clone s.tick) (w.wait4 s.tick).1 (w.wait4 s.tick).2,
          Event.crs_write_status (w.wait4 s.tick).2,
          Event.exit (((w.wait4 s.tick).2 >>> 8) &&& 0xff)] ∧
      (step C w s).ctl = Ctl.exited (((w.wait4 s.tick).2 >>> 8) &&& 0xff)) ∧
    (IS_SUSPECT_STATUS (w.wait4 s.tick).2 = false → WIFSIGNALED (w.wait4 s.tick).2 = true →
      (step C w s).trace = s.trace ++
        [Event.clone (w.clone s.tick),
          Event.wait4 (w.clone s.tick) (w.wait4 s.tick).1 (w.wait4 s.tick).2,
          Event.crs_write_status (w.wait4 s.tick).2,
          Event.kill 0 ((w.wait4 s.tick).2 &&& 0x7f)]) ∧
    (IS_SUSPECT_STATUS (w.wait4 s.tick).2 = true → (w.crs_read s.tick).getD (-1) < 0 →
      (step C w s).trace = s.trace ++
        [Event.clone (w.clone s.tick),
          Event.wait4 (w.clone s.tick) (w.wait4 s.tick).1 (w.wait4 s.tick).2,
          Event.crs_write_status (w.wait4 s.tick).2, Event.crs_read (w.crs_read s.tick),
          Event.crs_write_status 139, Event.kill 0 SIGSEGV] ∧
      WIFSIGNALED (w.wait4 s.tick).2 = true ∧ WTERMSIG (w.wait4 s.tick).2 = SIGUSR1) := by
  have hw : (s.afl_attached && !s.crs_loop) = false := by rw [ha]; simp
  have hread : (s.afl_attached && !s.crs_loop) = true → w.afl_read s.tick = 4 := by
    intro h; rw [hw] at h; exact Bool.noConfusion h
  refine ⟨?_, ?_, ?_⟩
  · intro hnot hex
    rw [step_head C w s hctl, stepHead_normal w s hread hclone hwait hnot,
      turnEvents_replay w s hw, report_exited s _ _ _ ha hex, WEXITSTATUS_eq]
    exact ⟨rfl, rfl⟩
  · intro hnot hsig
    rw [step_head C w s hctl, stepHead_normal w s hread hclone hwait hnot,
      turnEvents_replay w s hw, report_signalled s _ _ _ ha hsig]
    rfl
  · intro hsus hneg
    rw [step_head C w s hctl, stepHead_real w s hread hclone hwait hsus hneg,
      turnEvents_replay w s hw, report_signalled s _ _ _ ha (by decide)]
    refine ⟨rfl, ?_, ?_⟩
    · unfold IS_SUSPECT_STATUS at hsus
      rw [Bool.and_eq_true] at hsus
      exact hsus.1
    · unfold IS_SUSPECT_STATUS at hsus
      rw [Bool.and_eq_true] at hsus
      simpa using hsus.2

/-! ## The shared-memory identifier of the fuzzer -/

theorem load8_lt (m : Mem) (a : Nat) : load8 m a < 256 := Nat.mod_lt _ (by norm_num)

theorem load8_wrap (m : Mem) (a k : Nat) : load8 m (a + 2 ^ 64 * k) = load8 m a := by
  unfold load8
  rw [Nat.add_mul_mod_self_left]

theorem loadLE_wrap (m : Mem) (k : Nat) : ∀ (w a : Nat), loadLE m (a + 2 ^ 64 * k) w = loadLE m a w := by
  intro w
  induction w with
  | zero => intro a; rfl
  | succ w ih =>
    intro a
    unfold loadLE
    rw [load8_wrap, show a + 2 ^ 64 * k + 1 = a + 1 + 2 ^ 64 * k by omega, ih]

theorem shmPrefix_eq : shmPrefix = [95, 95, 65, 70, 76, 95, 83, 72, 77, 95, 73, 68, 61] := by
  decide

/-- The three comparisons of `fork_server_get_shm_id` hold exactly when the 13
bytes at `s` are the text `__AFL_SHM_ID=`. -/
theorem hasPrefix_iff (m : Mem) (s : Nat) :
    hasPrefix m s = true ↔
      (loadLE m s 8 = 0x48535f4c46415f5f ∧ loadLE m (s + 8) 4 = 0x44495f4d ∧
        load8 m (s + 12) = 61) := by
  have h0 := load8_lt m s
  have h1 := load8_lt m (s + 1)
  have h2 := load8_lt m (s + 2)
  have h3 := load8_lt m (s + 3)
  have h4 := load8_lt m (s + 4)
  have h5 := load8_lt m (s + 5)
  have h6 := load8_lt m (s + 6)
  have h7 := load8_lt m (s + 7)
  have h8 := load8_lt m (s + 8)
  have h9 := load8_lt m (s + 9)
  have h10 := load8_lt m (s + 10)
  have h11 := load8_lt m (s + 11)
  unfold hasPrefix
  rw [shmPrefix_eq]
  simp only [bytesAt, loadLE, Nat.add_assoc, Bool.and_eq_true, beq_iff_eq, Bool.and_true,
    Nat.reduceAdd, Nat.mul_zero, Nat.add_zero]
  omega

theorem shmIdLoop_succ (m : Mem) (fuel envp : Nat) :
    shmIdLoop m (fuel + 1) envp =
      if loadLE m envp 8 = 0 then some NO_SHM_ID
      else if loadLE m (loadLE m envp 8) 8 ≠ 0x48535f4c46415f5f then shmIdLoop m fuel (envp + 8)
      else if loadLE m (loadLE m envp 8 + 8) 4 ≠ 0x44495f4d then shmIdLoop m fuel (envp + 8)
      else if load8 m (loadLE m envp 8 + 12) ≠ 61 then shmIdLoop m fuel (envp + 8)
      else fork_server_atoi m (loadLE m envp 8 + 13) := rfl

theorem shmIdLoop_skip (m : Mem) (fuel envp : Nat) (hs : loadLE m envp 8 ≠ 0)
    (hp : hasPrefix m (loadLE m envp 8) = false) :
    shmIdLoop m (fuel + 1) envp = shmIdLoop m fuel (envp + 8) := by
  have hn : ¬ (loadLE m (loadLE m envp 8) 8 = 0x48535f4c46415f5f ∧
      loadLE m (loadLE m envp 8 + 8) 4 = 0x44495f4d ∧ load8 m (loadLE m envp 8 + 12) = 61) := by
    intro h
    rw [(hasPrefix_iff m _).mpr h] at hp
    exact Bool.noConfusion hp
  rw [shmIdLoop_succ]
  rw [if_neg hs]
  by_cases h1 : loadLE m (loadLE m envp 8) 8 ≠ 0x48535f4c46415f5f
  · rw [if_pos h1]
  · rw [if_neg h1]
    by_cases h2 : loadLE m (loadLE m envp 8 + 8) 4 ≠ 0x44495f4d
    · rw [if_pos h2]
    · rw [if_neg h2]
      by_cases h3 : load8 m (loadLE m envp 8 + 12) ≠ 61
      · rw [if_pos h3]
      · exfalso
        exact hn ⟨by simpa using h1, by simpa using h2, by simpa using h3⟩

theorem shmIdLoop_hit (m : Mem) (fuel envp : Nat) (hs : loadLE m envp 8 ≠ 0)
    (hp : hasPrefix m (loadLE m envp 8) = true) :
    shmIdLoop m (fuel + 1) envp = fork_server_atoi m (loadLE m envp 8 + 13) := by
  obtain ⟨h1, h2, h3⟩ := (hasPrefix_iff m _).mp hp
  rw [shmIdLoop_succ]
  rw [if_neg hs, if_neg (by simpa using h1), if_neg (by simpa using h2),
    if_neg (by simpa using h3)]

theorem shmIdLoop_end (m : Mem) (fuel envp : Nat) (hs : loadLE m envp 8 = 0) :
    shmIdLoop m (fuel + 1) envp = some NO_SHM_ID := by
  rw [shmIdLoop_succ]
  rw [if_pos hs]

theorem envAt_cons_eq (m : Mem) (envp p : Nat) (ps : List Nat) :
    envAt m envp (p :: ps) = (p != 0 && loadLE m envp 8 == p && envAt m (envp + 8) ps) := rfl

theorem envAt_nil_eq (m : Mem) (envp : Nat) : envAt m envp [] = (loadLE m envp 8 == 0) := rfl

theorem envAt_cons (m : Mem) (envp p : Nat) (ps : List Nat) (h : envAt m envp (p :: ps) = true) :
    loadLE m envp 8 = p ∧ p ≠ 0 ∧ envAt m (envp + 8) ps = true := by
  rw [envAt_cons_eq] at h
  simp only [Bool.and_eq_true, bne_iff_ne, beq_iff_eq] at h
  exact ⟨h.1.2, h.1.1, h.2⟩

/-- The pointers of an environment block are not null and a null pointer ends it. -/
theorem envAt_spec (m : Mem) : ∀ (ptrs : List Nat) (envp : Nat), envAt m envp ptrs = true →
    (∀ i, i < ptrs.length → loadLE m (envp + 8 * i) 8 ≠ 0) ∧
    loadLE m (envp + 8 * ptrs.length) 8 = 0 := by
  intro ptrs
  induction ptrs with
  | nil =>
    intro envp h
    rw [envAt_nil_eq] at h
    exact ⟨fun i hi => absurd hi (by simp), by simpa using h⟩
  | cons p ps ih =>
    intro envp h
    obtain ⟨h1, h2, h3⟩ := envAt_cons m envp p ps h
    obtain ⟨ha, hb⟩ := ih (envp + 8) h3
    constructor
    · intro i hi
      cases i with
      | zero => rw [Nat.mul_zero, Nat.add_zero, h1]; exact h2
      | succ i =>
        have := ha i (by simpa using hi)
        rw [show envp + 8 * (i + 1) = envp + 8 + 8 * i by omega]
        exact this
    · rw [show envp + 8 * (p :: ps).length = envp + 8 + 8 * ps.length by simp; omega]
      exact hb

/-- An environment block has fewer than `2 ^ 61` entries. -/
theorem envAt_length (m : Mem) (ptrs : List Nat) (envp : Nat) (h : envAt m envp ptrs = true) :
    ptrs.length < 2 ^ 61 := by
  obtain ⟨ha, hb⟩ := envAt_spec m ptrs envp h
  by_contra hlen
  have hi := ha (ptrs.length - 2 ^ 61) (by omega)
  apply hi
  have : envp + 8 * ptrs.length = envp + 8 * (ptrs.length - 2 ^ 61) + 2 ^ 64 * 1 := by omega
  rw [this, loadLE_wrap] at hb
  exact hb

theorem shmIdLoop_none_found (m : Mem) : ∀ (ptrs : List Nat) (fuel envp : Nat),
    envAt m envp ptrs = true → ptrs.length < fuel → (∀ p ∈ ptrs, hasPrefix m p = false) →
    shmIdLoop m fuel envp = some NO_SHM_ID := by
  intro ptrs
  induction ptrs with
  | nil =>
    intro fuel envp h hf _
    cases fuel with
    | zero => simp at hf
    | succ fuel =>
      rw [envAt_nil_eq] at h
      exact shmIdLoop_end m fuel envp (by simpa using h)
  | cons p ps ih =>
    intro fuel envp h hf hno
    obtain ⟨h1, h2, h3⟩ := envAt_cons m envp p ps h
    cases fuel with
    | zero => simp at hf
    | succ fuel =>
      rw [shmIdLoop_skip m fuel envp (by rw [h1]; exact h2)
        (by rw [h1]; exact hno p (List.mem_cons_self _ _))]
      exact ih fuel (envp + 8) h3 (by simpa using hf)
        (fun q hq => hno q (List.mem_cons_of_mem _ hq))

theorem shmIdLoop_first_found (m : Mem) (p : Nat) (post : List Nat) :
    ∀ (pre : List Nat) (fuel envp : Nat),
    envAt m envp (pre ++ p :: post) = true → pre.length < fuel →
    (∀ q ∈ pre, hasPrefix m q = false) → hasPrefix m p = true →
    shmIdLoop m fuel envp = fork_server_atoi m (p + 13) := by
  intro pre
  induction pre with
  | nil =>
    intro fuel envp h hf _ hp
    obtain ⟨h1, h2, _⟩ := envAt_cons m envp p post h
    cases fuel with
    | zero => simp at hf
    | succ fuel =>
      rw [shmIdLoop_hit m fuel envp (by rw [h1]; exact h2) (by rw [h1]; exact hp), h1]
  | cons q qs ih =>
    intro fuel envp h hf hno hp
    obtain ⟨h1, h2, h3⟩ := envAt_cons m envp q (qs ++ p :: post) h
    cases fuel with
    | zero => simp at hf
    | succ fuel =>
      rw [shmIdLoop_skip m fuel envp (by rw [h1]; exact h2)
        (by rw [h1]; exact hno q (List.mem_cons_self _ _))]
      exact ih fuel (envp + 8) h3 (by simpa using hf)
        (fun r hr => hno r (List.mem_cons_of_mem _ hr)) hp

/-- Without entry that begins with `__AFL_SHM_ID=` the result is `NO_SHM_ID`. -/
theorem get_shm_id_none_found (m : Mem) (envp : Nat) (ptrs : List Nat)
    (henv : envAt m envp ptrs = true) (hno : ∀ p ∈ ptrs, hasPrefix m p = false) :
    fork_server_get_shm_id m envp = some NO_SHM_ID :=
  shmIdLoop_none_found m ptrs (2 ^ 61) envp henv (envAt_length m ptrs envp henv) hno

/-- The first entry that begins with `__AFL_SHM_ID=` decides the result. -/
theorem get_shm_id_first_found (m : Mem) (envp : Nat) (pre : List Nat) (p : Nat)
    (post : List Nat) (henv : envAt m envp (pre ++ p :: post) = true)
    (hno : ∀ q ∈ pre, hasPrefix m q = false) (hp : hasPrefix m p = true) :
    fork_server_get_shm_id m envp = fork_server_atoi m (p + 13) := by
  have hlen := envAt_length m _ envp henv
  simp at hlen
  exact shmIdLoop_first_found m p post pre (2 ^ 61) envp henv (by omega) hno hp

theorem cstrAt_cons_eq (m : Mem) (s b : Nat) (bs : List Nat) :
    cstrAt m s (b :: bs) = (b != 0 && load8 m s == b && cstrAt m (s + 1) bs) := rfl

theorem cstrAt_nil_eq (m : Mem) (s : Nat) : cstrAt m s [] = (load8 m s == 0) := rfl

theorem cstrAt_cons (m : Mem) (s b : Nat) (bs : List Nat) (h : cstrAt m s (b :: bs) = true) :
    load8 m s = b ∧ b ≠ 0 ∧ cstrAt m (s + 1) bs = true := by
  rw [cstrAt_cons_eq] at h
  simp only [Bool.and_eq_true, bne_iff_ne, beq_iff_eq] at h
  exact ⟨h.1.2, h.1.1, h.2⟩

theorem bytesAt_cons_eq (m : Mem) (s b : Nat) (bs : List Nat) :
    bytesAt m s (b :: bs) = (load8 m s == b && bytesAt m (s + 1) bs) := rfl

/-- On a C string, a text without zero byte stands at its address exactly when
the string begins with it. -/
theorem bytesAt_iff_prefix (m : Mem) : ∀ (pat bs : List Nat) (s : Nat),
    (∀ b ∈ pat, b ≠ 0) → cstrAt m s bs = true → (bytesAt m s pat = true ↔ pat <+: bs) := by
  intro pat
  induction pat with
  | nil => intro bs s _ _; simp [bytesAt]
  | cons a pat ih =>
    intro bs s hpat hc
    have ha : a ≠ 0 := hpat a (List.mem_cons_self _ _)
    rw [bytesAt_cons_eq]
    cases bs with
    | nil =>
      rw [cstrAt_nil_eq] at hc
      have h0 : load8 m s = 0 := by simpa using hc
      rw [h0]
      constructor
      · intro h
        rw [Bool.and_eq_true, beq_iff_eq] at h
        exact absurd h.1.symm ha
      · intro h
        exact absurd h (by simp)
    | cons b bs =>
      obtain ⟨h1, _, h3⟩ := cstrAt_cons m s b bs hc
      rw [Bool.and_eq_true, beq_iff_eq, h1, ih bs (s + 1) (fun x hx => hpat x (List.mem_cons_of_mem _ hx)) h3,
        List.cons_prefix_cons]
      constructor
      · rintro ⟨h, h2⟩; exact ⟨h.symm, h2⟩
      · rintro ⟨h, h2⟩; exact ⟨h.symm, h2⟩

theorem hasPrefix_iff_prefix (m : Mem) (s : Nat) (bs : List Nat) (h : cstrAt m s bs = true) :
    hasPrefix m s = true ↔ shmPrefix <+: bs := by
  unfold hasPrefix
  apply bytesAt_iff_prefix m shmPrefix bs s _ h
  rw [shmPrefix_eq]
  decide

theorem cstrAt_spec (m : Mem) : ∀ (bs : List Nat) (s : Nat), cstrAt m s bs = true →
    (∀ i, i < bs.length → load8 m (s + i) ≠ 0) ∧ load8 m (s + bs.length) = 0 := by
  intro bs
  induction bs with
  | nil =>
    intro s h
    rw [cstrAt_nil_eq] at h
    exact ⟨fun i hi => absurd hi (by simp), by simpa using h⟩
  | cons b bs ih =>
    intro s h
    obtain ⟨h1, h2, h3⟩ := cstrAt_cons m s b bs h
    obtain ⟨ha, hb⟩ := ih (s + 1) h3
    constructor
    · intro i hi
      cases i with
      | zero => rw [Nat.add_zero, h1]; exact h2
      | succ i =>
        have := ha i (by simpa using hi)
        rw [show s + (i + 1) = s + 1 + i by omega]
        exact this
    · rw [show s + (b :: bs).length = s + 1 + bs.length by simp; omega]
      exact hb

/-- A C string is shorter than `2 ^ 64` bytes. -/
theorem cstrAt_length (m : Mem) (bs : List Nat) (s : Nat) (h : cstrAt m s bs = true) :
    bs.length < 2 ^ 64 := by
  obtain ⟨ha, hb⟩ := cstrAt_spec m bs s h
  by_contra hlen
  have hi := ha (bs.length - 2 ^ 64) (by omega)
  apply hi
  have : s + bs.length = s + (bs.length - 2 ^ 64) + 2 ^ 64 * 1 := by omega
  rw [this, load8_wrap] at hb
  exact hb

theorem wrap32_step (x y : Int) : wrap32 (wrap32 x * 10 + y) = wrap32 (x * 10 + y) := by
  unfold wrap32
  omega

theorem wrap32_neg (x : Int) : wrap32 (-wrap32 x) = wrap32 (-x) := by
  unfold wrap32
  omega

theorem wrap32_id (x : Int) (h1 : -2 ^ 31 ≤ x) (h2 : x < 2 ^ 31) : wrap32 x = x := by
  unfold wrap32
  omega

theorem atoiLoop_succ (m : Mem) (fuel s : Nat) (val : Int) :
    atoiLoop m (fuel + 1) s val =
      if load8 m s = 0 then some val
      else atoiLoop m fuel (s + 1) (wrap32 (val * 10 + (toSignedChar (load8 m s) - 48))) := rfl

/-- The loop of `fork_server_atoi` over a string of decimal digits. -/
theorem atoiLoop_digits (m : Mem) : ∀ (ds : List Nat) (fuel s acc : Nat),
    (∀ d ∈ ds, d < 10) → cstrAt m s (ds.map (fun d => d + 48)) = true → ds.length < fuel →
    atoiLoop m fuel s (wrap32 acc) =
      some (wrap32 ((ds.foldl (fun a d => a * 10 + d) acc : Nat) : Int)) := by
  intro ds
  induction ds with
  | nil =>
    intro fuel s acc _ h hf
    cases fuel with
    | zero => simp at hf
    | succ fuel =>
      rw [List.map_nil, cstrAt_nil_eq] at h
      rw [atoiLoop_succ, if_pos (by simpa using h)]
      rfl
  | cons d ds ih =>
    intro fuel s acc hd h hf
    cases fuel with
    | zero => simp at hf
    | succ fuel =>
      rw [List.map_cons] at h
      obtain ⟨h1, h2, h3⟩ := cstrAt_cons m s _ _ h
      have hd10 : d < 10 := hd d (List.mem_cons_self _ _)
      have hsc : toSignedChar (d + 48) = ((d : Nat) : Int) + 48 := by
        unfold toSignedChar
        have : (d + 48) % 256 = d + 48 := Nat.mod_eq_of_lt (by omega)
        rw [this, if_pos (by omega)]
        push_cast
        rfl
      rw [atoiLoop_succ, if_neg (by rw [h1]; exact h2), h1, hsc, wrap32_step]
      have : ((acc : Nat) : Int) * 10 + (((d : Nat) : Int) + 48 - 48) = ((acc * 10 + d : Nat) : Int) := by
        push_cast; ring
      rw [this, ih fuel (s + 1) (acc * 10 + d) (fun x hx => hd x (List.mem_cons_of_mem _ hx)) h3
        (by simpa using hf)]
      rfl

/-- The text of an integer that fits in an `int` is read back as that integer. -/
theorem atoi_intText (m : Mem) (s : Nat) (neg : Bool) (ds : List Nat)
    (hd : ∀ d ∈ ds, d < 10) (hc : cstrAt m s (intText neg ds) = true)
    (hlo : -2 ^ 31 ≤ intValue neg ds) (hhi : intValue neg ds < 2 ^ 31) :
    fork_server_atoi m s = some (intValue neg ds) := by
  have hlen := cstrAt_length m _ s hc
  cases neg with
  | true =>
    have hc2 : cstrAt m s (45 :: ds.map (fun d => d + 48)) = true := hc
    obtain ⟨h1, _, h3⟩ := cstrAt_cons m s _ _ hc2
    have hl : ds.length < 2 ^ 64 := by
      simp [intText] at hlen; omega
    have hloop := atoiLoop_digits m ds (2 ^ 64) (s + 1) 0 hd h3 hl
    unfold fork_server_atoi
    simp only [h1, decide_True, if_true]
    have h0 : wrap32 ((0 : Nat) : Int) = 0 := by decide
    rw [h0] at hloop
    have hv : wrap32 (-((ds.foldl (fun a d => a * 10 + d) 0 : Nat) : Int)) = intValue true ds := by
      unfold intValue decimal at hlo hhi ⊢
      simp only [if_true] at hlo hhi ⊢
      exact wrap32_id _ hlo hhi
    rw [hloop]
    simp only [Option.map_some', wrap32_neg]
    rw [hv]
  | false =>
    have hc2 : cstrAt m s (ds.map (fun d => d + 48)) = true := by
      simpa [intText] using hc
    have hl : ds.length < 2 ^ 64 := by
      simp [intText] at hlen; omega
    have hloop := atoiLoop_digits m ds (2 ^ 64) s 0 hd hc2 hl
    have hne : load8 m s ≠ 45 := by
      cases ds with
      | nil =>
        rw [List.map_nil, cstrAt_nil_eq] at hc2
        have : load8 m s = 0 := by simpa using hc2
        omega
      | cons d ds =>
        rw [List.map_cons] at hc2
        obtain ⟨h1, _, _⟩ := cstrAt_cons m s _ _ hc2
        omega
    unfold fork_server_atoi
    simp only [hne, decide_False, Bool.false_eq_true, if_false]
    have h0 : wrap32 ((0 : Nat) : Int) = 0 := by decide
    rw [h0] at hloop
    have hv : wrap32 ((ds.foldl (fun a d => a * 10 + d) 0 : Nat) : Int) = intValue false ds := by
      unfold intValue decimal at hlo hhi ⊢
      simp only [Bool.false_eq_true, if_false] at hlo hhi ⊢
      exact wrap32_id _ hlo hhi
    rw [hloop, hv]
    rfl

/-- C16: let the environment block at `envp` be the pointers `ptrs` followed by
a null pointer, in any memory.  (1) If the 13 bytes at no entry are the text
`__AFL_SHM_ID=`, `fork_server_get_shm_id` returns `NO_SHM_ID`, which is -233.
(2) Otherwise it returns what `fork_server_atoi` returns on the text that
follows the 13 bytes of the first such entry.  (3) The three comparisons of the
source hold exactly when the 13 bytes are that text, the two constants being
the little-endian values of its first eight and next four bytes.  (4) For an
entry that is a C string, of any length, the 13 bytes are that text exactly
when the string begins with it.  (5) On the text of an integer that fits in 32
bits signed, an optional `-` and decimal digits, `fork_server_atoi` returns
that integer. -/
theorem C16_shm_id_from_environment (m : Mem) (envp : Nat) (ptrs : List Nat)
    (henv : envAt m envp ptrs = true) :
    ((∀ p ∈ ptrs, hasPrefix m p = false) →
      fork_server_get_shm_id m envp = some NO_SHM_ID ∧ NO_SHM_ID = -233) ∧
    (∀ pre p post, ptrs = pre ++ p :: post → (∀ q ∈ pre, hasPrefix m q = false) →
      hasPrefix m p = true → fork_server_get_shm_id m envp = fork_server_atoi m (p + 13)) ∧
    (∀ s, hasPrefix m s = true ↔
      (loadLE m s 8 = 0x48535f4c46415f5f ∧ loadLE m (s + 8) 4 = 0x44495f4d ∧
        load8 m (s + 12) = 61)) ∧
    (Nat.ofDigits 256 (shmPrefix.take 8) = 0x48535f4c46415f5f ∧
      Nat.ofDigits 256 ((shmPrefix.drop 8).take 4) = 0x44495f4d ∧
      shmPrefix.drop 12 = [61] ∧ Char.toNat '=' = 61) ∧
    (∀ s bs, cstrAt m s bs = true → (hasPrefix m s = true ↔ shmPrefix <+: bs)) ∧
    (∀ s neg ds, (∀ d ∈ ds, d < 10) → cstrAt m s (intText neg ds) = true →
      -2 ^ 31 ≤ intValue neg ds → intValue neg ds < 2 ^ 31 →
      fork_server_atoi m s = some (intValue neg ds)) := by
  refine ⟨fun hno => ⟨get_shm_id_none_found m envp ptrs henv hno, rfl⟩, ?_, hasPrefix_iff m, ?_,
    hasPrefix_iff_prefix m, atoi_intText m⟩
  · intro pre p post hp hno hpre
    subst hp
    exact get_shm_id_first_found m envp pre p post henv hno hpre
  · rw [shmPrefix_eq]
    refine ⟨by norm_num [Nat.ofDigits], by norm_num [Nat.ofDigits], rfl, rfl⟩

set_option maxRecDepth 100000 in
/-- Witness of C16: an environment of two entries, `HOME=/home/fuzz` and
`__AFL_SHM_ID=-42`; the result is -42. -/
theorem C16_shm_id_from_environment_witness :
    envAt (envMem [45, 52, 50]) 0x2000 [0x3000, 0x3100] = true ∧
    cstrAt (envMem [45, 52, 50]) 0x3100 (shmPrefix ++ intText true [4, 2]) = true ∧
    fork_server_get_shm_id (envMem [45, 52, 50]) 0x2000 =
      fork_server_atoi (envMem [45, 52, 50]) (0x3100 + 13) ∧
    fork_server_atoi (envMem [45, 52, 50]) (0x3100 + 13) = some (-42) :=
  have h := C16_shm_id_from_environment (envMem [45, 52, 50]) 0x2000 [0x3000, 0x3100] (by decide)
  ⟨by decide, by decide,
    h.2.1 [0x3000] 0x3100 [] rfl (by decide) (by decide),
    h.2.2.2.2.2 (0x3100 + 13) true [4, 2] (by decide) (by decide) (by decide) (by decide)⟩

/-! ## The start-up -/

/-- The socket is created and `sys_connect` fails: the result is `-1`. -/
theorem connect_pipe_refused (K : StartConfig) (ss : StartSys) (hs : 0 ≤ ss.socket)
    (hd : K.DEBUG = true → ss.strcpy_n < SUN_PATH_SIZE) (hc : ss.connect < 0) :
    fork_server_connect_pipe K ss =
      (Except.ok (-1), [StartEvent.socket ss.socket, StartEvent.connect ss.socket ss.connect,
        StartEvent.close ss.socket]) := by
  have h1 : ¬ ss.socket < 0 := by omega
  have h2 : ¬ (K.DEBUG && decide (ss.strcpy_n ≥ SUN_PATH_SIZE)) = true := by
    intro h
    rw [Bool.and_eq_true, decide_eq_true_eq] at h
    have := hd h.1
    omega
  unfold fork_server_connect_pipe
  simp only []
  rw [if_neg h1, if_neg h2, if_pos hc]

/-- The dry run: no daemon and no shared-memory identifier of the fuzzer. -/
theorem start_dry_run (K : StartConfig) (C : Config) (ss : StartSys) (envp : Nat) (m : Mem)
    (hs : 0 ≤ ss.socket) (hd : K.DEBUG = true → ss.strcpy_n < SUN_PATH_SIZE)
    (hc : ss.connect < 0) (hid : fork_server_get_shm_id m envp = some NO_SHM_ID) :
    (fork_server_start K C ss envp m).ctl = StartCtl.returned ∧
    (fork_server_start K C ss envp m).mem = store8 m (RW_PAGE_ADDR + OFF_daemon_attached) 0 ∧
    (fork_server_start K C ss envp m).trace =
      [StartEvent.socket ss.socket, StartEvent.connect ss.socket ss.connect,
        StartEvent.close ss.socket] := by
  unfold fork_server_start
  rw [connect_pipe_refused K ss hs hd hc]
  simp only [hid]
  exact ⟨rfl, rfl, rfl⟩

/-- No daemon, but a shared-memory identifier of the fuzzer: a fatal error. -/
theorem start_no_daemon_fatal (K : StartConfig) (C : Config) (ss : StartSys) (envp : Nat)
    (m : Mem) (hs : 0 ≤ ss.socket) (hd : K.DEBUG = true → ss.strcpy_n < SUN_PATH_SIZE)
    (hc : ss.connect < 0) (id : Int) (hid : fork_server_get_shm_id m envp = some id)
    (hne : id ≠ NO_SHM_ID) :
    (fork_server_start K C ss envp m).ctl = StartCtl.fatal StartErr.env_setting_err ∧
    (fork_server_start K C ss envp m).mem = m ∧
    (fork_server_start K C ss envp m).trace =
      [StartEvent.socket ss.socket, StartEvent.connect ss.socket ss.connect,
        StartEvent.close ss.socket, StartEvent.error StartErr.env_setting_err] := by
  unfold fork_server_start
  rw [connect_pipe_refused K ss hs hd hc]
  simp only [hid]
  rw [if_pos (by decide), if_pos hne]
  exact ⟨rfl, rfl, rfl⟩

/-- Step 7 is entered only when the daemon is connected. -/
theorem start_loop_connected (K : StartConfig) (C : Config) (ss : StartSys) (envp : Nat)
    (m : Mem) (a : Bool) (h : (fork_server_start K C ss envp m).ctl = StartCtl.loop a) :
    0 ≤ ss.socket ∧ 0 ≤ ss.connect := by
  by_cases h1 : ss.socket < 0
  · exfalso
    unfold fork_server_start fork_server_connect_pipe at h
    simp only [] at h
    rw [if_pos h1] at h
    exact StartCtl.noConfusion h
  · by_cases h2 : (K.DEBUG && decide (ss.strcpy_n ≥ SUN_PATH_SIZE)) = true
    · exfalso
      unfold fork_server_start fork_server_connect_pipe at h
      simp only [] at h
      rw [if_neg h1, if_pos h2] at h
      exact StartCtl.noConfusion h
    · by_cases h3 : ss.connect < 0
      · exfalso
        unfold fork_server_start fork_server_connect_pipe at h
        simp only [] at h
        rw [if_neg h1, if_neg h2, if_pos h3] at h
        simp only [] at h
        rw [if_pos (by decide)] at h
        cases hid : fork_server_get_shm_id m envp with
        | none => rw [hid] at h; exact StartCtl.noConfusion h
        | some id =>
          rw [hid] at h
          simp only [] at h
          by_cases hne : id ≠ NO_SHM_ID
          · rw [if_pos hne] at h; exact StartCtl.noConfusion h
          · rw [if_neg hne] at h; exact StartCtl.noConfusion h
      · exact ⟨by omega, by omega⟩

/-- C15 (amended): the socket is created and `sys_connect` fails, so that
`fork_server_connect_pipe` returns `-1`.  (1) If `fork_server_get_shm_id`
returns `NO_SHM_ID`, `fork_server_start` returns to its caller with
`daemon_attached` set to false, the rest of memory as it was, having made the
three calls `sys_socket`, `sys_connect`, `sys_close` and nothing else: no shared
memory attached, no message on the daemon socket or to the fuzzer, and the loop
of step 7 is not entered, so no child is forked.  (2) That is the case when no
entry of the environment begins with `__AFL_SHM_ID=`.  (3) If it returns another
value, the fork server ends by the fatal error `env_setting_err`, with
`daemon_attached` not written.  (4) That is the case when the first entry that
begins with `__AFL_SHM_ID=` holds the text of an integer other than -233 that
fits in 32 bits signed. -/
theorem C15_dry_run_without_daemon (K : StartConfig) (C : Config) (ss : StartSys) (envp : Nat)
    (m : Mem) (hs : 0 ≤ ss.socket) (hd : K.DEBUG = true → ss.strcpy_n < SUN_PATH_SIZE)
    (hc : ss.connect < 0) :
    (fork_server_get_shm_id m envp = some NO_SHM_ID →
      (fork_server_start K C ss envp m).ctl = StartCtl.returned ∧
      (fork_server_start K C ss envp m).mem = store8 m (RW_PAGE_ADDR + OFF_daemon_attached) 0 ∧
      load8 (fork_server_start K C ss envp m).mem (RW_PAGE_ADDR + OFF_daemon_attached) = 0 ∧
      (fork_server_start K C ss envp m).trace =
        [StartEvent.socket ss.socket, StartEvent.connect ss.socket ss.connect,
          StartEvent.close ss.socket] ∧
      (∀ e ∈ (fork_server_start K C ss envp m).trace, e.isExchange = false) ∧
      ∀ (w : World) (k : Nat), loopAfterStart K C ss w envp m k = none) ∧
    (∀ ptrs, envAt m envp ptrs = true → (∀ p ∈ ptrs, hasPrefix m p = false) →
      fork_server_get_shm_id m envp = some NO_SHM_ID) ∧
    (∀ id, fork_server_get_shm_id m envp = some id → id ≠ NO_SHM_ID →
      (fork_server_start K C ss envp m).ctl = StartCtl.fatal StartErr.env_setting_err ∧
      (fork_server_start K C ss envp m).mem = m ∧
      (fork_server_start K C ss envp m).trace =
        [StartEvent.socket ss.socket, StartEvent.connect ss.socket ss.connect,
          StartEvent.close ss.socket, StartEvent.error StartErr.env_setting_err] ∧
      ∀ (w : World) (k : Nat), loopAfterStart K C ss w envp m k = none) ∧
    (∀ pre p post neg ds, envAt m envp (pre ++ p :: post) = true →
      (∀ q ∈ pre, hasPrefix m q = false) → hasPrefix m p = true →
      (∀ d ∈ ds, d < 10) → cstrAt m (p + 13) (intText neg ds) = true →
      -2 ^ 31 ≤ intValue neg ds → intValue neg ds < 2 ^ 31 → intValue neg ds ≠ -233 →
      (fork_server_start K C ss envp m).ctl = StartCtl.fatal StartErr.env_setting_err) := by
  refine ⟨?_, fun ptrs henv hno => get_shm_id_none_found m envp ptrs henv hno, ?_, ?_⟩
  · intro hid
    obtain ⟨h1, h2, h3⟩ := start_dry_run K C ss envp m hs hd hc hid
    refine ⟨h1, h2, ?_, h3, ?_, ?_⟩
    · rw [h2]
      unfold load8
      rw [store8_same]
    · rw [h3]
      intro e he
      simp at he
      rcases he with rfl | rfl | rfl <;> rfl
    · intro w k
      unfold loopAfterStart
      rw [h1]
  · intro id hid hne
    obtain ⟨h1, h2, h3⟩ := start_no_daemon_fatal K C ss envp m hs hd hc id hid hne
    refine ⟨h1, h2, h3, ?_⟩
    intro w k
    unfold loopAfterStart
    rw [h1]
  · intro pre p post neg ds henv hno hp hds hcs hlo hhi hne
    have hid : fork_server_get_shm_id m envp = some (intValue neg ds) := by
      rw [get_shm_id_first_found m envp pre p post henv hno hp]
      exact atoi_intText m (p + 13) neg ds hds hcs hlo hhi
    exact (start_no_daemon_fatal K C ss envp m hs hd hc _ hid hne).1

/-- C13 (amended): every run of the loop entered with the fuzzer attached,
whatever the statuses of the children, the replies of the daemon and the
results of the system calls.  (1) The run holds no call of `sys_exit` and no
call of `sys_kill`, and (2) the fork server has not ended by `sys_exit`; (3) so
unless it has ended by a fatal error, is the child, or is inside a clear loop
that does not end, it stands at the top of the outer loop or in the patch
round.  (4) The loop is entered only with the daemon connected: when the
start-up enters it, `sys_socket` and `sys_connect` have succeeded, and the run
is the run of the loop from its entry state. -/
theorem C13_never_exits_with_fuzzer (C : Config) (w : World) (m : Mem) (k : Nat) :
    (∀ x ∈ (run C w k (loopInit true m)).trace, x.isExit = false) ∧
    (∀ c, (run C w k (loopInit true m)).ctl ≠ Ctl.exited c) ∧
    ((∀ e, (run C w k (loopInit true m)).ctl ≠ Ctl.fatal e) →
      (run C w k (loopInit true m)).ctl ≠ Ctl.child →
      (run C w k (loopInit true m)).ctl ≠ Ctl.hang →
      (run C w k (loopInit true m)).ctl = Ctl.head ∨
        (run C w k (loopInit true m)).ctl.inRound = true) ∧
    (∀ (K : StartConfig) (ss : StartSys) (envp : Nat) (a : Bool),
      (fork_server_start K C ss envp m).ctl = StartCtl.loop a →
      0 ≤ ss.socket ∧ 0 ≤ ss.connect ∧
      loopAfterStart K C ss w envp m k =
        some (run C w k (loopInit a (fork_server_start K C ss envp m).mem))) := by
  have h := run_no_exit C w (loopInit true m) rfl
    (by intro x hx; simp [loopInit] at hx) (fun c h => Ctl.noConfusion h) k
  refine ⟨h.1, h.2, ?_, ?_⟩
  · intro hf hc hh
    cases hctl : (run C w k (loopInit true m)).ctl with
    | head => exact Or.inl rfl
    | round n b => exact Or.inr rfl
    | child => exact absurd hctl hc
    | fatal e => exact absurd hctl (hf e)
    | exited c => exact absurd hctl (h.2 c)
    | hang => exact absurd hctl hh
  · intro K ss envp a ha
    obtain ⟨h1, h2⟩ := start_loop_connected K C ss envp m a ha
    refine ⟨h1, h2, ?_⟩
    unfold loopAfterStart
    rw [ha]

/-! ## Instances: replay, exit and start-up -/

set_option maxRecDepth 100000 in
/-- Counterexample to C12 as stated: the fuzzer is attached, the first child is
killed by SIGUSR1 and the daemon replies the count 0, so the next turn runs
with `crs_loop` true; its child is killed by SIGSEGV (status 11), a real crash.
The fork server writes the status 11 to the fuzzer, and the only messages on
the daemon socket are those of the first turn: the status 11 is not written to
the daemon. -/
theorem C12_replay_crash_goes_to_fuzzer :
    (run demoConfig (demoWorld (fun t => if t = 0 then 10 else 11) (fun _ => some 0)) 2
      (loopInit true zeroMem)).ctl = Ctl.head ∧
    (run demoConfig (demoWorld (fun t => if t = 0 then 10 else 11) (fun _ => some 0)) 2
      (loopInit true zeroMem)).crs_loop = true ∧
    IS_ABNORMAL_STATUS 11 = true ∧ IS_SUSPECT_STATUS 11 = false ∧
    (run demoConfig (demoWorld (fun t => if t = 0 then 10 else 11) (fun _ => some 0)) 3
      (loopInit true zeroMem)).trace =
      [Event.afl_read 4, Event.clone 1000, Event.afl_write_pid 1000, Event.wait4 1000 1000 10,
        Event.crs_write_status 10, Event.crs_read (some 0), Event.patch 0,
        Event.msync LOOKUP_TABLE_ADDR 0, Event.msync SHADOW_CODE_ADDR 0, Event.clear_map,
        Event.clone 1002, Event.wait4 1002 1002 11, Event.afl_write_status 11] ∧
    Event.crs_write_status 11 ∉
      (run demoConfig (demoWorld (fun t => if t = 0 then 10 else 11) (fun _ => some 0)) 3
        (loopInit true zeroMem)).trace := by
  decide

set_option maxRecDepth 100000 in
/-- Witness of C12: without fuzzer, the second child of a run is forked with
`crs_loop` true and killed by SIGSEGV. -/
theorem C12_real_crash_during_replay_witness :
    (run demoConfig (demoWorld (fun t => if t = 0 then 10 else 11) (fun _ => some 0)) 2
      (loopInit false zeroMem)).crs_loop = true ∧
    (run demoConfig (demoWorld (fun t => if t = 0 then 10 else 11) (fun _ => some 0)) 3
      (loopInit false zeroMem)).trace =
      (run demoConfig (demoWorld (fun t => if t = 0 then 10 else 11) (fun _ => some 0)) 2
        (loopInit false zeroMem)).trace ++
      [Event.clone 1002, Event.wait4 1002 1002 11, Event.crs_write_status 11, Event.kill 0 11] :=
  ⟨by decide,
    (C12_real_crash_during_replay demoConfig
      (demoWorld (fun t => if t = 0 then 10 else 11) (fun _ => some 0))
      (run demoConfig (demoWorld (fun t => if t = 0 then 10 else 11) (fun _ => some 0)) 2
        (loopInit false zeroMem))
      (by decide) (by decide) (by decide) (by decide) (by decide) (by decide)).1 (by decide)⟩

set_option maxRecDepth 100000 in
/-- Counterexample to C14 as stated: without fuzzer, the child is killed by the
reserved marker SIGUSR1 (status 10) and the daemon replies -1.  The signal the
fork server raises is 11 (SIGSEGV), not the signal 10 of the child. -/
theorem C14_confirmed_crash_raises_sigsegv :
    WIFSIGNALED 10 = true ∧ WTERMSIG 10 = 10 ∧
    (step demoConfig (demoWorld (fun _ => 10) (fun _ => some (-1))) (loopInit false zeroMem)).trace =
      [Event.clone 1000, Event.wait4 1000 1000 10, Event.crs_write_status 10,
        Event.crs_read (some (-1)), Event.crs_write_status 139, Event.kill 0 11] ∧
    Event.kill 0 10 ∉
      (step demoConfig (demoWorld (fun _ => 10) (fun _ => some (-1))) (loopInit false zeroMem)).trace := by
  decide

set_option maxRecDepth 100000 in
/-- Witness of C14: without fuzzer, the child exits with code 42 (status
0x2a00) and the fork server exits with code 42. -/
theorem C14_exit_code_and_signal_witness :
    WIFEXITED 0x2a00 = true ∧
    (step demoConfig (demoWorld (fun _ => 0x2a00) (fun _ => none)) (loopInit false zeroMem)).ctl =
      Ctl.exited 42 :=
  ⟨by decide,
    ((C14_exit_code_and_signal demoConfig (demoWorld (fun _ => 0x2a00) (fun _ => none))
      (loopInit false zeroMem) rfl rfl (by decide) (by decide)).1 (by decide) (by decide)).2⟩

set_option maxRecDepth 100000 in
/-- Counterexample to C13 as stated: the daemon is connected and the
environment holds no `__AFL_SHM_ID=`, so the loop is entered without fuzzer.
No call fails.  The first child exits with status 0 and the fork server calls
`sys_exit(0)`; with a first child killed by SIGSEGV it calls `sys_kill(0, 11)`. -/
theorem C13_daemon_without_fuzzer_exits :
    (fork_server_start demoStart demoConfig (demoSys 0) 0x2000 plainEnvMem).ctl =
      StartCtl.loop false ∧
    load8 (fork_server_start demoStart demoConfig (demoSys 0) 0x2000 plainEnvMem).mem
      (RW_PAGE_ADDR + OFF_daemon_attached) = 1 ∧
    (loopAfterStart demoStart demoConfig (demoSys 0) (demoWorld (fun _ => 0) (fun _ => none))
      0x2000 plainEnvMem 1).map (fun s => s.ctl) = some (Ctl.exited 0) ∧
    (loopAfterStart demoStart demoConfig (demoSys 0) (demoWorld (fun _ => 0) (fun _ => none))
      0x2000 plainEnvMem 1).map (fun s => s.trace) =
      some [Event.clone 1000, Event.wait4 1000 1000 0, Event.crs_write_status 0, Event.exit 0] ∧
    (loopAfterStart demoStart demoConfig (demoSys 0) (demoWorld (fun _ => 11) (fun _ => none))
      0x2000 plainEnvMem 1).map (fun s => s.trace) =
      some [Event.clone 1000, Event.wait4 1000 1000 11, Event.crs_write_status 11,
        Event.kill 0 11] := by
  decide

set_option maxRecDepth 100000 in
/-- Counterexample to C15 as stated: `sys_connect` fails and the environment
holds the entry `__AFL_SHM_ID=5`.  The fork server ends by the fatal error
`env_setting_err`; it does not return and does not write `daemon_attached`. -/
theorem C15_no_daemon_with_shm_id_is_fatal :
    (demoSys (-1)).connect < 0 ∧
    envAt (envMem [53]) 0x2000 [0x3000, 0x3100] = true ∧
    cstrAt (envMem [53]) 0x3100 (shmPrefix ++ [53]) = true ∧
    fork_server_get_shm_id (envMem [53]) 0x2000 = some 5 ∧
    (fork_server_start demoStart demoConfig (demoSys (-1)) 0x2000 (envMem [53])).ctl =
      StartCtl.fatal StartErr.env_setting_err ∧
    (fork_server_start demoStart demoConfig (demoSys (-1)) 0x2000 (envMem [53])).trace =
      [StartEvent.socket 5, StartEvent.connect 5 (-1), StartEvent.close 5,
        StartEvent.error StartErr.env_setting_err] := by
  decide

set_option maxRecDepth 100000 in
/-- Witness of C15: `sys_connect` fails and the environment is the single entry
`HOME=/home/fuzz`: the dry run. -/
theorem C15_dry_run_without_daemon_witness :
    (demoSys (-1)).connect < 0 ∧
    (fork_server_start demoStart demoConfig (demoSys (-1)) 0x2000 plainEnvMem).ctl =
      StartCtl.returned ∧
    (fork_server_start demoStart demoConfig (demoSys (-1)) 0x2000 plainEnvMem).trace =
      [StartEvent.socket 5, StartEvent.connect 5 (-1), StartEvent.close 5] :=
  have h := (C15_dry_run_without_daemon demoStart demoConfig (demoSys (-1)) 0x2000 plainEnvMem
    (by decide) (by decide) (by decide)).1 (by decide)
  ⟨by decide, h.1, h.2.2.2.1⟩

/-! ## The tags of a batch and the command map -/

theorem patchLoop_succ (L : CRSLayout) (sys : PatchSys) (cnt i : Nat) (st : PatchState) :
    patchLoop L sys (cnt + 1) i st =
      if (patchCmd L sys i st).err.isSome then patchCmd L sys i st
      else patchLoop L sys cnt (i + 1) (patchCmd L sys i st) := rfl

theorem patchLoop_zero (L : CRSLayout) (sys : PatchSys) (i : Nat) (st : PatchState) :
    patchLoop L sys 0 i st = st := rfl

/-- A record is inspected with the tag it has in the memory that the records
before it have left. -/
theorem patchLoop_tie (L : CRSLayout) (sys : PatchSys) : ∀ (cnt i : Nat) (st : PatchState),
    st.err = none →
    ∃ new, (patchLoop L sys cnt i st).log = st.log ++ new ∧
      ∀ j t, Event.inspect j t ∈ new → i ≤ j ∧ j < i + cnt ∧
        (patchLoop L sys (j - i) i st).err = none ∧
        t = L.cmd_type (patchLoop L sys (j - i) i st).mem j := by
  intro cnt
  induction cnt with
  | zero =>
    intro i st _
    exact ⟨[], by simp [patchLoop], by simp⟩
  | succ cnt ih =>
    intro i st hst
    obtain ⟨rest, hlog, hrest⟩ := patchCmd_log L sys i st
    have hfirst : ∀ j t, Event.inspect j t ∈ Event.inspect i (L.cmd_type st.mem i) :: rest →
        j = i ∧ t = L.cmd_type st.mem i := by
      intro j t h
      rcases List.mem_cons.mp h with h | h
      · injection h with h1 h2
        exact ⟨h1, h2⟩
      · have := (hrest _ h).2
        simp [Event.inspectIdx] at this
    rw [patchLoop_succ]
    by_cases he : (patchCmd L sys i st).err.isSome = true
    · rw [if_pos he]
      refine ⟨Event.inspect i (L.cmd_type st.mem i) :: rest, hlog, ?_⟩
      intro j t h
      obtain ⟨h1, h2⟩ := hfirst j t h
      subst h1
      rw [Nat.sub_self, patchLoop_zero]
      exact ⟨le_refl _, by omega, hst, h2⟩
    · rw [if_neg he]
      have he2 : (patchCmd L sys i st).err = none := by
        cases h : (patchCmd L sys i st).err with
        | none => rfl
        | some e => rw [h] at he; simp at he
      obtain ⟨new, hlog2, hnew⟩ := ih (i + 1) (patchCmd L sys i st) he2
      refine ⟨Event.inspect i (L.cmd_type st.mem i) :: rest ++ new, ?_, ?_⟩
      · rw [hlog2, hlog]; simp [List.append_assoc]
      · intro j t h
        rcases List.mem_append.mp h with h | h
        · obtain ⟨h1, h2⟩ := hfirst j t h
          subst h1
          rw [Nat.sub_self, patchLoop_zero]
          exact ⟨le_refl _, by omega, hst, h2⟩
        · obtain ⟨h1, h2, h3, h4⟩ := hnew j t h
          have hj : j - i = (j - (i + 1)) + 1 := by omega
          have hpre : patchLoop L sys (j - i) i st =
              patchLoop L sys (j - (i + 1)) (i + 1) (patchCmd L sys i st) := by
            rw [hj, patchLoop_succ, if_neg he]
          rw [hpre]
          exact ⟨by omega, by omega, h3, h4⟩

theorem fork_server_patch_loop (L : CRSLayout) (sys : PatchSys) (n : Int) (flag : Bool) (m : Mem)
    (hn : ¬ n > L.CRS_MAP_MAX_CMD_N) :
    fork_server_patch L sys n flag m = patchLoop L sys n.toNat 0
      { mem := m, shadow_need_sync := flag, log := [], err := none } := by
  unfold fork_server_patch; rw [if_neg hn]

/-- Every record that `fork_server_patch(n, ..)` inspects is inspected with the
tag it has in the memory left by `fork_server_patch(i, ..)`, the records before
it, which have been applied without error. -/
theorem inspect_tie (L : CRSLayout) (sys : PatchSys) (n : Int) (flag : Bool) (m : Mem)
    (i t : Nat) (h : Event.inspect i t ∈ (fork_server_patch L sys n flag m).log) :
    (i : Int) < n ∧ (fork_server_patch L sys i flag m).err = none ∧
      t = L.cmd_type (fork_server_patch L sys i flag m).mem i := by
  by_cases hn : n > L.CRS_MAP_MAX_CMD_N
  · exfalso
    have hdef : fork_server_patch L sys n flag m =
        { mem := m, shadow_need_sync := flag, log := [Event.error Err.patch_cmd_err],
          err := some Err.patch_cmd_err } := by
      unfold fork_server_patch utils_error; rw [if_pos hn]; rfl
    rw [hdef] at h
    simp at h
  · rw [fork_server_patch_loop L sys n flag m hn] at h
    obtain ⟨new, hlog, hnew⟩ := patchLoop_tie L sys n.toNat 0
      { mem := m, shadow_need_sync := flag, log := [], err := none } rfl
    rw [hlog] at h
    simp only [List.nil_append] at h
    obtain ⟨_, h2, h3, h4⟩ := hnew i t h
    have hi : (i : Int) < n := by omega
    have hin : ¬ ((i : Nat) : Int) > L.CRS_MAP_MAX_CMD_N := by omega
    rw [fork_server_patch_loop L sys i flag m hin]
    rw [Nat.sub_zero] at h3 h4
    exact ⟨hi, by simpa using h3, by simpa using h4⟩

/-- Without error every one of the first `n` records is inspected. -/
theorem inspect_all (L : CRSLayout) (sys : PatchSys) (n : Int) (flag : Bool) (m : Mem)
    (herr : (fork_server_patch L sys n flag m).err = none) (i : Nat) (hi : (i : Int) < n) :
    ∃ t, Event.inspect i t ∈ (fork_server_patch L sys n flag m).log := by
  by_cases hn : n > L.CRS_MAP_MAX_CMD_N
  · exfalso
    have hdef : fork_server_patch L sys n flag m =
        { mem := m, shadow_need_sync := flag, log := [Event.error Err.patch_cmd_err],
          err := some Err.patch_cmd_err } := by
      unfold fork_server_patch utils_error; rw [if_pos hn]; rfl
    rw [hdef] at herr
    exact Option.noConfusion herr
  · obtain ⟨k, new, _, _, hlog, hidx, _, hnone, _, _⟩ := patchLoop_spec L sys n.toNat 0
      { mem := m, shadow_need_sync := flag, log := [], err := none }
    rw [← fork_server_patch_loop L sys n flag m hn] at hlog hnone
    simp only [List.nil_append] at hlog
    apply idx_mem_inspect
    rw [hlog, hidx, (hnone herr).1, ← List.range_eq_range', List.mem_range]
    omega

/-- The fatal path in terms of the memory: with system calls that succeed,
`fork_server_patch(n, ..)` is fatal exactly when `n > CRS_MAP_MAX_CMD_N` or one
of the first `n` records has an unknown tag in the memory left by the records
before it. -/
theorem patch_fatal_visited (L : CRSLayout) (sys : PatchSys) (n : Int) (flag : Bool) (m : Mem)
    (hmunmap : ∀ k, sys.munmap k = 0) (hmmap : ∀ k, (sys.mmap_external_file k).isSome = true)
    (hmprotect : ∀ k, sys.mprotect k = 0) :
    (fork_server_patch L sys n flag m).err.isSome = true ↔
      (n > L.CRS_MAP_MAX_CMD_N ∨ ∃ i : Nat, (i : Int) < n ∧
        L.validTag (L.cmd_type (fork_server_patch L sys i flag m).mem i) = false) := by
  have hold := (patch_fatal_inspected L sys n flag m hmunmap hmmap hmprotect).1
  rw [hold]
  constructor
  · rintro (h | ⟨i, t, hi, ht⟩)
    · exact Or.inl h
    · obtain ⟨h1, _, h3⟩ := inspect_tie L sys n flag m i t hi
      exact Or.inr ⟨i, h1, by rw [← h3]; exact ht⟩
  · rintro (h | ⟨i, hi, ht⟩)
    · exact Or.inl h
    · by_contra hcon
      have hnoerr : (fork_server_patch L sys n flag m).err = none := by
        cases h : (fork_server_patch L sys n flag m).err with
        | none => rfl
        | some e => exact absurd (hold.mp (by rw [h]; rfl)) hcon
      obtain ⟨t, ht2⟩ := inspect_all L sys n flag m hnoerr i hi
      obtain ⟨_, _, h3⟩ := inspect_tie L sys n flag m i t ht2
      exact hcon (Or.inr ⟨i, t, ht2, by rw [h3]; exact ht⟩)

theorem storeLE_other (x : Nat) : ∀ (w : Nat) (m : Mem) (a v : Nat),
    (∀ k, k < w → x ≠ (a + k) % 2 ^ 64) → storeLE m a v w x = m x := by
  intro w
  induction w with
  | zero => intro m a v _; rfl
  | succ w ih =>
    intro m a v h
    unfold storeLE
    rw [ih (store8 m a v) (a + 1) (v / 256) (by
      intro k hk
      have := h (k + 1) (by omega)
      rw [show a + (k + 1) = a + 1 + k by omega] at this
      exact this)]
    exact store8_other _ _ _ _ (by simpa using h 0 (Nat.succ_pos w))

/-- The byte loop of a REWRITE keeps every property of memory that fixes its
operands and that its stores keep. -/
theorem rewriteLoop_keeps (L : CRSLayout) (i sz A : Nat) (P : Mem → Prop)
    (hP : ∀ m2, P m2 → L.cmd_size m2 i = sz ∧ program_base m2 + L.cmd_addr m2 i = A)
    (hstep : ∀ m2 j v, P m2 → j < sz → P (store8 m2 (A + j) v)) :
    ∀ (fuel j : Nat) (m2 : Mem), P m2 → P (rewriteLoop L i fuel j m2) := by
  intro fuel
  induction fuel with
  | zero => intro j m2 hm; exact hm
  | succ fuel ih =>
    intro j m2 hm
    obtain ⟨h1, h2⟩ := hP m2 hm
    unfold rewriteLoop
    by_cases hlt : j < sz
    · rw [h1, if_pos hlt, h2]
      exact ih (j + 1) _ (hstep m2 j _ hm hlt)
    · rw [h1, if_neg hlt]
      exact hm

/-- Memories that agree on the guarded bytes give the same `program_base`. -/
theorem guarded_base (L : CRSLayout) (m m2 : Mem)
    (h : ∀ a, L.guarded a = true → m2 a = m a) : program_base m2 = program_base m := by
  unfold program_base
  apply loadLE_congr
  intro k hk
  apply h
  have hlt : RW_PAGE_ADDR + OFF_program_base + k < 2 ^ 64 := by
    unfold RW_PAGE_ADDR OFF_program_base; omega
  rw [Nat.mod_eq_of_lt hlt]
  unfold CRSLayout.guarded inBase
  simp only [Bool.or_eq_true, decide_eq_true_eq]
  right
  omega

theorem guarded_map (L : CRSLayout) (m m2 : Mem)
    (h : ∀ a, L.guarded a = true → m2 a = m a) : ∀ a, L.inMap a = true → m2 a = m a := by
  intro a ha
  apply h
  unfold CRSLayout.guarded
  rw [ha]
  rfl

/-- What one record does to memory. -/
theorem patchCmd_mem (L : CRSLayout) (sys : PatchSys) (i : Nat) (st : PatchState) :
    (patchCmd L sys i st).mem = st.mem ∨
    (L.cmd_type st.mem i = L.CRS_CMD_REMMAP ∧ ∃ sz, (patchCmd L sys i st).mem =
      storeLE (sys.mmap_mem i st.mem) (RW_PAGE_ADDR + OFF_shadow_size) sz 8) ∨
    (L.cmd_type st.mem i = L.CRS_CMD_REWRITE ∧
      (patchCmd L sys i st).mem = rewriteLoop L i (2 ^ 31) 0 st.mem) := by
  unfold patchCmd utils_error utils_mmap_external_file
  simp only
  split_ifs with a b c d e f
  · exact Or.inl rfl
  · exact Or.inl rfl
  · cases hm : sys.mmap_external_file i with
    | none => exact Or.inl rfl
    | some sz => exact Or.inr (Or.inl ⟨b, sz, rfl⟩)
  · exact Or.inr (Or.inr ⟨d, rfl⟩)
  · exact Or.inl rfl
  · exact Or.inl rfl
  · exact Or.inl rfl

/-- One record of a stable batch leaves the guarded bytes as they are. -/
theorem patchCmd_guarded (L : CRSLayout) (hS : L.Sound) (sys : PatchSys) (m : Mem) (i : Nat)
    (st : PatchState) (hi : (i : Int) < L.CRS_MAP_MAX_CMD_N)
    (hrw : L.cmd_type m i = L.CRS_CMD_REWRITE → ∀ j, j < L.cmd_size m i →
      L.guarded ((program_base m + L.cmd_addr m i + j) % 2 ^ 64) = false)
    (hrm : L.cmd_type m i = L.CRS_CMD_REMMAP →
      (∀ (m2 : Mem) (a : Nat), L.guarded a = true → sys.mmap_mem i m2 a = m2 a) ∧
      ∀ k, k < 8 → L.inMap (RW_PAGE_ADDR + OFF_shadow_size + k) = false)
    (h : ∀ a, L.guarded a = true → st.mem a = m a) :
    ∀ a, L.guarded a = true → (patchCmd L sys i st).mem a = m a := by
  obtain ⟨f1, f2, f3, _, _⟩ := sound_fields L hS m st.mem i hi (guarded_map L m st.mem h)
  rcases patchCmd_mem L sys i st with hm | ⟨t2, sz, hm⟩ | ⟨t3, hm⟩
  · rw [hm]; exact h
  · obtain ⟨g1, g2⟩ := hrm (by rw [← f1]; exact t2)
    rw [hm]
    intro a ha
    rw [storeLE_other a 8 _ _ _ (by
      intro k hk hEq
      have hlt : RW_PAGE_ADDR + OFF_shadow_size + k < 2 ^ 64 := by
        unfold RW_PAGE_ADDR OFF_shadow_size; omega
      rw [Nat.mod_eq_of_lt hlt] at hEq
      have hg := g2 k hk
      rw [← hEq] at hg
      unfold CRSLayout.guarded at ha
      rw [hg, Bool.false_or] at ha
      unfold inBase at ha
      rw [decide_eq_true_eq, hEq] at ha
      unfold RW_PAGE_ADDR OFF_shadow_size OFF_program_base at ha
      omega), g1 st.mem a ha]
    exact h a ha
  · rw [hm]
    have htarget := hrw (by rw [← f1]; exact t3)
    exact rewriteLoop_keeps L i (L.cmd_size m i) (program_base m + L.cmd_addr m i)
      (fun m2 => ∀ a, L.guarded a = true → m2 a = m a)
      (by
        intro m2 hm2
        obtain ⟨_, q2, q3, _, _⟩ := sound_fields L hS m m2 i hi (guarded_map L m m2 hm2)
        exact ⟨q3, by rw [guarded_base L m m2 hm2, q2]⟩)
      (by
        intro m2 j v hm2 hj a ha
        rw [store8_other _ _ _ _ (by
          intro hEq
          rw [hEq, htarget j hj] at ha
          exact Bool.noConfusion ha)]
        exact hm2 a ha)
      (2 ^ 31) 0 st.mem h

/-- A stable batch leaves the guarded bytes as they are, however far it gets. -/
theorem patchLoop_guarded (L : CRSLayout) (hS : L.Sound) (sys : PatchSys) (m : Mem) (n : Int)
    (hn : n ≤ L.CRS_MAP_MAX_CMD_N) (hst : StableBatch L sys n m) :
    ∀ (cnt i : Nat) (st : PatchState), ((i + cnt : Nat) : Int) ≤ n →
      (∀ a, L.guarded a = true → st.mem a = m a) →
      ∀ a, L.guarded a = true → (patchLoop L sys cnt i st).mem a = m a := by
  intro cnt
  induction cnt with
  | zero => intro i st _ h; exact h
  | succ cnt ih =>
    intro i st hle h
    have hi : (i : Int) < n := by omega
    have h1 := patchCmd_guarded L hS sys m i st (by omega) (hst.1 i hi) (hst.2 i hi) h
    rw [patchLoop_succ]
    by_cases he : (patchCmd L sys i st).err.isSome = true
    · rw [if_pos he]; exact h1
    · rw [if_neg he]
      exact ih (i + 1) _ (by omega) h1

/-- In a stable batch every record keeps, until it is visited, the tag it has
on entry. -/
theorem stable_tags (L : CRSLayout) (hS : L.Sound) (sys : PatchSys) (m : Mem) (n : Int)
    (flag : Bool) (hn : n ≤ L.CRS_MAP_MAX_CMD_N) (hst : StableBatch L sys n m)
    (i : Nat) (hi : (i : Int) < n) :
    L.cmd_type (fork_server_patch L sys i flag m).mem i = L.cmd_type m i := by
  have hin : ¬ ((i : Nat) : Int) > L.CRS_MAP_MAX_CMD_N := by omega
  rw [fork_server_patch_loop L sys i flag m hin]
  have hg := patchLoop_guarded L hS sys m n hn hst (i : Int).toNat 0
    { mem := m, shadow_need_sync := flag, log := [], err := none }
    (by simp; omega) (fun a _ => rfl)
  exact (sound_fields L hS m _ i (by omega) (guarded_map L m _ hg)).1

/-- The flag in terms of the memory: when `fork_server_patch(n, ..)` returns,
the flag is false if one of the first `n` records is REMMAP in the memory left
by the records before it, and keeps its prior value otherwise. -/
theorem remmap_flag_visited (L : CRSLayout) (sys : PatchSys) (n : Int) (b : Bool) (m : Mem)
    (hne : L.CRS_CMD_NONE ≠ L.CRS_CMD_REMMAP)
    (herr : (fork_server_patch L sys n b m).err = none) :
    ((∃ i : Nat, (i : Int) < n ∧
        L.cmd_type (fork_server_patch L sys i b m).mem i = L.CRS_CMD_REMMAP) →
      (fork_server_patch L sys n b m).shadow_need_sync = false) ∧
    ((¬ ∃ i : Nat, (i : Int) < n ∧
        L.cmd_type (fork_server_patch L sys i b m).mem i = L.CRS_CMD_REMMAP) →
      (fork_server_patch L sys n b m).shadow_need_sync = b) := by
  obtain ⟨hyes, hno, _⟩ := (remmap_flag_inspected L sys n b m hne).1 herr
  constructor
  · rintro ⟨i, hi, ht⟩
    obtain ⟨t, ht2⟩ := inspect_all L sys n b m herr i hi
    obtain ⟨_, _, h3⟩ := inspect_tie L sys n b m i t ht2
    exact hyes ⟨i, by rw [← ht, ← h3]; exact ht2⟩
  · intro h
    apply hno
    rintro ⟨i, hi⟩
    obtain ⟨h1, _, h3⟩ := inspect_tie L sys n b m i _ hi
    exact h ⟨i, h1, h3.symm⟩

/-- C8 (amended): suppose `sys_munmap`, the mapping of the shadow file and
`sys_mprotect` succeed.  (1) `fork_server_patch(n, flag)` ends in the fatal
error path exactly when `n > CRS_MAP_MAX_CMD_N` or one of the first `n` records
has, in the memory left by the records before it, a tag other than NONE,
REMMAP, REWRITE, MPROTECT.  (2) When `n > CRS_MAP_MAX_CMD_N` the error comes
before anything else: no record is inspected, memory and flag are untouched.
(3) The records are inspected in index order `0, 1, .., k - 1` with `k <= n`
(and `k = n` without error).  (4) Each inspection of a record `i` has `i < n`,
comes after the records before it were applied without error, and finds the
tag that record `i` has in the memory they left; (5) for record 0 this is the
memory on entry.  (6) For a sound layout and a stable batch, one whose REWRITE
and REMMAP records leave the command map and `program_base` alone, every record
keeps until it is visited the tag it has on entry, and the fatal path is taken
exactly when `n > CRS_MAP_MAX_CMD_N` or one of the first `n` records of the
command map on entry has an unknown tag. -/
theorem C8_patch_fatal_iff (L : CRSLayout) (sys : PatchSys) (n : Int) (flag : Bool) (m : Mem)
    (hmunmap : ∀ k, sys.munmap k = 0)
    (hmmap : ∀ k, (sys.mmap_external_file k).isSome = true)
    (hmprotect : ∀ k, sys.mprotect k = 0) :
    ((fork_server_patch L sys n flag m).err.isSome = true ↔
      (n > L.CRS_MAP_MAX_CMD_N ∨ ∃ i : Nat, (i : Int) < n ∧
        L.validTag (L.cmd_type (fork_server_patch L sys i flag m).mem i) = false)) ∧
    (n > L.CRS_MAP_MAX_CMD_N →
      (fork_server_patch L sys n flag m).err = some Err.patch_cmd_err ∧
      (fork_server_patch L sys n flag m).mem = m ∧
      (fork_server_patch L sys n flag m).shadow_need_sync = flag ∧
      (fork_server_patch L sys n flag m).log = [Event.error Err.patch_cmd_err]) ∧
    (∃ k, k ≤ n.toNat ∧
      (fork_server_patch L sys n flag m).log.filterMap Event.inspectIdx = List.range k ∧
      ((fork_server_patch L sys n flag m).err = none → k = n.toNat)) ∧
    (∀ i t, Event.inspect i t ∈ (fork_server_patch L sys n flag m).log →
      (i : Int) < n ∧ (fork_server_patch L sys i flag m).err = none ∧
      t = L.cmd_type (fork_server_patch L sys i flag m).mem i) ∧
    ((fork_server_patch L sys 0 flag m).mem = m) ∧
    (L.Sound → StableBatch L sys n m →
      (n ≤ L.CRS_MAP_MAX_CMD_N → ∀ i : Nat, (i : Int) < n →
        L.cmd_type (fork_server_patch L sys i flag m).mem i = L.cmd_type m i) ∧
      ((fork_server_patch L sys n flag m).err.isSome = true ↔
        (n > L.CRS_MAP_MAX_CMD_N ∨
          ∃ i : Nat, (i : Int) < n ∧ L.validTag (L.cmd_type m i) = false))) := by
  obtain ⟨_, h2, h3, _⟩ := patch_fatal_inspected L sys n flag m hmunmap hmmap hmprotect
  have hv := patch_fatal_visited L sys n flag m hmunmap hmmap hmprotect
  refine ⟨hv, h2, h3, inspect_tie L sys n flag m, ?_, ?_⟩
  · unfold fork_server_patch utils_error
    split_ifs <;> rfl
  · intro hS hst
    refine ⟨fun hn i hi => stable_tags L hS sys m n flag hn hst i hi, ?_⟩
    rw [hv]
    by_cases hn : n > L.CRS_MAP_MAX_CMD_N
    · simp [hn]
    · have hle : n ≤ L.CRS_MAP_MAX_CMD_N := by omega
      constructor
      · rintro (h | ⟨i, hi, ht⟩)
        · exact Or.inl h
        · exact Or.inr ⟨i, hi, by rw [← stable_tags L hS sys m n flag hle hst i hi]; exact ht⟩
      · rintro (h | ⟨i, hi, ht⟩)
        · exact Or.inl h
        · exact Or.inr ⟨i, hi, by rw [stable_tags L hS sys m n flag hle hst i hi]; exact ht⟩

/-- C9 (amended): the tags NONE and REMMAP being distinct, for every count `n`
and every prior value `b` of the flag.  (1) Whenever `fork_server_patch`
returns, the flag is false if one of the first `n` records is REMMAP in the
memory left by the records before it, and is `b` otherwise, so NONE, REWRITE and
MPROTECT records leave it alone.  (2) For a sound layout and a stable batch, one
whose REWRITE and REMMAP records leave the command map and `program_base` alone,
this is: false if one of the first `n` records of the command map on entry is
REMMAP, and `b` otherwise.  (3) `fork_server_patch` does return for
`n <= CRS_MAP_MAX_CMD_N` when the system calls succeed and every record has a
known tag in the memory left by the records before it; (4) for a stable batch,
when every one of the first `n` records of the command map on entry has a known
tag. -/
theorem C9_remmap_clears_flag (L : CRSLayout) (sys : PatchSys) (n : Int) (b : Bool) (m : Mem)
    (hne : L.CRS_CMD_NONE ≠ L.CRS_CMD_REMMAP) :
    ((fork_server_patch L sys n b m).err = none →
      ((∃ i : Nat, (i : Int) < n ∧
          L.cmd_type (fork_server_patch L sys i b m).mem i = L.CRS_CMD_REMMAP) →
        (fork_server_patch L sys n b m).shadow_need_sync = false) ∧
      ((¬ ∃ i : Nat, (i : Int) < n ∧
          L.cmd_type (fork_server_patch L sys i b m).mem i = L.CRS_CMD_REMMAP) →
        (fork_server_patch L sys n b m).shadow_need_sync = b)) ∧
    (L.Sound → StableBatch L sys n m → (fork_server_patch L sys n b m).err = none →
      ((∃ i : Nat, (i : Int) < n ∧ L.cmd_type m i = L.CRS_CMD_REMMAP) →
        (fork_server_patch L sys n b m).shadow_need_sync = false) ∧
      ((¬ ∃ i : Nat, (i : Int) < n ∧ L.cmd_type m i = L.CRS_CMD_REMMAP) →
        (fork_server_patch L sys n b m).shadow_need_sync = b)) ∧
    (n ≤ L.CRS_MAP_MAX_CMD_N → (∀ k, sys.munmap k = 0) →
      (∀ k, (sys.mmap_external_file k).isSome = true) → (∀ k, sys.mprotect k = 0) →
      (∀ i : Nat, (i : Int) < n →
        L.validTag (L.cmd_type (fork_server_patch L sys i b m).mem i) = true) →
      (fork_server_patch L sys n b m).err = none) ∧
    (L.Sound → StableBatch L sys n m → n ≤ L.CRS_MAP_MAX_CMD_N → (∀ k, sys.munmap k = 0) →
      (∀ k, (sys.mmap_external_file k).isSome = true) → (∀ k, sys.mprotect k = 0) →
      (∀ i : Nat, (i : Int) < n → L.validTag (L.cmd_type m i) = true) →
      (fork_server_patch L sys n b m).err = none) := by
  have hret : n ≤ L.CRS_MAP_MAX_CMD_N → (∀ k, sys.munmap k = 0) →
      (∀ k, (sys.mmap_external_file k).isSome = true) → (∀ k, sys.mprotect k = 0) →
      (∀ i : Nat, (i : Int) < n →
        L.validTag (L.cmd_type (fork_server_patch L sys i b m).mem i) = true) →
      (fork_server_patch L sys n b m).err = none := by
    intro hn h1 h2 h3 hval
    cases h : (fork_server_patch L sys n b m).err with
    | none => rfl
    | some e =>
      exfalso
      rcases (patch_fatal_visited L sys n b m h1 h2 h3).mp (by rw [h]; rfl) with hgt | ⟨i, hi, ht⟩
      · omega
      · rw [hval i hi] at ht
        exact Bool.noConfusion ht
  refine ⟨remmap_flag_visited L sys n b m hne, ?_, hret, ?_⟩
  · intro hS hst herr
    have hle : n ≤ L.CRS_MAP_MAX_CMD_N := by
      by_contra hn
      have hdef : fork_server_patch L sys n b m =
          { mem := m, shadow_need_sync := b, log := [Event.error Err.patch_cmd_err],
            err := some Err.patch_cmd_err } := by
        unfold fork_server_patch utils_error; rw [if_pos (by omega)]; rfl
      rw [hdef] at herr
      exact Option.noConfusion herr
    obtain ⟨hyes, hno⟩ := remmap_flag_visited L sys n b m hne herr
    constructor
    · rintro ⟨i, hi, ht⟩
      exact hyes ⟨i, hi, by rw [stable_tags L hS sys m n b hle hst i hi]; exact ht⟩
    · intro h
      apply hno
      rintro ⟨i, hi, ht⟩
      exact h ⟨i, hi, by rw [← stable_tags L hS sys m n b hle hst i hi]; exact ht⟩
  · intro hS hst hn h1 h2 h3 hval
    apply hret hn h1 h2 h3
    intro i hi
    rw [stable_tags L hS sys m n b hn hst i hi]
    exact hval i hi

set_option maxRecDepth 100000 in
/-- Counterexample to C8 as stated: `CRS_MAP_MAX_CMD_N` is 4 and `n` is 2, the
system calls succeed, record 0 is a REWRITE and record 1 is NONE, both known
tags; but the REWRITE stores the byte 9 over the tag of record 1, which is
then visited with the unknown tag 9: `fork_server_patch(2, ..)` ends in the
fatal path although none of the first two records of the command map had an
unknown tag. -/
theorem C8_rewrite_makes_tag_unknown :
    ¬ ((2 : Int) > demoLayout.CRS_MAP_MAX_CMD_N) ∧
    demoLayout.cmd_type (selfRewriteMem 9) 0 = demoLayout.CRS_CMD_REWRITE ∧
    demoLayout.cmd_type (selfRewriteMem 9) 1 = demoLayout.CRS_CMD_NONE ∧
    demoLayout.validTag (demoLayout.cmd_type (selfRewriteMem 9) 0) = true ∧
    demoLayout.validTag (demoLayout.cmd_type (selfRewriteMem 9) 1) = true ∧
    (fork_server_patch demoLayout okSys 2 true (selfRewriteMem 9)).err = some Err.cmd_err ∧
    demoLayout.cmd_type (fork_server_patch demoLayout okSys 1 true (selfRewriteMem 9)).mem 1 = 9 ∧
    (fork_server_patch demoLayout okSys 2 true (selfRewriteMem 9)).log =
      [Event.inspect 0 1, Event.inspect 1 9, Event.error Err.cmd_err] := by
  decide

set_option maxRecDepth 100000 in
/-- Counterexample to C9 as stated: record 0 is a REWRITE and record 1 is NONE,
so none of the first two records of the command map is REMMAP; but the REWRITE
stores the tag of REMMAP over the tag of record 1, which is then applied as a
REMMAP: `fork_server_patch(2, ..)` returns with the flag false, not with its
prior value true. -/
theorem C9_rewrite_makes_remmap :
    ¬ ((2 : Int) > demoLayout.CRS_MAP_MAX_CMD_N) ∧
    demoLayout.cmd_type (selfRewriteMem 3) 0 = demoLayout.CRS_CMD_REWRITE ∧
    demoLayout.cmd_type (selfRewriteMem 3) 1 = demoLayout.CRS_CMD_NONE ∧
    demoLayout.CRS_CMD_REWRITE ≠ demoLayout.CRS_CMD_REMMAP ∧
    demoLayout.CRS_CMD_NONE ≠ demoLayout.CRS_CMD_REMMAP ∧
    (fork_server_patch demoLayout okSys 2 true (selfRewriteMem 3)).err = none ∧
    (fork_server_patch demoLayout okSys 2 true (selfRewriteMem 3)).shadow_need_sync = false ∧
    demoLayout.cmd_type (fork_server_patch demoLayout okSys 1 true (selfRewriteMem 3)).mem 1 =
      demoLayout.CRS_CMD_REMMAP := by
  decide

set_option maxRecDepth 100000 in
/-- Witness of C8 (amended): with system calls that succeed, a batch of two
records, NONE and a record with the unknown tag 9, is stable and ends in the
fatal path (`cmd_err`). -/
theorem C8_patch_fatal_iff_witness :
    (∀ k, okSys.munmap k = 0) ∧ (∀ k, (okSys.mmap_external_file k).isSome = true) ∧
    (∀ k, okSys.mprotect k = 0) ∧
    demoLayout.validTag (demoLayout.cmd_type badTagMem 1) = false ∧
    (fork_server_patch demoLayout okSys 2 true badTagMem).err.isSome = true :=
  have hst : StableBatch demoLayout okSys 2 badTagMem :=
    ⟨fun i hi ht => by
        have : i = 0 ∨ i = 1 := by omega
        rcases this with rfl | rfl
        · exact absurd ht (by decide)
        · exact absurd ht (by decide),
      fun i hi ht => by
        have : i = 0 ∨ i = 1 := by omega
        rcases this with rfl | rfl
        · exact absurd ht (by decide)
        · exact absurd ht (by decide)⟩
  have h := (C8_patch_fatal_iff demoLayout okSys 2 true badTagMem (fun _ => rfl) (fun _ => rfl)
    (fun _ => rfl)).2.2.2.2.2 (flatLayout_sound 0x400000 4 (by norm_num)) hst
  ⟨fun _ => rfl, fun _ => rfl, fun _ => rfl, by decide,
    h.2.mpr (Or.inr ⟨1, by decide, by decide⟩)⟩

set_option maxRecDepth 100000 in
/-- Witness of C9 (amended): a batch of two records, REMMAP then NONE, entered
with the flag true and run with system calls that succeed, is stable, returns
without error and leaves the flag false. -/
theorem C9_remmap_clears_flag_witness :
    demoLayout.CRS_CMD_NONE ≠ demoLayout.CRS_CMD_REMMAP ∧
    demoLayout.cmd_type remmapMem 0 = demoLayout.CRS_CMD_REMMAP ∧
    (fork_server_patch demoLayout okSys 2 true remmapMem).err = none ∧
    (fork_server_patch demoLayout okSys 2 true remmapMem).shadow_need_sync = false :=
  have hst : StableBatch demoLayout okSys 2 remmapMem :=
    ⟨fun i hi ht => by
        have : i = 0 ∨ i = 1 := by omega
        rcases this with rfl | rfl
        · exact absurd ht (by decide)
        · exact absurd ht (by decide),
      fun i _ _ => ⟨fun _ _ _ => rfl, by decide⟩⟩
  have hS := flatLayout_sound 0x400000 4 (by norm_num)
  have h := C9_remmap_clears_flag demoLayout okSys 2 true remmapMem (by decide)
  have hret := h.2.2.2 hS hst (by decide) (fun _ => rfl) (fun _ => rfl) (fun _ => rfl)
    (fun i hi => by
      have : i = 0 ∨ i = 1 := by omega
      rcases this with rfl | rfl
      · decide
      · decide)
  ⟨by decide, by decide, hret, (h.2.1 hS hst hret).1 ⟨0, by decide, by decide⟩⟩

end StochFuzz
